import Mathlib

/-!
Verification of the screenplay parsing and round-trip token model of the
breakdown repository.  The definitions below are shallow embeddings of the
JavaScript sources src/main/utils/regex.js, src/main/utils/parser.js and
src/main/utils/savescript.js.  Strings are modelled as lists of characters;
each regular expression of regex.js is embedded as a bespoke total matcher
that follows the backtracking semantics of the JavaScript engine on the
pattern in question (the relevant determinism arguments are noted inline).
-/

set_option maxRecDepth 100000

namespace BD

abbrev Chars := List Char

/-- JavaScript whitespace (ASCII part), as matched by backslash-s and trim. -/
def isWsChar (c : Char) : Bool :=
  c = ' ' || c = '\t' || c = '\n' || c = '\r' || c = '\x0b' || c = '\x0c'

def isDigitCh (c : Char) : Bool := '0' ≤ c && c ≤ '9'

def isUpperCh (c : Char) : Bool := 'A' ≤ c && c ≤ 'Z'

def isLowerCh (c : Char) : Bool := 'a' ≤ c && c ≤ 'z'

def isAlphaCh (c : Char) : Bool := isUpperCh c || isLowerCh c

/-- JavaScript word character class (backslash-w): ASCII letters, digits, underscore. -/
def isWordCh (c : Char) : Bool := isAlphaCh c || isDigitCh c || c = '_'

/-- ASCII upper-casing of one character (the only case mapping exercised by
    the sources). -/
def upperCh (c : Char) : Char :=
  if isLowerCh c then Char.ofNat (c.toNat - 32) else c

def lowerCh (c : Char) : Char :=
  if isUpperCh c then Char.ofNat (c.toNat + 32) else c

def toUpperCh (l : Chars) : Chars := l.map upperCh

def toLowerCh (l : Chars) : Chars := l.map lowerCh

def trimStartCh (l : Chars) : Chars := l.dropWhile isWsChar

def trimEndCh (l : Chars) : Chars := (l.reverse.dropWhile isWsChar).reverse

def trimCh (l : Chars) : Chars := trimStartCh (trimEndCh l)

/-- String.prototype.split with a single-character separator (keeps empty pieces,
    like JavaScript). -/
def splitChAux (sep : Char) : Chars → Chars → List Chars
  | [], acc => [acc.reverse]
  | c :: cs, acc =>
    if c = sep then acc.reverse :: splitChAux sep cs []
    else splitChAux sep cs (c :: acc)

def splitCh (sep : Char) (l : Chars) : List Chars := splitChAux sep l []

/-- Array.prototype.join with a separator. -/
def interCh (sep : Chars) : List Chars → Chars
  | [] => []
  | [x] => x
  | x :: xs => x ++ sep ++ interCh sep xs

/-- Case-sensitive prefix test. -/
def pfx (p : Chars) (l : Chars) : Bool := p.isPrefixOf l

/-- Case-insensitive prefix test (used by patterns with the i flag). -/
def pfxCI (p : Chars) (l : Chars) : Bool := (toLowerCh p).isPrefixOf (toLowerCh (l.take p.length))

/-- Does pat occur anywhere in l (used for unanchored literal pieces). -/
def hasInfix (pat : Chars) : Chars → Bool
  | [] => pfx pat []
  | l@(_ :: t) => pfx pat l || hasInfix pat t

/-- Count of newline characters in a string (textStripped.match of backslash-n). -/
def countNl (l : Chars) : Nat := (l.filter (· = '\n')).length

/-- JavaScript parseInt on a string: optional sign after leading whitespace,
    then a maximal digit prefix; none models NaN. -/
def jsParseIntCh (l : Chars) : Option Int :=
  let l := trimStartCh l
  let (sgn, l) :=
    match l with
    | '-' :: t => ((-1 : Int), t)
    | '+' :: t => ((1 : Int), t)
    | _ => ((1 : Int), l)
  let ds := l.takeWhile isDigitCh
  if ds = [] then none
  else some (sgn * (String.mk ds).toNat!)

def natChars (n : Nat) : Chars := (toString n).data

def intChars (n : Int) : Chars := (toString n).data

/-!
Embeddings of the regular expressions of regex.js.  Each matcher follows the
JavaScript pattern literally; where the pattern is deterministic despite
nominal backtracking (character classes disjoint from the following literal)
the matcher consumes greedily.
-/

/-- regex.js blank: caret-dollar.  The parser only tests it on strings that
    contain no newline, where it holds exactly for the empty string. -/
def blankTest (l : Chars) : Bool := l = []

/-- regex.js page-number: one or more digits followed by an optional period,
    spanning the whole line. -/
def pageNumberTest (l : Chars) : Bool :=
  let core := if l.getLast? = some '.' then l.dropLast else l
  core ≠ [] && core.all isDigitCh

/-- regex.js page-break: at least three equals signs, optional whitespace,
    then an optional page label (optional hash, digits, letters, optional
    hash, optional period) and optional trailing whitespace. -/
def pageBreakTest (l : Chars) : Bool :=
  let eqs := l.takeWhile (· = '=')
  if eqs.length < 3 then false else
  let r := trimStartCh (l.drop eqs.length)
  if r = [] then true else
  let r := if r.head? = some '#' then r.tail else r
  let ds := r.takeWhile isDigitCh
  if ds = [] then false else
  let r := (r.drop ds.length).dropWhile isAlphaCh
  let r := if r.head? = some '#' then r.tail else r
  let r := if r.head? = some '.' then r.tail else r
  trimStartCh r = []

/-- regex.js flashback: FLASHBACK, CURRENT whitespace DAY or HOME whitespace
    VIDEO at the start of the line (case-sensitive, no end anchor). -/
def flashbackTest (l : Chars) : Bool :=
  pfx "FLASHBACK".data l ||
  (pfx "CURRENT".data l &&
    (let r := l.drop 7
     let w := r.takeWhile isWsChar
     w ≠ [] && pfx "DAY".data (r.drop w.length))) ||
  (pfx "HOME".data l &&
    (let r := l.drop 4
     let w := r.takeWhile isWsChar
     w ≠ [] && pfx "VIDEO".data (r.drop w.length)))

/-- regex.js transition: a FADE/CUT idiom at the start of the line, any text
    followed by space-TO-colon with at least one character before it, or a
    less-than sigil followed by at least one further character. -/
def transitionTest (l : Chars) : Bool :=
  pfx "FADE TO BLACK.".data l || pfx "FADE OUT.".data l || pfx "CUT TO BLACK.".data l ||
  (match l with
   | [] => false
   | _ :: t => hasInfix " TO:".data t) ||
  (l.head? = some '<' && l.length ≥ 2)

/-- regex.js action: an exclamation mark followed by at least one character;
    returns the text after the mark. -/
def actionMatch (l : Chars) : Option Chars :=
  match l with
  | '!' :: t => if t = [] then none else some t
  | _ => none

/-- Character class of the first part of the character-cue pattern. -/
def charCls1 (c : Char) : Bool := isUpperCh c || c = '_'

/-- Character class of the continuation part of the character-cue pattern. -/
def charCls2 (c : Char) : Bool :=
  isDigitCh c || isUpperCh c || c = ' ' || c = '.' || c = '_' || c = '-' || c = '\''

/-- Character class of a parenthetical suffix interior in the character-cue
    pattern. -/
def charParenCls (c : Char) : Bool :=
  isDigitCh c || isAlphaCh c || c = ' ' || c = '.' || c = '_' || c = '-' || c = '\''

/-- Character class of the at-name alternative in the character-cue pattern. -/
def charAtCls (c : Char) : Bool :=
  isWordCh c || c = ' ' || c = '.' || c = '_' || c = '-' || c = '\''

/-- Consumes zero or more parenthetical-suffix groups, each followed by
    optional whitespace.  Returns the remaining input; if a group fails to
    close, the repetition stops before it (as backtracking would). -/
def charParenLoop : Nat → Chars → Chars
  | 0, l => l
  | fuel + 1, l =>
    match l with
    | '(' :: t =>
      let inner := t.takeWhile charParenCls
      match t.drop inner.length with
      | ')' :: r => charParenLoop fuel (r.dropWhile isWsChar)
      | _ => l
    | _ => l

/-- regex.js character: an all-caps name (group 1) or an at-name override
    (group 2), zero or more parenthetical suffixes, then an optional caret
    (dual-dialogue flag).  The leading classes are disjoint from the
    parenthetical opener and the caret, so greedy consumption is faithful. -/
def characterMatch (l : Chars) : Option (Option Chars × Option Chars × Bool) :=
  let alt :=
    match l with
    | '@' :: t =>
      let a := t.takeWhile charAtCls
      if a = [] then none else some (none, some a, t.drop a.length)
    | _ =>
      let a := l.takeWhile charCls1
      if a = [] then none
      else
        let r := l.drop a.length
        let b := r.takeWhile charCls2
        some (some (a ++ b), none, r.drop b.length)
  match alt with
  | none => none
  | some (g1, g2, rest) =>
    let rest := charParenLoop rest.length rest
    match rest with
    | [] => some (g1, g2, false)
    | ['^'] => some (g1, g2, true)
    | _ => none

def characterTest (l : Chars) : Bool := (characterMatch l).isSome

/-- Scene-number fragments: the ways the pattern digits-then-letters or
    letters-then-digits can match a prefix of l, in engine preference order
    (first alternative first; greedy runs first). -/
def snCandidates (l : Chars) : List (Chars × Chars) :=
  let ds := l.takeWhile isDigitCh
  let alt1 :=
    if ds = [] then []
    else
      let r := l.drop ds.length
      let ls := r.takeWhile isAlphaCh
      -- letters give back one at a time, then digits give back (shorter digit
      -- runs are followed by a digit, which the letters part cannot match)
      ((List.range (ls.length + 1)).map fun k =>
        let kept := ls.length - k
        (ds ++ ls.take kept, r.drop kept)) ++
      ((List.range (ds.length - 1)).map fun k =>
        let kept := ds.length - 1 - k
        (ds.take kept, l.drop kept)).filter (fun p => p.1 ≠ [])
  let ls2 := l.takeWhile isAlphaCh
  let alt2 :=
    if ls2 = [] then []
    else
      let r := l.drop ls2.length
      let ds2 := r.takeWhile isDigitCh
      if ds2 = [] then []
      else
        ((List.range ds2.length).map fun k =>
          let kept := ds2.length - k
          (ls2 ++ ds2.take kept, r.drop kept))
  alt1 ++ alt2

/-- One starting point of the optional leading scene-number marker of the
    scene-heading pattern: a scene number candidate, an optional second
    hash, then mandatory whitespace. -/
def shLeadTry (l0 : Chars) : List (Option Chars × Chars) :=
  (snCandidates l0).flatMap fun (sn, r) =>
    let withHash2 :=
      match r with
      | '#' :: r2 => [(sn, r2), (sn, r)]
      | _ => [(sn, r)]
    withHash2.filterMap fun (sn, r2) =>
      let w := r2.takeWhile isWsChar
      if w = [] then none else some (some sn, r2.drop w.length)

/-- Ways the optional leading scene-number marker of the scene-heading
    pattern (optional hash, scene number, optional hash, whitespace) can
    match, in engine order, ending with the empty option. -/
def shLeadCandidates (l : Chars) : List (Option Chars × Chars) :=
  (match l with
   | '#' :: t => shLeadTry t ++ shLeadTry l
   | _ => shLeadTry l) ++ [(none, l)]

/-- One starting point of the optional trailing scene-number marker. -/
def shTrailTry (l0 : Chars) : List (Option Chars) :=
  (snCandidates l0).filterMap fun (sn, r) =>
    match r with
    | [] => some (some sn)
    | ['#'] => some (some sn)
    | _ => none

/-- Ways the optional trailing scene-number marker (optional hash, scene
    number, optional hash) can consume the entire remainder, in engine
    order; the empty option succeeds only on the empty remainder. -/
def shTrailCandidates (l : Chars) : List (Option Chars) :=
  (match l with
   | '#' :: t => shTrailTry t ++ shTrailTry l
   | _ => shTrailTry l) ++ (if l = [] then [(none : Option Chars)] else [])

/-- The interior prefix of the INT/EXT alternative of the scene-heading
    pattern: up to three asterisks, an optional underscore, one of the
    INT/EXT/EST/I-E keywords (case-insensitive) and a period or space.
    Returns the consumed prefix and the remainder. -/
def shIntExtOpen (l : Chars) : Option (Chars × Chars) :=
  let stars := l.takeWhile (· = '*')
  if stars.length > 3 then none else
  let r := l.drop stars.length
  let (und, r) := match r with
    | '_' :: t => (['_'], t)
    | _ => (([] : Chars), r)
  let kw? := ["int", "ext", "est", "i/e"].find? (fun k => pfxCI k.data r)
  match kw? with
  | none => none
  | some _ =>
    let kwChars := r.take 3
    let r2 := r.drop 3
    match r2 with
    | c :: t => if c = '.' || c = ' ' then some (stars ++ und ++ kwChars ++ [c], t) else none
    | [] => none

/-- regex.js scene-heading, with groups 1 (leading scene number), 2 (INT/EXT
    heading including its prefix), 3 (heading after a period sigil) and 4
    (trailing scene number).  The lazy heading body grows one character at a
    time until the trailing candidates and the end anchor succeed. -/
def sceneHeadingMatch (l : Chars) :
    Option (Option Chars × Option Chars × Option Chars × Option Chars) :=
  let tryBody (opener : Chars) (body : Chars) (isIntExt : Bool) (g1 : Option Chars) :
      Option (Option Chars × Option Chars × Option Chars × Option Chars) :=
    -- body is the text available for the lazy dot-plus; try lengths 1.. in order
    (List.range body.length).findSome? fun k =>
      let took := body.take (k + 1)
      let rest := body.drop (k + 1)
      (shTrailCandidates rest).head?.bind fun g4 =>
        if isIntExt then some (g1, some (opener ++ took), none, g4)
        else some (g1, none, some took, g4)
  (shLeadCandidates l).findSome? fun (g1, r) =>
    match shIntExtOpen r with
    | some (opener, body) => tryBody opener body true g1
    | none =>
      match r with
      | '.' :: t =>
        if t.head? = some '.' then none
        else tryBody ['.'] t false g1
      | _ => none

def sceneHeadingTest (l : Chars) : Bool := (sceneHeadingMatch l).isSome

/-- Character class of the name groups of the inline-annotation pattern. -/
def annCls (c : Char) : Bool :=
  isWordCh c || c = '\'' || c = '.' || c = '-' || c = ' '

/-- Character class of the name list of the multi-entity annotation pattern. -/
def entCls (c : Char) : Bool :=
  isWordCh c || c = '\'' || c = '.' || c = '-' || c = ',' || c = ' '

/-- Character class of the level group of the vfx annotation pattern. -/
def vfxCls (c : Char) : Bool :=
  isWordCh c || c = '\'' || c = '.' || c = ' '

/-- One attempted match of the vfx-annotation pattern at the current
    position: double bracket (not followed by another opening bracket),
    whitespace, the vfx keyword, whitespace, the level group, closing double
    bracket (not followed by an opening bracket). -/
def vfxMatchAt (l : Chars) : Option (Chars × Chars) :=
  match l with
  | '[' :: '[' :: t =>
    if t.head? = some '[' then none else
    let t := t.dropWhile isWsChar
    if pfx "vfx".data t then
      let t := (t.drop 3).dropWhile isWsChar
      let g := t.takeWhile vfxCls
      match t.drop g.length with
      | ']' :: ']' :: r => if r.head? = some '[' then none else some (g, r)
      | _ => none
    else none
  | _ => none

/-- regex.js vfx-annotation without the global flag: returns the first
    match group (if any) and the line with the first match removed. -/
def vfxAnnotStrip : Chars → Option Chars × Chars
  | [] => (none, [])
  | c :: t =>
    match vfxMatchAt (c :: t) with
    | some (g, rest) => (some g, rest)
    | none =>
      let (g, r) := vfxAnnotStrip t
      (g, c :: r)

/-- One attempted match of the inline-annotation pattern: starred name,
    whitespace, double bracket, type word, optional second word, closing
    double bracket.  Returns groups 1 and 2 and the remainder. -/
def annotMatchAt (l : Chars) : Option (Chars × Chars × Chars) :=
  match l with
  | '*' :: '*' :: t =>
    let g1 := t.takeWhile annCls
    if g1 = [] then none else
    match t.drop g1.length with
    | '*' :: '*' :: t2 =>
      match (t2.dropWhile isWsChar) with
      | '[' :: '[' :: t3 =>
        if t3.head? = some '[' then none else
        let t4 := t3.dropWhile isWsChar
        let g2 := t4.takeWhile annCls
        if g2 = [] then none else
        let t5 := (t4.drop g2.length).dropWhile isWsChar
        let g3 := t5.takeWhile annCls
        match t5.drop g3.length with
        | ']' :: ']' :: r => if r.head? = some '[' then none else some (g1, g2, r)
        | _ => none
      | _ => none
    | _ => none
  | _ => none

/-- Global scan of the inline-annotation pattern: the list of (name, type)
    groups in order, and the string with every match replaced by its first
    group (the dollar-one replacement used throughout the sources). -/
def annotScanF : Nat → Chars → List (Chars × Chars) × Chars
  | 0, l => ([], l)
  | _ + 1, [] => ([], [])
  | fuel + 1, c :: t =>
    match annotMatchAt (c :: t) with
    | some (g1, g2, rest) =>
      let (ms, rep) := annotScanF fuel rest
      ((g1, g2) :: ms, g1 ++ rep)
    | none =>
      let (ms, rep) := annotScanF fuel t
      (ms, c :: rep)

def annotScan (l : Chars) : List (Chars × Chars) × Chars := annotScanF (l.length + 1) l

/-- The string with every inline-annotation match replaced by its name. -/
def annotReplace (l : Chars) : Chars := (annotScan l).2

/-- One attempted match of the multi-entity annotation pattern (the
    lookbehind on the two preceding characters is checked by the caller). -/
def entMatchAt (l : Chars) : Option (Chars × Chars × Chars) :=
  match l with
  | '[' :: '[' :: t =>
    match t with
    | '[' :: '[' :: _ => none
    | _ =>
      let t1 := t.dropWhile isWsChar
      match ["char", "prop", "env", "fx"].find? (fun k => pfx k.data t1) with
      | none => none
      | some kw =>
        let t2 := t1.drop kw.length
        if (t2.head?.map isWordCh).getD false then none else
        let t3 := t2.dropWhile isWsChar
        let g2 := t3.takeWhile entCls
        match t3.drop g2.length with
        | ']' :: ']' :: r => if r.head? = some '[' then none else some (kw.data, g2, r)
        | _ => none
  | _ => none

/-- Global scan of the multi-entity annotation pattern, tracking the two
    previous characters for the negative lookbehind on a double star.
    Returns the (type, names) groups and the string with matches removed. -/
def entAnnotScanF : Nat → Option Char → Option Char → Chars → List (Chars × Chars) × Chars
  | 0, _, _, l => ([], l)
  | _ + 1, _, _, [] => ([], [])
  | fuel + 1, p2, p1, c :: t =>
    let blocked := p2 = some '*' && p1 = some '*'
    match if blocked then none else entMatchAt (c :: t) with
    | some (kw, g2, rest) =>
      let (ms, rep) := entAnnotScanF fuel (some ']') (some ']') rest
      ((kw, g2) :: ms, rep)
    | none =>
      let (ms, rep) := entAnnotScanF fuel p1 (some c) t
      (ms, c :: rep)

def entAnnotScan (l : Chars) : List (Chars × Chars) × Chars :=
  entAnnotScanF (l.length + 1) none none l

/-- One attempted match of the free-form note pattern: double bracket not
    opening a reserved keyword, a lazily matched interior free of brackets,
    closing double bracket. -/
def noteMatchAt (l : Chars) : Option (Chars × Chars) :=
  match l with
  | '[' :: '[' :: t =>
    let reserved :=
      pfx "vfx".data t || pfx "char".data t || pfx "prop".data t || pfx "env".data t ||
      (pfx "fx".data t && !(((t.drop 2).head?.map isWordCh).getD false))
    if reserved then none else
    let inner := t.takeWhile (fun c => c ≠ '[' && c ≠ ']')
    match t.drop inner.length with
    | ']' :: ']' :: r => some (inner, r)
    | _ => none
  | _ => none

/-- regex.js scene-number: first unanchored match, returning the groups
    (whole, digits, letters, letters, digits); the first three are from the
    digits-first alternative, the last two from the letters-first one. -/
def sceneNumberMatch : Chars →
    Option (Chars × Option Chars × Option Chars × Option Chars × Option Chars)
  | [] => none
  | c :: t =>
    let l := c :: t
    let l0 := if c = '#' then t else l
    let ds := l0.takeWhile isDigitCh
    if ds ≠ [] then
      let ls := (l0.drop ds.length).takeWhile isAlphaCh
      some (ds ++ ls, some ds, some ls, none, none)
    else
      let ls := l0.takeWhile isAlphaCh
      let ds2 := (l0.drop ls.length).takeWhile isDigitCh
      if ls ≠ [] ∧ ds2 ≠ [] then
        some (ls ++ ds2, none, none, some ls, some ds2)
      else
        sceneNumberMatch t

/-!
The token and entity data model.  Tokens are the loosely-typed records of
parser.js; every field except the type tag is optional.  Scene and page
numbers are stored as JavaScript values (number or string) because the two
converters disagree on which they produce.
-/

inductive JsVal
  | num (n : Int)
  | str (s : String)
deriving DecidableEq, Repr

inductive TokType
  | sceneHeading | action | character | parenthetical | dialogue
  | dialogueBegin | dialogueEnd | transition | flashback | pageBreak | centered
deriving DecidableEq, Repr

structure Token where
  type : TokType
  text : Option String := none
  vfx : Option String := none
  sceneNum : Option JsVal := none
  pageNum : Option JsVal := none
  character : Option String := none
  dual : Option Bool := none
deriving DecidableEq, Repr

structure Entity where
  type : String := ""
  name : String := ""
  count : Nat := 0
deriving DecidableEq, Repr

/-- The entity registry: a JavaScript object modelled as an association list
    in insertion order with update-in-place semantics. -/
abbrev Entities := List (String × Entity)

def entGet (es : Entities) (k : String) : Option Entity :=
  (es.find? (fun p => p.1 = k)).map (·.2)

def entSet (es : Entities) (k : String) (v : Entity) : Entities :=
  if (es.find? (fun p => p.1 = k)).isSome then
    es.map (fun p => if p.1 = k then (k, v) else p)
  else es ++ [(k, v)]

/-- parser.js processEntity: create the (upper-cased, trimmed) key if absent,
    overwrite its type, and optionally increment its count. -/
def processEntity (es : Entities) (nm : Chars) (ty : Chars) (inc : Bool) : Entities :=
  let key := String.mk (toUpperCh (trimCh nm))
  let e := (entGet es key).getD {}
  entSet es key { e with type := String.mk ty, count := e.count + (if inc then 1 else 0) }

/-!
Embedding of parseScriptSync of parser.js.
-/

inductive BlockKind | action | dialogue
deriving DecidableEq, Repr

structure PSt where
  pageNum : Nat := 1
  sceneNum : JsVal := .num 0
  tokens : List Token := []
  entities : Entities := []
  currentBlock : Option BlockKind := none
  textBlock : List Chars := []
  currentVfx : Option String := none
  currentIndent : Nat := 0
deriving Repr

/-- Per-line data computed at the top of the parser loop: the vfx group, the
    line with the vfx annotation removed, the cleaned line (annotations
    resolved and removed), the blank flag and the indentation. -/
structure LineInfo where
  vfx : Option String
  line : Chars
  lineClean : Chars
  isBlankL : Bool
  indent : Nat
deriving Repr

/-- The entity-registration phase of the parser loop: vfx annotation
    stripped, inline annotations registered (with increment) and replaced by
    their names, the result trimmed, multi-entity annotations registered
    (without increment, skipping matches with an empty name list) and
    removed. -/
def scanLine (es : Entities) (l : Chars) : LineInfo × Entities :=
  let (vfxG, line) := vfxAnnotStrip l
  let (annMs, annRep) := annotScan line
  let es := annMs.foldl (fun es m => processEntity es m.1 m.2 true) es
  let lineClean0 := trimCh annRep
  let (entMs, entRep) := entAnnotScan lineClean0
  let es := entMs.foldl (fun es m =>
    if m.2 = [] then es
    else ((splitCh ',' m.2).map trimCh).foldl
      (fun es nm => if nm = [] then es else processEntity es nm m.1 false) es) es
  ({ vfx := vfxG.map String.mk, line := line, lineClean := entRep,
     isBlankL := blankTest entRep, indent := (line.takeWhile isWsChar).length }, es)

/-- The break set that closes an open dialogue block, tested on the cleaned
    line. -/
def dialogueBreakTest (lc : Chars) : Bool :=
  pageBreakTest lc || pageNumberTest lc || sceneHeadingTest lc ||
  transitionTest lc || flashbackTest lc || (actionMatch lc).isSome

/-- The break set that closes an open action block, tested on the trimmed
    raw line. -/
def actionNextBreak (lt : Chars) : Bool :=
  blankTest lt || pageBreakTest lt || pageNumberTest lt ||
  sceneHeadingTest lt || transitionTest lt || flashbackTest lt

/-- Closing an open dialogue block: emit the joined dialogue token when the
    accumulated text is non-empty, then the dialogue-end token. -/
def flushDialogue (st : PSt) : PSt :=
  { st with
    tokens := st.tokens ++
      (if st.textBlock ≠ [] then
        [{ type := .dialogue,
           text := some (String.mk (interCh ['\n'] st.textBlock ++ ['\n'])),
           vfx := st.currentVfx }]
       else []) ++ [{ type := .dialogueEnd }],
    currentBlock := none, textBlock := [], currentVfx := none }

/-- Closing an open action block: emit the joined action token. -/
def flushAction (st : PSt) : PSt :=
  { st with
    tokens := st.tokens ++
      [{ type := .action,
         text := some (String.mk (interCh ['\n'] st.textBlock ++ ['\n'])),
         vfx := st.currentVfx }],
    currentBlock := none, textBlock := [], currentVfx := none }

def jsParseIntVal : JsVal → Option Int
  | .num n => some n
  | .str s => jsParseIntCh s.data

/-- The classification chain of the parser loop, applied after any open
    block has been handled. -/
def classify (st : PSt) (info : LineInfo) (indentJump : Bool) : PSt :=
  match sceneHeadingMatch info.lineClean with
  | some (m1, m2, _, m4) =>
    let newSceneNum : String :=
      match m4 with
      | some s4 => String.mk s4
      | none =>
        match m1 with
        | some s1 => String.mk s1
        | none =>
          match jsParseIntVal st.sceneNum with
          | some n => toString (n + 1)
          | none => "NaN"
    let heading : String :=
      match m2 with
      | some h => String.mk (trimCh h)
      | none => ""
    { st with
      sceneNum := JsVal.str newSceneNum,
      tokens := st.tokens ++
        [{ type := .sceneHeading, text := some heading,
           sceneNum := some (.str newSceneNum), pageNum := some (.num st.pageNum),
           vfx := info.vfx }] }
  | none =>
  if transitionTest info.lineClean then
    { st with tokens := st.tokens ++
        [{ type := .transition, text := some (String.mk (info.line ++ ['\n'])) }] }
  else if flashbackTest info.lineClean then
    { st with tokens := st.tokens ++
        [{ type := .flashback, text := some (String.mk (trimCh info.line)),
           sceneNum := some st.sceneNum, pageNum := some (.num st.pageNum),
           vfx := info.vfx }] }
  else if pageBreakTest info.lineClean then
    { st with
      pageNum := st.pageNum + 1,
      tokens := st.tokens ++
        [{ type := .pageBreak, pageNum := some (.num (st.pageNum + 1)) }] }
  else if pageNumberTest info.lineClean then st
  else if blankTest info.lineClean then st
  else if characterTest info.lineClean && indentJump then
    match characterMatch info.lineClean with
    | some (g1, g2, dual) =>
      let ch : String :=
        match g1 with
        | some g => String.mk (trimCh g)
        | none => String.mk (trimCh (g2.getD []))
      let e := (entGet st.entities ch).getD {}
      let es := entSet st.entities ch { e with type := "char", count := e.count + 1 }
      { st with
        entities := es,
        tokens := st.tokens ++
          [{ type := .dialogueBegin },
           { type := .character, text := some (String.mk (trimCh info.line)),
             character := some ch, dual := some dual, vfx := info.vfx }],
        currentBlock := some .dialogue, textBlock := [], currentVfx := info.vfx }
    | none => st
  else
    let line2 := match actionMatch info.line with
      | some t => t
      | none => info.line
    { st with currentBlock := some .action, textBlock := [line2], currentVfx := info.vfx }

/-- The open-block phase of the parser loop followed by classification. -/
def blockPhase (st : PSt) (info : LineInfo) (indentRight indentJump : Bool) : PSt :=
  match st.currentBlock with
  | some .dialogue =>
    if dialogueBreakTest info.lineClean || (st.textBlock ≠ [] && indentJump) then
      classify (flushDialogue st) info indentJump
    else { st with textBlock := st.textBlock ++ [info.line] }
  | some .action =>
    let nextIsCharacter := characterTest info.lineClean && indentRight
    let nextIsBreak := actionNextBreak (trimCh info.line)
    if nextIsCharacter || nextIsBreak then
      classify (flushAction st) info indentJump
    else
      let line2 := match actionMatch info.line with
        | some t => t
        | none => info.line
      { st with textBlock := st.textBlock ++ [line2] }
  | none => classify st info indentJump

/-- One iteration of the parser loop. -/
def processLine (st : PSt) (l : Chars) : PSt :=
  let (info, es) := scanLine st.entities l
  let indentRight := ((info.indent : Int) - (st.currentIndent : Int)) > 3
  let indentJump :=
    if info.isBlankL then false
    else ((st.currentIndent : Int) - (info.indent : Int)).natAbs > 3
  blockPhase { st with entities := es, currentIndent := info.indent }
    info indentRight indentJump

def parseLines (st : PSt) : List Chars → PSt
  | [] => st
  | l :: ls => parseLines (processLine st l) ls

/-- parseScriptSync on a string input: split into lines, trim line ends,
    run the loop; the final state is returned without flushing any open
    block (there is no flush after the loop in the source). -/
def parseScriptSyncStr (s : String) : List Token × Entities :=
  let lines := (splitCh '\n' s.data).map trimEndCh
  let st := parseLines {} lines
  (st.tokens, st.entities)

/-!
The fail-fast input guards of parseScriptSync, over a model of the possible
JavaScript argument values.
-/

inductive JsIn
  | nullV | undefV | strV (s : String) | numV (n : Int) | boolV (b : Bool) | objV
deriving DecidableEq, Repr

def jsFalsy : JsIn → Bool
  | .nullV | .undefV => true
  | .strV s => s = ""
  | .numV n => n = 0
  | .boolV b => !b
  | .objV => false

inductive ParseFail | emptyScript | nonStringInput
deriving DecidableEq, Repr

/-- parseScriptSync including its input guards: a falsy argument raises the
    empty-script error, a non-string argument raises the type error, and
    otherwise parsing proceeds. -/
def parseScriptJs (v : JsIn) : Except ParseFail (List Token × Entities) :=
  if jsFalsy v then .error .emptyScript
  else
    match v with
    | .strV s => .ok (parseScriptSyncStr s)
    | _ => .error .nonStringInput

/-!
Embedding of writeTokens of savescript.js (the raw serializer).  Only the
construction of the output text is modelled; writing the file is an effect
outside the scope of the claims.
-/

def jsValChars : JsVal → Chars
  | .num n => intChars n
  | .str s => s.data

def jsValTruthy : JsVal → Bool
  | .num n => n ≠ 0
  | .str s => s ≠ ""

def padEndCh (n : Nat) (l : Chars) : Chars :=
  l ++ List.replicate (n - l.length) ' '

def padStartCh (n : Nat) (l : Chars) : Chars :=
  List.replicate (n - l.length) ' ' ++ l

def spacesCh (n : Nat) : Chars := List.replicate n ' '

/-- The double annotation-stripping used on token text throughout
    savescript.js. -/
def stripAnnot2 (l : Chars) : Chars :=
  trimCh (annotReplace (trimCh (annotReplace l)))

/-- The entity declaration prelude written when a non-clean export is
    requested: entities grouped by type in first-seen order, sorted inside a
    group by descending count (stable), five names per declaration line. -/
def entityPrelude (es : Entities) : Chars :=
  let types := (es.map (fun p => p.2.type)).eraseDups
  types.flatMap fun ty =>
    let group := es.filter (fun p => p.2.type = ty)
    let sorted := group.mergeSort (fun a b => a.2.count ≥ b.2.count)
    let chunks := (List.range ((sorted.length + 4) / 5)).map fun i =>
      (sorted.drop (i * 5)).take 5
    chunks.flatMap fun ch =>
      "[[".data ++ ty.data ++ "  ".data ++
        (interCh ", ".data (ch.map (fun p => p.1.data))) ++ " ]]\n".data

/-- The serialized text of one token. -/
def writeToken (clean : Bool) (t : Token) : Chars :=
  let vfx : Chars :=
    match t.vfx with
    | some v => if !clean && v ≠ "" then " [[vfx ".data ++ v.data ++ "]]".data else []
    | none => []
  let text0 := (t.text.getD "").data
  let textClean := stripAnnot2 text0
  let text := if clean then textClean else text0
  match t.type with
  | .action =>
    ((splitCh '\n' text).flatMap fun line =>
      let line :=
        if characterTest (trimCh (annotReplace line)) ||
           sceneHeadingTest (trimCh (annotReplace line)) then '!' :: line
        else line
      padEndCh 80 line ++ vfx ++ ['\n']) ++ ['\n']
  | .dialogue =>
    ((splitCh '\n' text).flatMap fun line =>
      spacesCh 10 ++ padEndCh 70 line ++ vfx ++ ['\n']) ++ ['\n']
  | .character =>
    let ch := if characterTest textClean then text else '@' :: text
    spacesCh 15 ++ padEndCh 65 ch ++ vfx ++ ['\n']
  | .parenthetical =>
    spacesCh 10 ++ padEndCh 70 text ++ vfx ++ ['\n']
  | .sceneHeading =>
    let heading :=
      if sceneHeadingTest (trimCh (annotReplace text)) then text else '.' :: text
    let sn : Chars :=
      match t.sceneNum with
      | some v => if jsValTruthy v then '#' :: (jsValChars v ++ ['#']) else []
      | none => []
    padEndCh 70 heading ++ padStartCh 10 sn ++ vfx ++ "\n\n".data
  | .pageBreak =>
    -- the source reads token.pageNum (camel case), a key the tokens never
    -- carry (they use the page-num key), so the page label is always blank
    List.replicate 74 '=' ++ [' '] ++ padStartCh 5 [] ++ "\n\n".data
  | .transition => padEndCh 80 text ++ vfx ++ "\n\n".data
  | .flashback => padEndCh 80 text ++ vfx ++ "\n\n".data
  | _ => []

/-- writeTokens of savescript.js: the full output text. -/
def writeTokensStr (tokens : List Token) (es : Entities) (clean : Bool) : String :=
  String.mk ((if clean then [] else entityPrelude es) ++
    tokens.flatMap (writeToken clean))

/-!
Embedding of fractionalPageCount32 of savescript.js.  JavaScript numbers are
modelled by exact rationals extended with the two infinities and NaN; on
every execution path exercised below the finite values are dyadic rationals
with small exponents, on which IEEE double arithmetic is exact, so the
rational model agrees with the JavaScript float semantics there.
-/

/-- Exact rationals with kernel-computable arithmetic: a numerator and a
    positive denominator, kept normalized by the smart constructor, so that
    structural equality is rational equality on constructed values. -/
structure Frac where
  num : Int
  den : Int
deriving DecidableEq, Repr

def fracMk (n d : Int) : Frac :=
  if d = 0 then ⟨0, 0⟩
  else
    let s : Int := if d < 0 then -1 else 1
    let n := s * n
    let d := s * d
    let g : Int := (Int.gcd n d : Nat)
    if g = 0 then ⟨0, 1⟩ else ⟨n / g, d / g⟩

def fracOfInt (n : Int) : Frac := ⟨n, 1⟩

def fracOfNat (n : Nat) : Frac := ⟨(n : Int), 1⟩

def fracAdd (a b : Frac) : Frac := fracMk (a.num * b.den + b.num * a.den) (a.den * b.den)

def fracSub (a b : Frac) : Frac := fracMk (a.num * b.den - b.num * a.den) (a.den * b.den)

def fracMul (a b : Frac) : Frac := fracMk (a.num * b.num) (a.den * b.den)

def fracDiv (a b : Frac) : Frac := fracMk (a.num * b.den) (a.den * b.num)

def fracLe (a b : Frac) : Bool := a.num * b.den ≤ b.num * a.den

def fracPos (a : Frac) : Bool := 0 < a.num

def fracNeg (a : Frac) : Bool := a.num < 0

def fracIsZero (a : Frac) : Bool := a.num = 0

/-- Floor of a fraction (denominators are positive). -/
def fracFloor (a : Frac) : Int := Int.fdiv a.num a.den

inductive JsNum
  | fin (q : Frac) | inf | ninf | nan
deriving DecidableEq, Repr

/-- Division of two finite JavaScript numbers, including division by zero. -/
def jsDivQ (a b : Frac) : JsNum :=
  if fracIsZero b then (if fracIsZero a then .nan else if fracPos a then .inf else .ninf)
  else .fin (fracDiv a b)

def jsMaxN : JsNum → JsNum → JsNum
  | .nan, _ => .nan
  | _, .nan => .nan
  | .inf, _ => .inf
  | _, .inf => .inf
  | .ninf, b => b
  | a, .ninf => a
  | .fin a, .fin b => .fin (if fracLe a b then b else a)

def jsFloorN : JsNum → JsNum
  | .fin q => .fin (fracOfInt (fracFloor q))
  | x => x

def jsSubN : JsNum → JsNum → JsNum
  | .nan, _ => .nan
  | _, .nan => .nan
  | .inf, .inf => .nan
  | .ninf, .ninf => .nan
  | .inf, _ => .inf
  | .ninf, _ => .ninf
  | .fin _, .inf => .ninf
  | .fin _, .ninf => .inf
  | .fin a, .fin b => .fin (fracSub a b)

def jsAddN : JsNum → JsNum → JsNum
  | .nan, _ => .nan
  | _, .nan => .nan
  | .inf, .ninf => .nan
  | .ninf, .inf => .nan
  | .inf, _ => .inf
  | _, .inf => .inf
  | .ninf, _ => .ninf
  | _, .ninf => .ninf
  | .fin a, .fin b => .fin (fracAdd a b)

def jsMulN : JsNum → JsNum → JsNum
  | .nan, _ => .nan
  | _, .nan => .nan
  | .inf, .inf => .inf
  | .inf, .ninf => .ninf
  | .ninf, .inf => .ninf
  | .ninf, .ninf => .inf
  | .inf, .fin b => if fracIsZero b then .nan else if fracPos b then .inf else .ninf
  | .fin a, .inf => if fracIsZero a then .nan else if fracPos a then .inf else .ninf
  | .ninf, .fin b => if fracIsZero b then .nan else if fracPos b then .ninf else .inf
  | .fin a, .ninf => if fracIsZero a then .nan else if fracPos a then .ninf else .inf
  | .fin a, .fin b => .fin (fracMul a b)

def jsDivN : JsNum → JsNum → JsNum
  | .nan, _ => .nan
  | _, .nan => .nan
  | .inf, .fin b => if fracLe ⟨0, 1⟩ b then .inf else .ninf
  | .ninf, .fin b => if fracLe ⟨0, 1⟩ b then .ninf else .inf
  | .inf, _ => .nan
  | .ninf, _ => .nan
  | .fin _, .inf => .fin ⟨0, 1⟩
  | .fin _, .ninf => .fin ⟨0, 1⟩
  | .fin a, .fin b => jsDivQ a b

/-- Math.round: half rounds toward positive infinity. -/
def jsRoundN : JsNum → JsNum
  | .fin q => .fin (fracOfInt (fracFloor (fracAdd q (fracMk 1 2))))
  | x => x

def jsAbsN : JsNum → JsNum
  | .fin q => .fin (if q.num < 0 then ⟨-q.num, q.den⟩ else q)
  | .nan => .nan
  | _ => .inf

/-- A less-or-equal comparison; any comparison with NaN is false. -/
def jsLeN : JsNum → JsNum → Bool
  | .nan, _ => false
  | _, .nan => false
  | .fin a, .fin b => fracLe a b
  | .inf, .inf => true
  | .inf, _ => false
  | _, .inf => true
  | .ninf, _ => true
  | _, .ninf => false

def jsTruthyN : JsNum → Bool
  | .fin q => !(fracIsZero q)
  | .nan => false
  | _ => true

/-- The decimal rendering of a JavaScript number as used in the template
    strings below; only integral finite values, the infinities and NaN are
    ever rendered on the executed paths. -/
def jsNumChars : JsNum → Chars
  | .fin q => if q.den = 1 then intChars q.num else
      intChars q.num ++ ['/'] ++ intChars q.den
  | .inf => "Infinity".data
  | .ninf => "-Infinity".data
  | .nan => "NaN".data

/-- The denominator search loop of fractionalPageCount32: for each
    denominator, round the fractional part, stop at the first approximation
    within one sixty-fourth; the rounded value of the last attempted
    denominator is kept when no denominator succeeds (a NaN fraction). -/
def fracLoop (f : JsNum) : Option String × JsNum → List Nat → Option String × JsNum
  | acc, [] => acc
  | acc, i :: rest =>
    let num := jsRoundN (jsMulN f (.fin (fracOfNat i)))
    let rounded := jsDivN num (.fin (fracOfNat i))
    if jsLeN (jsAbsN (jsSubN f rounded)) (.fin (fracMk 1 64)) then
      (some (String.mk (jsNumChars num ++ ['/'] ++ natChars i)), rounded)
    else fracLoop f (acc.1, rounded) rest

/-- fractionalPageCount32 of savescript.js: the display string (none models
    the undefined value), the decimal page count and the equivalent line
    count.  There are no input guards in the source.  The finite values on
    every path below are dyadic rationals with small exponents, on which
    IEEE double arithmetic is exact, so the exact-fraction model agrees
    with the JavaScript float semantics. -/
def fractionalPageCount32 (lineCount linesPerPage : Frac) :
    Option String × JsNum × JsNum :=
  let ratioVal := jsMaxN (jsDivQ lineCount linesPerPage) (.fin (fracMk 1 32))
  let ratioWhole := jsFloorN ratioVal
  let ratioFraction := jsSubN ratioVal ratioWhole
  let (ratioStr, ratioRounded) := fracLoop ratioFraction (none, .nan) [2, 4, 8, 16, 32]
  let ratioStr2 :=
    if jsTruthyN ratioWhole then
      some (String.mk (jsNumChars ratioWhole ++ [' '] ++
        (match ratioStr with
         | some s => s.data
         | none => "undefined".data)))
    else ratioStr
  (ratioStr2, jsAddN ratioWhole ratioRounded,
   jsMulN (jsAddN ratioWhole ratioRounded) (.fin linesPerPage))

/-!
Embedding of linesPerPage of savescript.js (the per-page and per-scene
line-count pass).
-/

def objGet [DecidableEq K] (m : List (K × Nat)) (k : K) : Option Nat :=
  (m.find? (fun p => p.1 = k)).map (·.2)

def objSet [DecidableEq K] (m : List (K × Nat)) (k : K) (v : Nat) : List (K × Nat) :=
  if (m.find? (fun p => p.1 = k)).isSome then
    m.map (fun p => if p.1 = k then (k, v) else p)
  else m ++ [(k, v)]

/-- The scene-number bump applied on a numbering collision.  The source
    indexes the match groups of the scene-number pattern off by one (group 1
    is the whole match and group 2 the digits of the digits-first
    alternative), so for a digits-first scene number it appends the
    successor character of the last digit; for a letters-first number it
    appends the letter A to the whole match.  An unmatched scene number
    would raise a TypeError in the source; it is returned unchanged here and
    never reached in the developments below. -/
def bumpSceneNum (s : String) : String :=
  match sceneNumberMatch s.data with
  | some (g1, some g2, _, _, _) =>
    match g2.getLast? with
    | some c => String.mk (g1 ++ g2.dropLast ++ [Char.ofNat (c.toNat + 1)])
    | none => String.mk (g1 ++ ['A'])
  | some (g1, none, _, _, _) => String.mk (g1 ++ ['A'])
  | none => s

/-- The collision loop: bump the scene number while it already holds a
    positive count.  The source loops unboundedly (and can hang on a fixed
    point of the bump); the fuel passed below always exceeds the number of
    positive entries reached in the developments here. -/
def resolveScene : Nat → List (String × Nat) → String → String
  | 0, _, s => s
  | fuel + 1, sc, s =>
    match objGet sc s with
    | some v => if v > 0 then resolveScene fuel sc (bumpSceneNum s) else s
    | none => s

def jsParseIntOptVal : Option JsVal → Option Int
  | none => none
  | some v => jsParseIntVal v

structure LPSt where
  pageNum : Option Int := some 1
  pageCounts : List (Option Int × Nat) := []
  pageCount : Nat := 0
  sceneNum : Option String := none
  sceneCounts : List (String × Nat) := []
  sceneCount : Nat := 0
deriving DecidableEq, Repr

/-- Flush the running scene count into the per-scene map when a scene number
    is active. -/
def lpFlushScene (st : LPSt) : List (String × Nat) :=
  match st.sceneNum with
  | some sn => if sn ≠ "" then objSet st.sceneCounts sn st.sceneCount else st.sceneCounts
  | none => st.sceneCounts

/-- Flush the running page count into the per-page map when it is non-zero. -/
def lpFlushPage (st : LPSt) : List (Option Int × Nat) :=
  if st.pageCount ≠ 0 then objSet st.pageCounts st.pageNum st.pageCount else st.pageCounts

/-- One token of the linesPerPage pass. -/
def lpStep (st : LPSt) (t : Token) : LPSt :=
  let textStripped := trimCh (annotReplace (t.text.getD "").data)
  match t.type with
  | .pageBreak =>
    { st with
      pageCounts := lpFlushPage st,
      pageNum := jsParseIntOptVal t.pageNum,
      pageCount := 0 }
  | .sceneHeading =>
    let sc := lpFlushScene st
    let sn0 : Option String :=
      match t.sceneNum with
      | some v => if jsValTruthy v then some (String.mk (jsValChars v)) else st.sceneNum
      | none => st.sceneNum
    let sn1 := sn0.map (resolveScene (sc.length + 1) sc)
    { st with
      sceneCounts := sc,
      sceneNum := sn1,
      sceneCount := 2,
      pageCount := st.pageCount + 2 }
  | .character | .parenthetical =>
    { st with
      pageCount := st.pageCount + countNl textStripped + 1,
      sceneCount := st.sceneCount + countNl textStripped + 1 }
  | .dialogue | .action | .flashback | .transition =>
    { st with
      pageCount := st.pageCount + countNl textStripped + 2,
      sceneCount := st.sceneCount + countNl textStripped + 2 }
  | _ => st

/-- linesPerPage of savescript.js: the pre-pass registering every explicit
    scene number with a zero count, the per-token fold, and the final
    flushes. -/
def linesPerPageFn (tokens : List Token) : List (Option Int × Nat) × List (String × Nat) :=
  let pre := tokens.foldl
    (fun sc t =>
      if t.type = .sceneHeading then
        match t.sceneNum with
        | some v => if jsValTruthy v then objSet sc (String.mk (jsValChars v)) 0 else sc
        | none => sc
      else sc) []
  let st := tokens.foldl lpStep { sceneCounts := pre }
  (lpFlushPage st, lpFlushScene st)

/-- Modelled from the spec (section 4.4): the fixed line weight of a token in
    the Metrics Engine, where the embedded-newline count of a text is the
    number of newlines interior to its annotation-stripped form. -/
def specLineWeight (t : Token) : Nat :=
  match t.type with
  | .sceneHeading => 2
  | .character | .parenthetical => countNl (trimCh (annotReplace (t.text.getD "").data)) + 1
  | .dialogue | .action | .flashback | .transition =>
    countNl (trimCh (annotReplace (t.text.getD "").data)) + 2
  | _ => 0

/-!
Embedding of the document converter (tokensToHtmlSync and htmlToTokens of
parser.js).  The rich document is modelled as the list of paragraph blocks
that the generated HTML parses back into: a class list, the three data
attributes, and an inline sequence of plain text, entity marks and note
spans.  Serializing the paragraphs to an HTML string and parsing them back
is the identity on this representation (texts that contain markup-active
characters fall outside the canonical form used in the theorems below), so
the composition of the two converter directions is modelled directly on
paragraph lists.  Markup spans are treated as atomic by the line-splitting
of dialogue and action blocks; they never contain newlines in the
developments below.
-/

def vfxLevels : List String := ["easy", "mid", "hard", "epic"]

inductive Inline
  | txt (s : Chars)
  | mark (cls : String) (content : Chars)
  | note (content : Chars)
deriving DecidableEq, Repr

structure Para where
  classes : List String := []
  sceneNumber : Option String := none
  pageNumber : Option String := none
  shotNumber : Option String := none
  inlines : List Inline := []
deriving DecidableEq, Repr

/-- The vfx pattern built in tokensToHtmlSync from the configured difficulty
    levels: optional whitespace, optional shot number, optional whitespace,
    one of the level identifiers; first unanchored match. -/
def vfxReAt (l : Chars) : Option (Option Chars × Chars) :=
  let l1 := l.dropWhile isWsChar
  let ds := l1.takeWhile isDigitCh
  let l2 := (l1.drop ds.length).dropWhile isWsChar
  match vfxLevels.find? (fun lv => pfx lv.data l2) with
  | some lv => some ((if ds = [] then none else some ds), lv.data)
  | none => none

def vfxReMatch : Chars → Option (Option Chars × Chars)
  | [] => none
  | l@(_ :: t) =>
    match vfxReAt l with
    | some r => some r
    | none => vfxReMatch t

/-- Splitting a text into plain pieces and note spans (the note regex
    replacement of tokensToHtmlSync). -/
def consTxt (c : Char) : List Inline → List Inline
  | .txt s :: r => .txt (c :: s) :: r
  | r => .txt [c] :: r

def noteSplitF : Nat → Chars → List Inline
  | 0, l => if l = [] then [] else [.txt l]
  | _ + 1, [] => []
  | fuel + 1, c :: t =>
    match noteMatchAt (c :: t) with
    | some (inner, rest) => .note inner :: noteSplitF fuel rest
    | none => consTxt c (noteSplitF fuel t)

def noteSplitInl (l : Chars) : List Inline := noteSplitF (l.length + 1) l

def isWordOpt : Option Char → Bool
  | some c => isWordCh c
  | none => false

/-- Appending a chunk of plain text in front of an inline list, merging with
    a leading text piece. -/
def consTxts (s : Chars) (inls : List Inline) : List Inline :=
  match s with
  | [] => inls
  | _ =>
    match inls with
    | .txt s2 :: r => .txt (s ++ s2) :: r
    | r => .txt s :: r

/-- The entity regex of tokensToHtmlSync applied to a plain text piece:
    case-insensitive whole-word occurrences of the registry names (tried in
    registry order at each position), not enclosed in double stars, become
    marks carrying the entity type and the upper-cased trimmed key; a
    matched name missing from the registry is kept as plain text but still
    consumed. -/
def markScanF (ents : Entities) (names : List String) :
    Nat → Option Char → Option Char → Chars → List Inline
  | 0, _, _, l => if l = [] then [] else [.txt l]
  | _ + 1, _, _, [] => []
  | fuel + 1, p2, p1, l@(c :: t) =>
    let cand := names.find? fun nm =>
      nm ≠ "" && pfxCI nm.data l &&
      (isWordOpt p1 != (nm.data.head?.map isWordCh).getD false) &&
      (((l.drop nm.length).head?.map isWordCh).getD false !=
        (nm.data.getLast?.map isWordCh).getD false) &&
      !(p2 = some '*' && p1 = some '*') &&
      !(pfx "**".data (l.drop nm.length))
    match cand with
    | some nm =>
      let matched := l.take nm.length
      let rest := l.drop nm.length
      let key := String.mk (toUpperCh (trimCh matched))
      let p1n := matched.getLast?
      let p2n := if matched.length ≥ 2 then matched.dropLast.getLast? else p1
      match entGet ents key with
      | some e => .mark e.type key.data :: markScanF ents names fuel p2n p1n rest
      | none => consTxts matched (markScanF ents names fuel p2n p1n rest)
    | none => consTxt c (markScanF ents names fuel p1 (some c) t)

/-- The second replacement of wrapMark: explicit starred annotations become
    marks carrying the annotated type and the name. -/
def annotMarkF : Nat → Chars → List Inline
  | 0, l => if l = [] then [] else [.txt l]
  | _ + 1, [] => []
  | fuel + 1, c :: t =>
    match annotMatchAt (c :: t) with
    | some (g1, g2, rest) => .mark (String.mk g2) g1 :: annotMarkF fuel rest
    | none => consTxt c (annotMarkF fuel t)

/-- wrapMark of tokensToHtmlSync over an inline sequence: with an empty
    registry there is no entity regex and the sequence is returned
    untouched; otherwise the entity replacement runs first and the
    annotation replacement runs on its output, both applied to the plain
    text pieces. -/
def wrapMarkInl (ents : Entities) (inls : List Inline) : List Inline :=
  let names := ents.map (·.1)
  if names = [] then inls
  else
    let step1 := inls.flatMap fun i =>
      match i with
      | .txt s => markScanF ents names (s.length + 1) none none s
      | i => [i]
    step1.flatMap fun i =>
      match i with
      | .txt s => annotMarkF (s.length + 1) s
      | i => [i]

/-- Splitting an inline sequence at the newlines of its text pieces;
    non-text inlines are atomic. -/
def splitInlLines : List Inline → List (List Inline)
  | [] => [[]]
  | .txt s :: rest =>
    let pieces := splitCh '\n' s
    let restLines := splitInlLines rest
    let init := pieces.dropLast.map fun p =>
      if p = [] then ([] : List Inline) else [Inline.txt p]
    let lastP := pieces.getLast?.getD []
    match restLines with
    | first :: more => init ++ (consTxts lastP first :: more)
    | [] => init ++ [consTxts lastP []]
  | i :: rest =>
    match splitInlLines rest with
    | first :: more => (i :: first) :: more
    | [] => [[i]]

/-- The filter used on dialogue and action lines: a line is kept when its
    rendering is non-empty after trimming. -/
def lineNonBlank (ln : List Inline) : Bool :=
  ln.any fun
    | .txt s => trimCh s ≠ []
    | _ => true

def trimInlStart : List Inline → List Inline
  | .txt s :: rest =>
    let s2 := trimStartCh s
    if s2 = [] then trimInlStart rest else .txt s2 :: rest
  | l => l

def trimInlEnd : List Inline → List Inline
  | [] => []
  | x :: rest =>
    match trimInlEnd rest with
    | [] =>
      match x with
      | .txt s =>
        let s2 := trimEndCh s
        if s2 = [] then [] else [.txt s2]
      | x => [x]
    | r => x :: r

def trimInl (l : List Inline) : List Inline := trimInlStart (trimInlEnd l)

def blankPara : Para := {}

/-- The vfx classes and shot number derived in tokensToHtmlSync from a
    token's vfx field. -/
def vfxParts (ov : Option String) : List String × Option String :=
  match ov with
  | none => ([], none)
  | some v =>
    match vfxReMatch v.data with
    | some (m1, m2) => (["vfx", String.mk m2], m1.map String.mk)
    | none => (["vfx"], none)

/-- The paragraph blocks that the markup rendered for one token parses
    back into: the paragraph-level counterpart of htmlRenderTok below,
    proven equal on canonical tokens to the parse of the rendered markup in
    the round-trip development.  Dialogue-begin and dialogue-end tokens
    have no case in the source switch and produce nothing. -/
def tokenParas (ents : Entities) (t : Token) : List Para :=
  let inls := wrapMarkInl ents (noteSplitInl (t.text.getD "").data)
  let vfxInfo := vfxParts t.vfx
  let vfxCl := vfxInfo.1
  let shot := vfxInfo.2
  match t.type with
  | .sceneHeading =>
    let sn :=
      match t.sceneNum with
      | some v => if jsValTruthy v then some (String.mk (jsValChars v)) else none
      | none => none
    [{ classes := "scene-heading" :: vfxCl, sceneNumber := sn, inlines := inls }, blankPara]
  | .transition =>
    [{ classes := "transition" :: vfxCl, shotNumber := shot, inlines := inls }, blankPara]
  | .flashback =>
    [{ classes := "flashback" :: vfxCl, shotNumber := shot, inlines := inls }]
  | .character =>
    [{ classes := "character" :: vfxCl, shotNumber := shot, inlines := inls }]
  | .parenthetical =>
    [{ classes := ["parenthetical"], shotNumber := shot, inlines := inls }]
  | .dialogue =>
    ((splitInlLines inls).filter lineNonBlank).map (fun ln =>
      { classes := "dialogue" :: vfxCl, shotNumber := shot, inlines := trimInl ln }) ++
      [blankPara]
  | .action =>
    ((splitInlLines inls).filter lineNonBlank).map (fun ln =>
      { classes := "action" :: vfxCl, shotNumber := shot, inlines := trimInl ln }) ++
      [blankPara]
  | .centered =>
    [{ classes := "centered" :: vfxCl, shotNumber := shot, inlines := inls }]
  | .pageBreak =>
    let pn :=
      match t.pageNum with
      | some v => String.mk (jsValChars v)
      | none => "undefined"
    [{ classes := ["page-break"], pageNumber := some pn,
       inlines := [.txt (List.replicate 55 '=' ++ "  ".data)] }, blankPara]
  | _ => []

def tokensToParas (tokens : List Token) (es : Entities) : List Para :=
  tokens.flatMap (tokenParas es)

/-!
htmlToTokens of parser.js over the paragraph representation.
-/

structure HSt where
  tokens : List Token := []
  entities : Entities := []
  blockType : Option String := none
  blockText : List Chars := []
  blockVfx : Option String := none
deriving DecidableEq, Repr

/-- Closing the open action or dialogue block of the document parser: the
    accumulated lines are joined with newlines (without a trailing one). -/
def hFlush (st : HSt) : HSt :=
  match st.blockType with
  | some bt =>
    { st with
      tokens := st.tokens ++
        [{ type := if bt = "action" then .action else .dialogue,
           text := some (String.mk (interCh ['\n'] st.blockText)),
           vfx := st.blockVfx }],
      blockType := none, blockText := [], blockVfx := none }
  | none => st

/-- The vfx field rebuilt by htmlToTokens from a paragraph's classes and
    shot number. -/
def hParaVfx (classes : List String) (shot : Option String) : Option String :=
  if classes.contains "vfx" then
    some (String.mk ((shot.getD "").data ++ [' '] ++
      interCh [' '] ((vfxLevels.filter (fun lv => classes.contains lv)).map (·.data))))
  else none

/-- One paragraph of htmlToTokens. -/
def hPara (st : HSt) (p : Para) : HSt :=
  let vfxClasses := hParaVfx p.classes p.shotNumber
  let es := p.inlines.foldl
    (fun es i =>
      match i with
      | .mark cls content =>
        let key := String.mk (toUpperCh content)
        let e := (entGet es key).getD {}
        entSet es key { e with type := cls, count := e.count + 1 }
      | _ => es) st.entities
  let notes := p.inlines.filterMap fun i =>
    match i with
    | .note c => some c
    | _ => none
  let contentCh : Chars := p.inlines.flatMap fun i =>
    match i with
    | .txt s => s
    | .mark cls content => "**".data ++ content ++ "**[[".data ++ cls.data ++ "]]".data
    | .note _ => []
  let noteText : Chars :=
    if notes ≠ [] then
      ' ' :: interCh [' '] (notes.map (fun n => "[[".data ++ n ++ "]]".data))
    else []
  let text := trimCh contentCh ++ noteText
  let classesEff := if trimCh text = [] then [] else p.classes
  let es := (entAnnotScan text).1.foldl
    (fun es m =>
      (splitCh ',' m.2).foldl
        (fun es nm =>
          let key := String.mk (toUpperCh (trimCh nm))
          let e := (entGet es key).getD {}
          entSet es key { e with type := String.mk m.1 }) es) es
  let st := { st with entities := es }
  let st :=
    match st.blockType with
    | some bt => if classesEff.contains bt then st else hFlush st
    | none => st
  if classesEff.contains "action" then
    { st with
      blockType := some "action",
      blockVfx := st.blockVfx <|> vfxClasses,
      blockText := st.blockText ++ [text] }
  else if classesEff.contains "dialogue" then
    { st with
      blockType := some "dialogue",
      blockVfx := st.blockVfx <|> vfxClasses,
      blockText := st.blockText ++ [text] }
  else if classesEff.contains "character" then
    { st with tokens := st.tokens ++
        [{ type := .character, text := some (String.mk text),
           character := some (String.mk text), vfx := vfxClasses }] }
  else if classesEff.contains "parenthetical" then
    { st with tokens := st.tokens ++
        [{ type := .parenthetical, text := some (String.mk text), vfx := vfxClasses }] }
  else if classesEff.contains "scene-heading" then
    { st with tokens := st.tokens ++
        [{ type := .sceneHeading, text := some (String.mk text),
           sceneNum := some (.str (p.sceneNumber.getD "")), vfx := vfxClasses }] }
  else if classesEff.contains "page-break" then
    { st with tokens := st.tokens ++
        [{ type := .pageBreak, pageNum := some (.str (p.pageNumber.getD "")) }] }
  else if classesEff.contains "transition" then
    { st with tokens := st.tokens ++
        [{ type := .transition, text := some (String.mk text), vfx := vfxClasses }] }
  else if classesEff.contains "flashback" then
    { st with tokens := st.tokens ++
        [{ type := .flashback, text := some (String.mk text), vfx := vfxClasses }] }
  else if classesEff.contains "centered" then
    { st with tokens := st.tokens ++
        [{ type := .centered, text := some (String.mk text), vfx := vfxClasses }] }
  else st

def parasToTokens (ps : List Para) : List Token × Entities :=
  let st := hFlush (ps.foldl hPara {})
  (st.tokens, st.entities)

/-!
The markup layer of the converter.  tokensToHtmlSync builds an HTML string
from template literals, assigns it to body.innerHTML and returns the
re-serialized body; htmlToTokens parses the markup again and walks the
paragraph elements.  Serializing a parsed tree and re-parsing the
serialization reproduces the tree, so the composition of the two passes is
modelled as a single parse (parasOfHtml below) of the joined template
strings.  The parse itself follows the HTML tokenizer states exercised by
the converter (data, tag open, tag name, attribute name and value states,
character references) driven one character at a time, and a tree builder
keeping a stack of open elements.
-/

/-- The numeric value of a digit run. -/
def natOfDigits (ds : Chars) : Nat :=
  ds.foldl (fun n c => n * 10 + (c.toNat - 48)) 0

/-- A node of the parsed markup: a text run, or an element with its tag
    name, attributes in document order and children. -/
inductive HNode
  | text (s : Chars)
  | elem (tag : String) (attrs : List (String × Chars)) (children : List HNode)
deriving Repr

/-- Characters that can continue a character reference after the
    ampersand. -/
def refContCls (c : Char) : Bool := isAlphaCh c || isDigitCh c || c = '#'

/-- Decoding one character reference body (between the ampersand and the
    semicolon): the named references relevant to the exchanged markup and
    the decimal numeric form.  Anything else stays literal text. -/
def refDecode (acc : Chars) : Option Char :=
  if acc = "lt".data then some '<'
  else if acc = "gt".data then some '>'
  else if acc = "amp".data then some '&'
  else if acc = "quot".data then some '"'
  else if acc = "apos".data then some '\''
  else if acc = "nbsp".data then some ' '
  else
    match acc with
    | '#' :: ds =>
      if ds ≠ [] && ds.all isDigitCh then some (Char.ofNat (natOfDigits ds))
      else none
    | _ => none

/-- The tokenizer states exercised by the converter's markup. -/
inductive TkMode
  | data | tagOpen | endTagOpen | tagName | beforeAttrName | attrName
  | afterAttrName | beforeAttrValue | attrValDq | attrValSq | attrValUnq
  | afterAttrValQ | selfClosing | bogus
deriving DecidableEq, Repr

/-- The combined tokenizer and tree-builder state: finished top-level
    nodes, the stack of open elements (tag, attributes, children so far),
    the tokenizer mode, the pending text run, the tag and attribute under
    construction, and the pending character-reference body. -/
structure TkSt where
  done : List HNode := []
  stack : List (String × List (String × Chars) × List HNode) := []
  mode : TkMode := .data
  buf : Chars := []
  tag : Chars := []
  attrs : List (String × Chars) := []
  anm : Chars := []
  aval : Chars := []
  isEnd : Bool := false
  ref : Option Chars := none
deriving Repr

/-- Appending a finished node to the innermost open element, or to the top
    level when no element is open. -/
def appendChild (st : TkSt) (n : HNode) : TkSt :=
  match st.stack with
  | [] => { st with done := st.done ++ [n] }
  | (tg, ats, kids) :: rest => { st with stack := (tg, ats, kids ++ [n]) :: rest }

/-- Emitting the pending text run as a text node. -/
def flushText (st : TkSt) : TkSt :=
  if st.buf = [] then st else appendChild { st with buf := [] } (.text st.buf)

/-- Committing the attribute under construction.  The tree builder ignores
    all but the first attribute of a name; attrGet below reads the first
    occurrence, so duplicates are kept in the list. -/
def commitAttr (st : TkSt) : TkSt :=
  { st with attrs := st.attrs ++ [(String.mk st.anm, st.aval)], anm := [], aval := [] }

/-- The void elements: their start tag produces a childless node. -/
def voidTags : List String :=
  ["area", "base", "br", "col", "embed", "hr", "img", "input", "link",
   "meta", "source", "track", "wbr"]

/-- Emitting the completed tag.  A start tag of a void element appends a
    childless node, any other start tag opens an element, and an end tag
    closes the innermost open element (the exchanged markup closes its
    elements properly, so end-tag name recovery is not modelled); a surplus
    end tag is ignored. -/
def finishTag (st : TkSt) : TkSt :=
  let tg := String.mk st.tag
  let ats := st.attrs
  let st2 :=
    { st with
        mode := TkMode.data, tag := [], attrs := [], anm := [], aval := [],
        isEnd := false }
  if st.isEnd then
    match st2.stack with
    | [] => st2
    | (tg0, ats0, kids0) :: rest =>
      appendChild { st2 with stack := rest } (.elem tg0 ats0 kids0)
  else if voidTags.contains tg then
    appendChild st2 (.elem tg ats [])
  else
    { st2 with stack := (tg, ats, []) :: st2.stack }

/-- One character in the data state: a bracket opens a tag, an ampersand
    starts a reference, anything else is text. -/
def dataStep (st : TkSt) (c : Char) : TkSt :=
  if c = '<' then { st with mode := TkMode.tagOpen }
  else if c = '&' then { st with ref := some [] }
  else { st with buf := st.buf ++ [c] }

/-- Where a decoded or literal reference goes: the text run in the data
    state, the attribute value in the value states. -/
def refSink (st : TkSt) (s : Chars) : TkSt :=
  if st.mode = TkMode.data then { st with buf := st.buf ++ s }
  else { st with aval := st.aval ++ s }

/-- One character with no pending reference, dispatched on the tokenizer
    mode.  Tag and attribute names are lower-cased as read. -/
def tkStepNoRef (st : TkSt) (c : Char) : TkSt :=
  match st.mode with
  | .data => dataStep st c
  | .tagOpen =>
    if c = '/' then { st with mode := TkMode.endTagOpen }
    else if isAlphaCh c then
      { flushText st with
          isEnd := false, tag := [lowerCh c], attrs := [], mode := TkMode.tagName }
    else if c = '!' || c = '?' then { st with mode := TkMode.bogus }
    else dataStep { st with buf := st.buf ++ ['<'], mode := TkMode.data } c
  | .endTagOpen =>
    if isAlphaCh c then
      { flushText st with
          isEnd := true, tag := [lowerCh c], attrs := [], mode := TkMode.tagName }
    else if c = '>' then { st with mode := TkMode.data }
    else { st with mode := TkMode.bogus }
  | .tagName =>
    if isWsChar c then { st with mode := TkMode.beforeAttrName }
    else if c = '/' then { st with mode := TkMode.selfClosing }
    else if c = '>' then finishTag st
    else { st with tag := st.tag ++ [lowerCh c] }
  | .beforeAttrName =>
    if isWsChar c then st
    else if c = '/' then { st with mode := TkMode.selfClosing }
    else if c = '>' then finishTag st
    else { st with anm := [lowerCh c], aval := [], mode := TkMode.attrName }
  | .attrName =>
    if isWsChar c then { st with mode := TkMode.afterAttrName }
    else if c = '/' then { commitAttr st with mode := TkMode.selfClosing }
    else if c = '>' then finishTag (commitAttr st)
    else if c = '=' then { st with mode := TkMode.beforeAttrValue }
    else { st with anm := st.anm ++ [lowerCh c] }
  | .afterAttrName =>
    if isWsChar c then st
    else if c = '=' then { st with mode := TkMode.beforeAttrValue }
    else if c = '>' then finishTag (commitAttr st)
    else if c = '/' then { commitAttr st with mode := TkMode.selfClosing }
    else
      { commitAttr st with
          anm := [lowerCh c], aval := [], mode := TkMode.attrName }
  | .beforeAttrValue =>
    if isWsChar c then st
    else if c = '"' then { st with aval := [], mode := TkMode.attrValDq }
    else if c = '\'' then { st with aval := [], mode := TkMode.attrValSq }
    else if c = '>' then finishTag (commitAttr st)
    else if c = '&' then
      { st with
          aval := [], mode := TkMode.attrValUnq, ref := some [] }
    else { st with aval := [c], mode := TkMode.attrValUnq }
  | .attrValDq =>
    if c = '"' then { commitAttr st with mode := TkMode.afterAttrValQ }
    else if c = '&' then { st with ref := some [] }
    else { st with aval := st.aval ++ [c] }
  | .attrValSq =>
    if c = '\'' then { commitAttr st with mode := TkMode.afterAttrValQ }
    else if c = '&' then { st with ref := some [] }
    else { st with aval := st.aval ++ [c] }
  | .attrValUnq =>
    if isWsChar c then { commitAttr st with mode := TkMode.beforeAttrName }
    else if c = '>' then finishTag (commitAttr st)
    else if c = '&' then { st with ref := some [] }
    else { st with aval := st.aval ++ [c] }
  | .afterAttrValQ =>
    if isWsChar c then { st with mode := TkMode.beforeAttrName }
    else if c = '>' then finishTag st
    else if c = '/' then { st with mode := TkMode.selfClosing }
    else { st with anm := [lowerCh c], aval := [], mode := TkMode.attrName }
  | .selfClosing =>
    if c = '>' then finishTag st
    else if isWsChar c then { st with mode := TkMode.beforeAttrName }
    else { st with anm := [lowerCh c], aval := [], mode := TkMode.attrName }
  | .bogus => if c = '>' then { st with mode := TkMode.data } else st

/-- One character of the tokenizer.  A pending reference is extended,
    resolved at a semicolon, or flushed as literal text with the current
    character reprocessed. -/
def tkStep (st : TkSt) (c : Char) : TkSt :=
  match st.ref with
  | some acc =>
    if c = ';' then
      match refDecode acc with
      | some ch => refSink { st with ref := none } [ch]
      | none => refSink { st with ref := none } ('&' :: acc ++ [';'])
    else if refContCls c && acc.length < 32 then
      { st with ref := some (acc ++ [c]) }
    else tkStepNoRef (refSink { st with ref := none } ('&' :: acc)) c
  | none => tkStepNoRef st c

/-- Closing the remaining open elements at the end of input, innermost
    first. -/
def nestFrames (n : HNode) :
    List (String × List (String × Chars) × List HNode) → HNode
  | [] => n
  | (tg, ats, kids) :: rest => nestFrames (.elem tg ats (kids ++ [n])) rest

/-- End of input: a pending reference and the pending text run become
    text (a pending bracket of an unfinished tag open is literal), a
    partially read tag is discarded, and the open elements are closed. -/
def tkFinish (st : TkSt) : List HNode :=
  let st2 :=
    match st.ref with
    | some acc => refSink { st with ref := none } ('&' :: acc)
    | none => st
  let st3 :=
    if st2.mode = TkMode.tagOpen then { st2 with buf := st2.buf ++ ['<'] }
    else st2
  let st4 := flushText st3
  match st4.stack with
  | [] => st4.done
  | (tg, ats, kids) :: rest => st4.done ++ [nestFrames (.elem tg ats kids) rest]

/-- The markup parse: run the tokenizer over the input and finish. -/
def parseHtml (l : Chars) : List HNode := tkFinish (l.foldl tkStep {})

mutual

/-- The paragraph elements contributed by one node: itself if it is a p,
    followed by the p descendants of its children. -/
def collectP : HNode → List HNode
  | .text _ => []
  | .elem tg ats kids =>
    (if tg = "p" then [HNode.elem tg ats kids] else []) ++ collectPs kids

/-- All paragraph elements of a node list in document order
    (querySelectorAll on p). -/
def collectPs : List HNode → List HNode
  | [] => []
  | n :: rest => collectP n ++ collectPs rest

end

mutual

/-- textContent of one node. -/
def textContentOf : HNode → Chars
  | .text s => s
  | .elem _ _ kids => textContentList kids

/-- textContent of a node list: the concatenated text runs. -/
def textContentList : List HNode → Chars
  | [] => []
  | n :: rest => textContentOf n ++ textContentList rest

end

/-- Reading an attribute: the first occurrence of the name. -/
def attrGet (ats : List (String × Chars)) (k : String) : Option Chars :=
  (ats.find? (fun a => a.1 = k)).map (·.2)

/-- Splitting at whitespace runs (the classList view of the class
    attribute). -/
def wsSplitF : Nat → Chars → List Chars
  | 0, _ => []
  | fuel + 1, l =>
    let l1 := l.dropWhile isWsChar
    match l1 with
    | [] => []
    | _ =>
      let w := l1.takeWhile (fun c => !isWsChar c)
      w :: wsSplitF fuel (l1.drop w.length)

def splitWsCh (l : Chars) : List Chars := wsSplitF (l.length + 1) l

def classListOf (ats : List (String × Chars)) : List String :=
  match attrGet ats "class" with
  | some v => (splitWsCh v).map String.mk
  | none => []

/-- The children of a paragraph as the walk of htmlToTokens sees them: a
    mark element becomes a mark carrying its first class (the walk reads
    classList zero, rendered as the string undefined when absent) and its
    text, an element classed note-bubble becomes a note, a br contributes
    nothing to the text content, and any other node contributes its
    text. -/
def inlinesOf : List HNode → List Inline
  | [] => []
  | .text s :: rest => .txt s :: inlinesOf rest
  | .elem tg ats kids :: rest =>
    if tg = "mark" then
      .mark ((classListOf ats).headD "undefined") (textContentList kids) ::
        inlinesOf rest
    else if (classListOf ats).contains "note-bubble" then
      .note (textContentList kids) :: inlinesOf rest
    else if tg = "br" then inlinesOf rest
    else .txt (textContentList kids) :: inlinesOf rest

/-- One parsed paragraph element as a Para value: the classList, the three
    data attributes read through dataset, and the children. -/
def paraOfP : HNode → Para
  | .elem _ ats kids =>
    { classes := classListOf ats,
      sceneNumber := (attrGet ats "data-scene-number").map String.mk,
      pageNumber := (attrGet ats "data-page-number").map String.mk,
      shotNumber := (attrGet ats "data-shot-number").map String.mk,
      inlines := inlinesOf kids }
  | .text _ => blankPara

/-- The paragraph extraction of htmlToTokens: parse the markup and read
    every paragraph element. -/
def parasOfHtml (html : Chars) : List Para :=
  (collectPs (parseHtml html)).map paraOfP

/-- The note replacement of tokensToHtmlSync at the string level: every
    note match becomes a note-bubble span around its content. -/
def noteRepF : Nat → Chars → Chars
  | 0, l => l
  | _ + 1, [] => []
  | fuel + 1, c :: t =>
    match noteMatchAt (c :: t) with
    | some (inner, rest) =>
      "<span data-type=\"note\" class=\"note-bubble\">".data ++ inner ++
        "</span>".data ++ noteRepF fuel rest
    | none => c :: noteRepF fuel t

def noteRep (l : Chars) : Chars := noteRepF (l.length + 1) l

/-- The entity replacement of wrapMark at the string level: a matched
    registry name becomes a mark tag around the upper-cased trimmed key; a
    match missing from the registry is kept unchanged but consumed. -/
def markRepF (ents : Entities) (names : List String) :
    Nat → Option Char → Option Char → Chars → Chars
  | 0, _, _, l => l
  | _ + 1, _, _, [] => []
  | fuel + 1, p2, p1, l@(c :: t) =>
    let cand := names.find? fun nm =>
      nm ≠ "" && pfxCI nm.data l &&
      (isWordOpt p1 != (nm.data.head?.map isWordCh).getD false) &&
      (((l.drop nm.length).head?.map isWordCh).getD false !=
        (nm.data.getLast?.map isWordCh).getD false) &&
      !(p2 = some '*' && p1 = some '*') &&
      !(pfx "**".data (l.drop nm.length))
    match cand with
    | some nm =>
      let matched := l.take nm.length
      let rest := l.drop nm.length
      let key := String.mk (toUpperCh (trimCh matched))
      let p1n := matched.getLast?
      let p2n := if matched.length ≥ 2 then matched.dropLast.getLast? else p1
      match entGet ents key with
      | some e =>
        "<mark class=\"".data ++ e.type.data ++ "\">".data ++ key.data ++
          "</mark>".data ++ markRepF ents names fuel p2n p1n rest
      | none => matched ++ markRepF ents names fuel p2n p1n rest
    | none => c :: markRepF ents names fuel p1 (some c) t

/-- The annotation replacement of wrapMark at the string level. -/
def annotRepF : Nat → Chars → Chars
  | 0, l => l
  | _ + 1, [] => []
  | fuel + 1, c :: t =>
    match annotMatchAt (c :: t) with
    | some (g1, g2, rest) =>
      "<mark class=\"".data ++ g2 ++ "\">".data ++ g1 ++ "</mark>".data ++
        annotRepF fuel rest
    | none => c :: annotRepF fuel t

/-- wrapMark of tokensToHtmlSync: with an empty registry there is no
    entity regex and the line is returned untouched; otherwise the entity
    replacement runs first and the annotation replacement runs on its
    output. -/
def wrapMarkStr (ents : Entities) (l : Chars) : Chars :=
  let names := ents.map (·.1)
  if names = [] then l
  else
    let step1 := markRepF ents names (l.length + 1) none none l
    annotRepF (step1.length + 1) step1

/-- One token of tokensToHtmlSync: the exact template string pushed for
    the token.  Dialogue-begin and dialogue-end tokens have no case in the
    source switch and push nothing. -/
def htmlRenderTok (ents : Entities) (t : Token) : Chars :=
  let cleanText := noteRep (t.text.getD "").data
  let w := wrapMarkStr ents cleanText
  let m : Option (Option Chars × Chars) :=
    match t.vfx with
    | some v => if v = "" then none else vfxReMatch v.data
    | none => none
  let vfxClasses : Chars :=
    match m with
    | some p => " vfx ".data ++ p.2
    | none =>
      match t.vfx with
      | some v => if v = "" then [] else " vfx".data
      | none => []
  let vfxShotNum : Chars :=
    match m with
    | some (some ds, _) => " data-shot-number=\"".data ++ ds ++ "\"".data
    | _ => []
  match t.type with
  | .sceneHeading =>
    let sceneNum : Chars :=
      match t.sceneNum with
      | some v =>
        if jsValTruthy v then " data-scene-number=".data ++ jsValChars v
        else []
      | none => []
    "<p class=\"scene-heading".data ++ vfxClasses ++ "\"".data ++ sceneNum ++
      ">".data ++ w ++ "</p><p><br></p>".data
  | .transition =>
    "<p class=\"transition".data ++ vfxClasses ++ "\"".data ++ vfxShotNum ++
      ">".data ++ w ++ "</p>\n<p><br></p>".data
  | .flashback =>
    "<p class=\"flashback".data ++ vfxClasses ++ "\"".data ++ vfxShotNum ++
      ">".data ++ w ++ "</p>".data
  | .character =>
    "<p class=\"character".data ++ vfxClasses ++ "\"".data ++ vfxShotNum ++
      ">".data ++ w ++ "</p>".data
  | .parenthetical =>
    "<p class=\"parenthetical\"".data ++ vfxShotNum ++ ">".data ++ w ++
      "</p>".data
  | .dialogue =>
    (((splitCh '\n' w).filter (fun ln => trimCh ln ≠ [])).map (fun ln =>
      "<p class=\"dialogue".data ++ vfxClasses ++ "\"".data ++ vfxShotNum ++
        ">".data ++ trimCh ln ++ "</p>".data)).flatten ++ "<p><br></p>".data
  | .action =>
    (((splitCh '\n' w).filter (fun ln => trimCh ln ≠ [])).map (fun ln =>
      "<p class=\"action".data ++ vfxClasses ++ "\"".data ++ vfxShotNum ++
        ">".data ++ trimCh ln ++ "</p>".data)).flatten ++ "<p><br></p>".data
  | .centered =>
    "<p class=\"centered".data ++ vfxClasses ++ "\"".data ++ vfxShotNum ++
      ">".data ++ w ++ "</p>".data
  | .pageBreak =>
    let pn : Chars :=
      match t.pageNum with
      | some v => jsValChars v
      | none => "undefined".data
    "<p class=\"page-break\" data-page-number=\"".data ++ pn ++ "\">".data ++
      List.replicate 55 '=' ++ "  </p><p><br></p>".data
  | _ => []

/-- tokensToHtmlSync of parser.js at the string level: the joined template
    strings of all tokens. -/
def tokensToHtmlStr (tokens : List Token) (es : Entities) : Chars :=
  (tokens.map (htmlRenderTok es)).flatten

/-- The round trip of the document converter: render tokens to markup with
    tokensToHtmlSync and parse the markup back with htmlToTokens. -/
def docRoundTrip (tokens : List Token) (es : Entities) : List Token × Entities :=
  parasToTokens (parasOfHtml (tokensToHtmlStr tokens es))

/-!
Tokenizer state shapes traversed while parsing one rendered paragraph; used
by the round-trip proof.
-/

/-- The state at the start of input and between well-formed paragraphs:
    only the finished nodes vary. -/
def tkNeutral (D : List HNode) : TkSt := { done := D }

/-- Inside a double-quoted attribute value of a paragraph start tag. -/
def tkValDqSt (D : List HNode) (atl : List (String × Chars)) (nm v : Chars) : TkSt :=
  ⟨D, [], .attrValDq, [], ['p'], atl, nm, v, false, none⟩

/-- Just after the closing quote of an attribute value. -/
def tkAfterQSt (D : List HNode) (atl : List (String × Chars)) : TkSt :=
  ⟨D, [], .afterAttrValQ, [], ['p'], atl, [], [], false, none⟩

/-- Just after the equals sign of an attribute. -/
def tkBeforeValSt (D : List HNode) (atl : List (String × Chars)) (nm : Chars) : TkSt :=
  ⟨D, [], .beforeAttrValue, [], ['p'], atl, nm, [], false, none⟩

/-- Inside an unquoted attribute value. -/
def tkValUnqSt (D : List HNode) (atl : List (String × Chars)) (nm v : Chars) : TkSt :=
  ⟨D, [], .attrValUnq, [], ['p'], atl, nm, v, false, none⟩

/-- Just after the start tag of a paragraph: one open element. -/
def tkFrameSt (D : List HNode) (atl : List (String × Chars)) : TkSt :=
  ⟨D, [("p", atl, [])], .data, [], [], [], [], [], false, none⟩

/-- Inside the text of a paragraph. -/
def tkTextSt (D : List HNode) (atl : List (String × Chars)) (s : Chars) : TkSt :=
  ⟨D, [("p", atl, [])], .data, s, [], [], [], [], false, none⟩


/-!
The canonical token forms on which the document round trip is exact; used to
state the amended version of the round-trip law.
-/

/-- Characters that neither the converter's rewrites nor the markup layer
    touch: no note or entity opener, no annotation star, no line break, and
    no markup-active character (tag delimiters, ampersand). -/
def plainCh (c : Char) : Bool :=
  c ≠ '[' && c ≠ '*' && c ≠ '\n' && c ≠ '<' && c ≠ '>' && c ≠ '&'

/-- A canonical rendered line: non-empty, identical to its own trim, and
    made of plain characters. -/
def canonLine (l : Chars) : Bool :=
  l ≠ [] && trimCh l = l && l.all plainCh

/-- A canonical vfx field: absent, or a space and one of the configured
    difficulty levels, optionally preceded by a digit-run shot number. -/
def canonVfx (ov : Option String) : Bool :=
  match ov with
  | none => true
  | some v =>
    vfxLevels.any fun lv =>
      v.data = ' ' :: lv.data ||
      (v.data.takeWhile isDigitCh ≠ [] &&
        v.data = v.data.takeWhile isDigitCh ++ ' ' :: lv.data)

/-- A canonical vfx field with no shot number (the rendering of scene
    headings drops the shot number). -/
def canonVfxNS (ov : Option String) : Bool :=
  match ov with
  | none => true
  | some v => vfxLevels.any fun lv => v.data = ' ' :: lv.data

/-- A canonical single-line text field. -/
def canonText1 (t : Token) : Bool :=
  match t.text with
  | some s => canonLine s.data
  | none => false

/-- A canonical block text: its newline-separated lines are all canonical. -/
def canonBlockText (t : Token) : Bool :=
  match t.text with
  | some s => (splitCh '\n' s.data).all canonLine
  | none => false

/-- The canonical form of one token, by type: the fields the converter does
    not rebuild are absent, texts are canonical, and the vfx field has the
    shape the converter itself produces. -/
def canonTok (t : Token) : Bool :=
  match t.type with
  | .dialogue =>
    canonBlockText t && canonVfx t.vfx && t.sceneNum = none && t.pageNum = none &&
      t.character = none && t.dual = none
  | .action =>
    canonBlockText t && canonVfx t.vfx && t.sceneNum = none && t.pageNum = none &&
      t.character = none && t.dual = none
  | .character =>
    canonText1 t && canonVfx t.vfx && t.character = t.text && t.dual = none &&
      t.sceneNum = none && t.pageNum = none
  | .parenthetical =>
    canonText1 t && t.vfx = none && t.sceneNum = none && t.pageNum = none &&
      t.character = none && t.dual = none
  | .sceneHeading =>
    canonText1 t && canonVfxNS t.vfx &&
      (match t.sceneNum with
       | some (.str s) => s ≠ "" && s.data.all isWordCh
       | _ => false) &&
      t.pageNum = none && t.character = none && t.dual = none
  | .transition =>
    canonText1 t && canonVfx t.vfx && t.sceneNum = none && t.pageNum = none &&
      t.character = none && t.dual = none
  | .flashback =>
    canonText1 t && canonVfx t.vfx && t.sceneNum = none && t.pageNum = none &&
      t.character = none && t.dual = none
  | .centered =>
    canonText1 t && canonVfx t.vfx && t.sceneNum = none && t.pageNum = none &&
      t.character = none && t.dual = none
  | .pageBreak =>
    t.text = none && t.vfx = none &&
      (match t.pageNum with
       | some (.str q) => q.data.all isWordCh
       | _ => false) &&
      t.sceneNum = none && t.character = none && t.dual = none
  | .dialogueBegin => false
  | .dialogueEnd => false

def pbCount (ts : List Token) : Nat :=
  (ts.filter (fun t => t.type = .pageBreak)).length


/-- The page-number facts of a token list relative to a base page: a
    page-break token carries the successor of the base plus the number of
    earlier page breaks, and a scene-heading or flashback token carries the
    base plus the number of earlier page breaks. -/
def PagePropAt (base : Nat) (ts : List Token) : Prop :=
  ∀ i (h : i < ts.length),
    ((ts.get ⟨i, h⟩).type = .pageBreak →
      (ts.get ⟨i, h⟩).pageNum = some (.num (base + 1 + pbCount (ts.take i)))) ∧
    (((ts.get ⟨i, h⟩).type = .sceneHeading ∨ (ts.get ⟨i, h⟩).type = .flashback) →
      (ts.get ⟨i, h⟩).pageNum = some (.num (base + pbCount (ts.take i))))

/-- The parser loop invariant behind claim C10: the running page number is
    one more than the number of page-break tokens emitted so far, and every
    emitted token carries the page facts of PagePropAt. -/
def ParserInv (st : PSt) : Prop :=
  st.pageNum = 1 + pbCount st.tokens ∧ PagePropAt 1 st.tokens

def hParaStep (st : HSt) (cls : List String) (sn pn : Option String)
    (V : Option String) (text : Chars) : HSt :=
  let st :=
    match st.blockType with
    | some bt => if cls.contains bt then st else hFlush st
    | none => st
  if cls.contains "action" then
    { st with
      blockType := some "action",
      blockVfx := st.blockVfx <|> V,
      blockText := st.blockText ++ [text] }
  else if cls.contains "dialogue" then
    { st with
      blockType := some "dialogue",
      blockVfx := st.blockVfx <|> V,
      blockText := st.blockText ++ [text] }
  else if cls.contains "character" then
    { st with tokens := st.tokens ++
        [{ type := .character, text := some (String.mk text),
           character := some (String.mk text), vfx := V }] }
  else if cls.contains "parenthetical" then
    { st with tokens := st.tokens ++
        [{ type := .parenthetical, text := some (String.mk text), vfx := V }] }
  else if cls.contains "scene-heading" then
    { st with tokens := st.tokens ++
        [{ type := .sceneHeading, text := some (String.mk text),
           sceneNum := some (.str (sn.getD "")), vfx := V }] }
  else if cls.contains "page-break" then
    { st with tokens := st.tokens ++
        [{ type := .pageBreak, pageNum := some (.str (pn.getD "")) }] }
  else if cls.contains "transition" then
    { st with tokens := st.tokens ++
        [{ type := .transition, text := some (String.mk text), vfx := V }] }
  else if cls.contains "flashback" then
    { st with tokens := st.tokens ++
        [{ type := .flashback, text := some (String.mk text), vfx := V }] }
  else if cls.contains "centered" then
    { st with tokens := st.tokens ++
        [{ type := .centered, text := some (String.mk text), vfx := V }] }
  else st

/-- A canonical token list exercising every round-tripping token type. -/
def c1CanonList : List Token :=
  [{ type := .sceneHeading, text := some "INT. HOUSE", sceneNum := some (.str "5A"),
     vfx := some " easy" },
   { type := .action, text := some "He runs.\nShe follows.", vfx := some "12 hard" },
   { type := .character, text := some "BOB", character := some "BOB" },
   { type := .dialogue, text := some "Hello there.", vfx := none },
   { type := .parenthetical, text := some "(whispering)" },
   { type := .transition, text := some "CUT TO:", vfx := some " mid" },
   { type := .flashback, text := some "FLASHBACK:", vfx := some "3 epic" },
   { type := .centered, text := some "THE END" },
   { type := .pageBreak, pageNum := some (.str "2") }]

end BD

open BD

/-!
Claim theorems.
-/

def c2Input : String :=
  "INT. HOUSE - DAY\n\nJOHN\nHello there.\n\n===                              2"

/-- The token sequence and registry that claim C2 says the parser returns on
    the six-line scenario input. -/
def c2ClaimedTokens : List Token :=
  [{ type := .sceneHeading, text := some "HOUSE - DAY",
     sceneNum := some (.str "1"), pageNum := some (.num 1) },
   { type := .dialogueBegin },
   { type := .character, text := some "JOHN", character := some "JOHN",
     dual := some false },
   { type := .dialogue, text := some "Hello there.\n" },
   { type := .dialogueEnd },
   { type := .pageBreak, pageNum := some (.num 2) }]

def c2ClaimedEntities : Entities :=
  [("JOHN", { type := "char", name := "", count := 1 })]

def c3ParserInput1 : String := "Look [[vfx easy]]\nBoom [[vfx 3 hard]]\n"

def c3ParserInput2 : String := "Look [[vfx 3 easy]]\nBoom [[vfx mid]]\n"

def c3Paras1 : List Para :=
  [{ classes := ["dialogue", "vfx", "easy"], inlines := [.txt "A".data] },
   { classes := ["dialogue", "vfx", "hard"], shotNumber := some "3",
     inlines := [.txt "B".data] },
   blankPara]

def c3Paras2 : List Para :=
  [{ classes := ["dialogue", "vfx", "easy"], shotNumber := some "3",
     inlines := [.txt "A".data] },
   { classes := ["dialogue", "vfx", "mid"], inlines := [.txt "B".data] },
   blankPara]

def c6Doc : List Token :=
  [{ type := .sceneHeading, text := some "ALPHA", sceneNum := some (.str "5"),
     pageNum := some (.num 1) },
   { type := .dialogue, text := some "Hello\n" },
   { type := .sceneHeading, text := some "BETA", sceneNum := some (.str "5"),
     pageNum := some (.num 1) },
   { type := .action, text := some "Boom\n" }]

def c7Src : String := "          JOHN\n          Hi\nBob"

def c9DlgTok : Token := { type := .dialogue, text := some "A\nB\n" }

def c9PbTok : Token := { type := .pageBreak, pageNum := some (.num 2) }

def c9ShTok : Token := { type := .sceneHeading, text := some "X", sceneNum := some (.str "9") }

def c9St : LPSt := { pageCount := 3, sceneCount := 5, sceneNum := some "7" }

theorem objGet_objSet_self [DecidableEq K] (m : List (K × Nat)) (k : K) (v : Nat) :
    objGet (objSet m k v) k = some v := by
  unfold objGet objSet
  split
  · rename_i h
    induction m with
    | nil => simp at h
    | cons p m ih =>
      by_cases hp : p.1 = k
      · simp [List.find?, hp]
      · simp only [List.map_cons, if_neg hp]
        have h2 : (List.find? (fun p => decide (p.1 = k)) m).isSome := by
          simp only [List.find?_cons] at h
          split at h
          · rename_i hd
            simp only [decide_eq_true_eq] at hd
            exact absurd hd hp
          · exact h
        have := ih h2
        simp only [List.find?_cons]
        split
        · rename_i hd
          simp only [decide_eq_true_eq] at hd
          exact absurd hd hp
        · exact this
  · rename_i h
    rw [List.find?_append]
    have hnone : List.find? (fun p => decide (p.1 = k)) m = none := by
      cases hf : List.find? (fun p => decide (p.1 = k)) m with
      | none => rfl
      | some p => simp [hf] at h
    simp [hnone, List.find?]


/-- C2, counterexample: on the scenario input the parser does not return the
    claimed token sequence and registry.  The unindented JOHN line fails the
    indentation-jump requirement of the character branch, so no dialogue is
    opened and no entity is registered, and the scene-heading text keeps the
    INT. prefix because group 2 of the scene-heading pattern includes it. -/
theorem c2_end_to_end_counterexample :
    parseScriptSyncStr c2Input ≠ (c2ClaimedTokens, c2ClaimedEntities) := by
  decide

/-- C2, amended: on the scenario input the parser returns a scene heading
    whose text keeps the INT. prefix, a single action block containing the
    JOHN and Hello lines, and the page break; the registry stays empty. -/
theorem c2_end_to_end :
    parseScriptSyncStr c2Input =
      ([{ type := .sceneHeading, text := some "INT. HOUSE - DAY",
          sceneNum := some (.str "1"), pageNum := some (.num 1) },
        { type := .action, text := some "JOHN\nHello there.\n" },
        { type := .pageBreak, pageNum := some (.num 2) }], []) := by
  decide

/-- C3, counterexample: in a two-line action block whose first line carries
    the bare level easy and whose second line carries 3 hard, the merged
    block annotation is easy, not the claimed 3 hard: the parser stores the
    annotation seen when the block opens and discards the annotations of
    appended lines. -/
theorem c3_vfx_merge_counterexample :
    ((parseScriptSyncStr c3ParserInput1).1.map Token.vfx) = [some "easy"] ∧
    ((parseScriptSyncStr c3ParserInput1).1.map Token.vfx) ≠ [some "3 hard"] := by
  decide

/-- C3, amended: the merge rule in the code is first annotation wins, in
    both directions.  The parser keeps the annotation present when the block
    begins (easy over a later 3 hard, and 3 easy over a later bare mid); the
    document parser keeps the first non-null paragraph annotation when
    coalescing consecutive blocks. -/
theorem c3_vfx_merge :
    (parseScriptSyncStr c3ParserInput1).1 =
      [{ type := .action, text := some "Look \nBoom \n", vfx := some "easy" }] ∧
    (parseScriptSyncStr c3ParserInput2).1 =
      [{ type := .action, text := some "Look \nBoom \n", vfx := some "3 easy" }] ∧
    (parasToTokens c3Paras1).1 =
      [{ type := .dialogue, text := some "A\nB", vfx := some " easy" }] ∧
    (parasToTokens c3Paras2).1 =
      [{ type := .dialogue, text := some "A\nB", vfx := some "3 easy" }] := by
  decide

/-- C4, counterexample: fractionalPageCount32 of zero lines over one hundred
    lines per page is not the claimed zero triple; the ratio is clamped up
    to one thirty-second before the denominator search. -/
theorem c4_fractional_boundary_counterexample :
    fractionalPageCount32 (fracOfInt 0) (fracOfInt 100) ≠
      (some "0", JsNum.fin (fracOfInt 0), JsNum.fin (fracOfInt 0)) := by
  decide

/-- C4, amended: there are no input guards in fractionalPageCount32.  Zero
    lines yield the clamped fraction one thirty-second (with its scaled
    line count); one hundred over one hundred has whole part one; a zero
    lines-per-page yields non-finite results fashioned from Infinity and
    NaN (the display string holding the undefined value when the whole part
    is falsy) instead of a degenerate zero result, though nothing throws. -/
theorem c4_fractional_boundary :
    fractionalPageCount32 (fracOfInt 0) (fracOfInt 100) =
      (some "1/32", JsNum.fin (fracMk 1 32), JsNum.fin (fracMk 25 8)) ∧
    fractionalPageCount32 (fracOfInt 100) (fracOfInt 100) =
      (some "1 0/2", JsNum.fin (fracOfInt 1), JsNum.fin (fracOfInt 100)) ∧
    (∀ n : Int, 0 < n →
      fractionalPageCount32 (fracOfInt n) (fracOfInt 0) =
        (some "Infinity undefined", JsNum.nan, JsNum.nan)) ∧
    fractionalPageCount32 (fracOfInt 0) (fracOfInt 0) =
      (none, JsNum.nan, JsNum.nan) := by
  refine ⟨by decide, by decide, ?_, by decide⟩
  intro n hn
  have hdiv : jsDivQ (fracOfInt n) (fracOfInt 0) = JsNum.inf := by
    simp [jsDivQ, fracIsZero, fracPos, fracOfInt, hn.ne', hn]
  simp only [fractionalPageCount32, hdiv]
  decide

/-- C4 witness: the zero lines-per-page clause applied at five lines. -/
theorem c4_fractional_boundary_witness :
    (0 : Int) < 5 ∧
    fractionalPageCount32 (fracOfInt 5) (fracOfInt 0) =
      (some "Infinity undefined", JsNum.nan, JsNum.nan) :=
  ⟨by norm_num, c4_fractional_boundary.2.2.1 5 (by norm_num)⟩

/-- C5: the parser never flushes an open block when the input ends.  On the
    two-line input of an indented JOHN cue followed by a dialogue line, the
    returned sequence is a dialogue-begin and a character token with no
    matching dialogue-end and no dialogue token: the open block is silently
    dropped, contradicting the matching invariant and the flush step of the
    specification. -/
theorem c5_eof_flush_missing :
    parseScriptSyncStr "    JOHN\nHi" =
      ([{ type := .dialogueBegin },
        { type := .character, text := some "JOHN", character := some "JOHN",
          dual := some false }],
       [("JOHN", { type := "char", name := "", count := 1 })]) ∧
    ((parseScriptSyncStr "    JOHN\nHi").1.filter
      (fun t => t.type = .dialogueEnd)).length = 0 ∧
    ((parseScriptSyncStr "    JOHN\nHi").1.filter
      (fun t => t.type = .dialogueBegin)).length = 1 := by
  decide

/-- C6, counterexample: on a document with two scene headings both numbered
    five, the second occurrence is keyed 56, not a letter-suffixed key like
    5A: the collision loop reads the match groups of the scene-number
    pattern off by one and appends the successor of the last digit. -/
theorem c6_scene_collision_counterexample :
    (linesPerPageFn c6Doc).2 = [("5", 4), ("56", 4)] ∧
    ¬ ("5A" ∈ (linesPerPageFn c6Doc).2.map Prod.fst) ∧
    isAlphaCh '6' = false := by
  decide

/-- C6, amended: the second scene numbered five is disambiguated to the key
    56 (digit successor, not a letter suffix); the first scene keeps its
    count, nothing is overwritten, and the per-scene totals sum to the same
    value as the per-page totals on this document. -/
theorem c6_scene_collision :
    linesPerPageFn c6Doc = ([(some 1, 8)], [("5", 4), ("56", 4)]) ∧
    ((linesPerPageFn c6Doc).2.map Prod.snd).sum =
      ((linesPerPageFn c6Doc).1.map Prod.snd).sum ∧
    objGet (linesPerPageFn c6Doc).2 "5" = some 4 := by
  decide

/-- C7: the raw serializer is not a left inverse of the parser, because the
    parser never flushes an open dialogue block at the end of input.  The
    parser produces a four-token sequence ending in a dialogue and its
    dialogue-end from the source text below; serializing that sequence and
    parsing it again returns only the first two tokens, losing the dialogue
    text entirely, which no whitespace normalization can repair. -/
theorem c7_text_roundtrip_bug :
    (parseScriptSyncStr c7Src).1 =
      [{ type := .dialogueBegin },
       { type := .character, text := some "JOHN", character := some "JOHN",
         dual := some false },
       { type := .dialogue, text := some "          Hi\n" },
       { type := .dialogueEnd }] ∧
    (parseScriptSyncStr
      (writeTokensStr (parseScriptSyncStr c7Src).1 (parseScriptSyncStr c7Src).2 true)).1 =
      [{ type := .dialogueBegin },
       { type := .character, text := some "JOHN", character := some "JOHN",
         dual := some false }] := by
  decide

/-- C8: the parser fails fast with a typed error on null, undefined, empty
    or non-string input, before any token or entity is produced, and never
    raises these errors on a non-empty string. -/
theorem c8_invalid_input :
    (∀ s : String, s ≠ "" → parseScriptJs (.strV s) = .ok (parseScriptSyncStr s)) ∧
    parseScriptJs .nullV = .error .emptyScript ∧
    parseScriptJs .undefV = .error .emptyScript ∧
    parseScriptJs (.strV "") = .error .emptyScript ∧
    (∀ v : JsIn, (∀ s, v ≠ .strV s) → ∃ e, parseScriptJs v = .error e) := by
  refine ⟨?_, rfl, rfl, rfl, ?_⟩
  · intro s hs
    simp [parseScriptJs, jsFalsy, hs]
  · intro v hv
    cases v with
    | strV s => exact absurd rfl (hv s)
    | nullV => exact ⟨_, rfl⟩
    | undefV => exact ⟨_, rfl⟩
    | objV => exact ⟨_, rfl⟩
    | numV n =>
      by_cases h : n = 0
      · subst h
        exact ⟨.emptyScript, rfl⟩
      · exact ⟨.nonStringInput, by simp [parseScriptJs, jsFalsy, h]⟩
    | boolV b =>
      cases b with
      | false => exact ⟨.emptyScript, rfl⟩
      | true => exact ⟨.nonStringInput, rfl⟩

/-- C8 witness: the guards applied to a one-letter script and to a number. -/
theorem c8_invalid_input_witness :
    parseScriptJs (.strV "A") = .ok (parseScriptSyncStr "A") ∧
    (∃ e, parseScriptJs (.numV 7) = .error e) :=
  ⟨c8_invalid_input.1 "A" (by decide),
   c8_invalid_input.2.2.2.2 (.numV 7) (fun s h => JsIn.noConfusion h)⟩

/-- C9: each token type contributes exactly its fixed line weight to both
    running counters (scene heading two lines, character and parenthetical
    one line plus embedded newlines, dialogue, action, flashback and
    transition two lines plus embedded newlines, everything else zero); a
    page-break token flushes the running page total into the per-page map
    and resets it, and a scene heading flushes the running scene total into
    the per-scene map and restarts it at its own weight of two. -/
theorem c9_line_weights :
    (∀ (st : LPSt) (t : Token), t.type ≠ .pageBreak → t.type ≠ .sceneHeading →
      (lpStep st t).pageCount = st.pageCount + specLineWeight t ∧
      (lpStep st t).sceneCount = st.sceneCount + specLineWeight t ∧
      (lpStep st t).pageCounts = st.pageCounts ∧
      (lpStep st t).sceneCounts = st.sceneCounts) ∧
    (∀ (st : LPSt) (t : Token), t.type = .pageBreak →
      (lpStep st t).pageCount = 0 ∧
      (lpStep st t).pageCounts = lpFlushPage st ∧
      (st.pageCount ≠ 0 → objGet (lpStep st t).pageCounts st.pageNum = some st.pageCount)) ∧
    (∀ (st : LPSt) (t : Token), t.type = .sceneHeading →
      specLineWeight t = 2 ∧
      (lpStep st t).sceneCount = 2 ∧
      (lpStep st t).pageCount = st.pageCount + 2 ∧
      (lpStep st t).sceneCounts = lpFlushScene st ∧
      (∀ sn, st.sceneNum = some sn → sn ≠ "" →
        objGet (lpStep st t).sceneCounts sn = some st.sceneCount)) := by
  refine ⟨?_, ?_, ?_⟩
  · intro st t h1 h2
    obtain ⟨ty, tx, vfx, sn, pn, ch, du⟩ := t
    cases ty <;>
      simp_all [lpStep, specLineWeight, Nat.add_assoc]
  · intro st t ht
    obtain ⟨ty, tx, vfx, sn, pn, ch, du⟩ := t
    cases ty <;> simp_all [lpStep]
    intro hpc
    simp [lpFlushPage, hpc, objGet_objSet_self]
  · intro st t ht
    obtain ⟨ty, tx, vfx, sn, pn, ch, du⟩ := t
    cases ty <;> simp_all [lpStep, specLineWeight]
    intro s hsn hs
    simp [lpFlushScene, hsn, hs, objGet_objSet_self]

/-- C9 witness: the weight and flush clauses applied at concrete states and
    tokens. -/
theorem c9_line_weights_witness :
    (lpStep c9St c9DlgTok).pageCount = c9St.pageCount + specLineWeight c9DlgTok ∧
    objGet (lpStep c9St c9PbTok).pageCounts c9St.pageNum = some c9St.pageCount ∧
    objGet (lpStep c9St c9ShTok).sceneCounts "7" = some c9St.sceneCount :=
  ⟨(c9_line_weights.1 c9St c9DlgTok (by decide) (by decide)).1,
   (c9_line_weights.2.1 c9St c9PbTok rfl).2.2 (by decide),
   (c9_line_weights.2.2 c9St c9ShTok rfl).2.2.2.2 "7" rfl (by decide)⟩

namespace BD

theorem pbCount_append (a b : List Token) :
    pbCount (a ++ b) = pbCount a + pbCount b := by
  simp [pbCount, List.filter_append]

theorem pagePropAt_nil (base : Nat) : PagePropAt base [] := by
  intro i h
  simp at h

theorem pagePropAt_append (a b : List Token) (base : Nat)
    (ha : PagePropAt base a) (hb : PagePropAt (base + pbCount a) b) :
    PagePropAt base (a ++ b) := by
  intro i h
  by_cases hi : i < a.length
  · have hget : (a ++ b).get ⟨i, h⟩ = a.get ⟨i, hi⟩ := by
      simp [List.getElem_append_left hi]
    have htake : (a ++ b).take i = a.take i := by
      rw [List.take_append_eq_append_take]
      have : i - a.length = 0 := by omega
      simp [this]
    rw [hget, htake]
    exact ha i hi
  · have hj : i - a.length < b.length := by
      have := h
      simp [List.length_append] at this
      omega
    have hget : (a ++ b).get ⟨i, h⟩ = b.get ⟨i - a.length, hj⟩ := by
      have hle : a.length ≤ i := by omega
      simp [List.getElem_append_right hle]
    have htake : (a ++ b).take i = a ++ b.take (i - a.length) := by
      rw [List.take_append_eq_append_take]
      have : a.take i = a := List.take_of_length_le (by omega)
      rw [this]
    rw [hget, htake]
    have := hb (i - a.length) hj
    rw [pbCount_append] at *
    constructor
    · intro hty
      have h1 := this.1 hty
      rw [h1]
      congr 2
      omega
    · intro hty
      have h2 := this.2 hty
      rw [h2]
      congr 2
      omega

/-- Tokens that are neither page breaks nor scene headings nor flashbacks
    satisfy the page facts vacuously. -/
theorem pagePropAt_flat (base : Nat) (ns : List Token)
    (h : ∀ t ∈ ns, t.type ≠ .pageBreak ∧ t.type ≠ .sceneHeading ∧ t.type ≠ .flashback) :
    PagePropAt base ns := by
  intro i hi
  have hm : ns.get ⟨i, hi⟩ ∈ ns := List.get_mem ns i hi
  obtain ⟨h1, h2, h3⟩ := h _ hm
  exact ⟨fun hty => absurd hty h1,
    fun hty => by
      rcases hty with hty | hty
      · exact absurd hty h2
      · exact absurd hty h3⟩

theorem pagePropAt_single_pb (base : Nat) (t : Token)
    (hty : t.type = .pageBreak) (hpn : t.pageNum = some (.num (base + 1))) :
    PagePropAt base [t] := by
  intro i hi
  have hi0 : i = 0 := Nat.lt_one_iff.mp (by simpa using hi)
  subst hi0
  show (t.type = _ → t.pageNum = _) ∧ ((t.type = _ ∨ t.type = _) → t.pageNum = _)
  constructor
  · intro _
    simpa [pbCount] using hpn
  · intro hor
    rcases hor with hor | hor <;> simp [hty] at hor

theorem pagePropAt_single_page (base : Nat) (t : Token)
    (hty : t.type = .sceneHeading ∨ t.type = .flashback)
    (hpn : t.pageNum = some (.num base)) :
    PagePropAt base [t] := by
  intro i hi
  have hi0 : i = 0 := Nat.lt_one_iff.mp (by simpa using hi)
  subst hi0
  show (t.type = _ → t.pageNum = _) ∧ ((t.type = _ ∨ t.type = _) → t.pageNum = _)
  constructor
  · intro hpb
    rcases hty with hty | hty <;> simp [hty] at hpb
  · intro _
    simpa [pbCount] using hpn

end BD

namespace BD

theorem parserInv_init : ParserInv {} := ⟨rfl, pagePropAt_nil 1⟩

theorem parserInv_extend (st st2 : PSt) (ns : List Token)
    (h : ParserInv st)
    (ht : st2.tokens = st.tokens ++ ns)
    (hp : st2.pageNum = st.pageNum + pbCount ns)
    (hns : PagePropAt st.pageNum ns) : ParserInv st2 := by
  constructor
  · rw [ht, hp, pbCount_append, h.1]
    omega
  · rw [ht]
    exact pagePropAt_append _ _ _ h.2 (h.1 ▸ hns)

theorem parserInv_same (st st2 : PSt)
    (h : ParserInv st)
    (ht : st2.tokens = st.tokens)
    (hp : st2.pageNum = st.pageNum) : ParserInv st2 := by
  constructor
  · rw [ht, hp, h.1]
  · rw [ht]
    exact h.2

theorem flushDialogue_inv (st : PSt) (h : ParserInv st) :
    ParserInv (flushDialogue st) := by
  have ht : (flushDialogue st).tokens = st.tokens ++
      ((if st.textBlock ≠ [] then
        [{ type := .dialogue,
           text := some (String.mk (interCh ['\n'] st.textBlock ++ ['\n'])),
           vfx := st.currentVfx }]
       else []) ++ [{ type := .dialogueEnd }]) := by
    simp [flushDialogue, List.append_assoc]
  apply parserInv_extend st _ _ h ht
  · show (flushDialogue st).pageNum = st.pageNum + pbCount _
    have hz : pbCount ((if st.textBlock ≠ [] then
        [{ type := .dialogue,
           text := some (String.mk (interCh ['\n'] st.textBlock ++ ['\n'])),
           vfx := st.currentVfx }]
       else []) ++ [{ type := .dialogueEnd }]) = 0 := by
      split <;> simp [pbCount]
    rw [hz]
    rfl
  · apply pagePropAt_flat
    intro t ht2
    rcases List.mem_append.mp ht2 with hm | hm
    · split at hm
      · simp at hm
        subst hm
        exact ⟨by simp, by simp, by simp⟩
      · simp at hm
    · simp at hm
      subst hm
      exact ⟨by simp, by simp, by simp⟩

theorem flushAction_inv (st : PSt) (h : ParserInv st) :
    ParserInv (flushAction st) := by
  apply parserInv_extend st _
    [{ type := .action,
       text := some (String.mk (interCh ['\n'] st.textBlock ++ ['\n'])),
       vfx := st.currentVfx }] h rfl
  · show (flushAction st).pageNum = st.pageNum + pbCount _
    simp [pbCount]
    rfl
  · apply pagePropAt_flat
    intro t ht
    simp at ht
    subst ht
    exact ⟨by simp, by simp, by simp⟩

theorem classify_inv (st : PSt) (info : LineInfo) (j : Bool) (h : ParserInv st) :
    ParserInv (classify st info j) := by
  unfold classify
  cases hm : sceneHeadingMatch info.lineClean with
  | some g =>
    obtain ⟨m1, m2, m3, m4⟩ := g
    apply parserInv_extend st _ _ h rfl
    · simp [pbCount]
    · apply pagePropAt_single_page _ _ (Or.inl rfl) rfl
  | none =>
    by_cases h1 : transitionTest info.lineClean
    · simp only [h1, if_true]
      apply parserInv_extend st _ _ h rfl
      · simp [pbCount]
      · apply pagePropAt_flat
        intro t ht
        simp at ht
        subst ht
        exact ⟨by simp, by simp, by simp⟩
    · simp only [h1, if_false]
      by_cases h2 : flashbackTest info.lineClean
      · simp only [h2, if_true]
        apply parserInv_extend st _ _ h rfl
        · simp [pbCount]
        · apply pagePropAt_single_page _ _ (Or.inr rfl) rfl
      · simp only [h2, if_false]
        by_cases h3 : pageBreakTest info.lineClean
        · simp only [h3, if_true]
          apply parserInv_extend st _ _ h rfl
          · simp [pbCount]
          · apply pagePropAt_single_pb _ _ rfl rfl
        · simp only [h3, if_false]
          by_cases h4 : pageNumberTest info.lineClean
          · simp only [h4, if_true]
            exact h
          · simp only [h4, if_false]
            by_cases h5 : blankTest info.lineClean
            · simp only [h5, if_true]
              exact h
            · simp only [h5, if_false]
              by_cases h6 : characterTest info.lineClean && j
              · simp only [h6, if_true]
                cases hc : characterMatch info.lineClean with
                | some g =>
                  obtain ⟨g1, g2, du⟩ := g
                  apply parserInv_extend st _ _ h rfl
                  · simp [pbCount]
                  · apply pagePropAt_flat
                    intro t ht
                    simp at ht
                    rcases ht with ht | ht <;> subst ht <;>
                      exact ⟨by simp, by simp, by simp⟩
                | none => exact h
              · simp only [h6, if_false]
                exact parserInv_same st _ h rfl rfl

theorem blockPhase_inv (st : PSt) (info : LineInfo) (r j : Bool) (h : ParserInv st) :
    ParserInv (blockPhase st info r j) := by
  unfold blockPhase
  split
  · split
    · exact classify_inv _ _ _ (flushDialogue_inv _ h)
    · exact parserInv_same _ _ h rfl rfl
  · dsimp only
    split
    · exact classify_inv _ _ _ (flushAction_inv _ h)
    · exact parserInv_same _ _ h rfl rfl
  · exact classify_inv _ _ _ h

theorem processLine_inv (st : PSt) (l : Chars) (h : ParserInv st) :
    ParserInv (processLine st l) := by
  unfold processLine
  exact blockPhase_inv _ _ _ _ (parserInv_same st _ h rfl rfl)

theorem parseLines_inv (ls : List Chars) (st : PSt) (h : ParserInv st) :
    ParserInv (parseLines st ls) := by
  induction ls generalizing st with
  | nil => exact h
  | cons l ls ih => exact ih _ (processLine_inv st l h)

end BD

namespace BD

theorem digit_ne (c x : Char) (h : isDigitCh c = true) (hx : isDigitCh x = false) :
    c ≠ x := by
  intro he
  subst he
  rw [h] at hx
  exact Bool.noConfusion hx

theorem digit_not_ws (c : Char) (h : isDigitCh c = true) : isWsChar c = false := by
  by_contra hw
  simp only [Bool.not_eq_false] at hw
  simp only [isWsChar, Bool.or_eq_true, decide_eq_true_eq] at hw
  rcases hw with ((((h1 | h1) | h1) | h1) | h1) | h1 <;> subst h1 <;> simp [isDigitCh] at h

theorem vfxMatchAt_no_bracket (c : Char) (t : Chars) (hc : c ≠ '[') :
    vfxMatchAt (c :: t) = none := by
  unfold vfxMatchAt
  split
  · rename_i heq
    injection heq with h1 h2
    exact absurd h1 hc
  · rfl

theorem vfxAnnotStrip_no_bracket (l : Chars) (h : ∀ c ∈ l, c ≠ '[') :
    vfxAnnotStrip l = (none, l) := by
  induction l with
  | nil => rfl
  | cons c t ih =>
    have hm := vfxMatchAt_no_bracket c t (h c (List.mem_cons_self c t))
    have ht := ih (fun x hx => h x (List.mem_cons_of_mem c hx))
    unfold vfxAnnotStrip
    rw [hm, ht]

theorem annotMatchAt_no_star (c : Char) (t : Chars) (hc : c ≠ '*') :
    annotMatchAt (c :: t) = none := by
  unfold annotMatchAt
  split
  · rename_i heq
    injection heq with h1 h2
    exact absurd h1 hc
  · rfl

theorem annotScanF_no_star (fuel : Nat) (l : Chars) (h : ∀ c ∈ l, c ≠ '*') :
    annotScanF fuel l = ([], l) := by
  induction fuel generalizing l with
  | zero => rfl
  | succ fuel ih =>
    cases l with
    | nil => rfl
    | cons c t =>
      have hm := annotMatchAt_no_star c t (h c (List.mem_cons_self c t))
      have ht := ih t (fun x hx => h x (List.mem_cons_of_mem c hx))
      unfold annotScanF
      rw [hm, ht]

theorem entMatchAt_no_bracket (c : Char) (t : Chars) (hc : c ≠ '[') :
    entMatchAt (c :: t) = none := by
  unfold entMatchAt
  split
  · rename_i heq
    injection heq with h1 h2
    exact absurd h1 hc
  · rfl

theorem entAnnotScanF_no_bracket (fuel : Nat) (p2 p1 : Option Char) (l : Chars)
    (h : ∀ c ∈ l, c ≠ '[') :
    entAnnotScanF fuel p2 p1 l = ([], l) := by
  induction fuel generalizing p2 p1 l with
  | zero => rfl
  | succ fuel ih =>
    cases l with
    | nil => rfl
    | cons c t =>
      have hm := entMatchAt_no_bracket c t (h c (List.mem_cons_self c t))
      have ht := ih p1 (some c) t (fun x hx => h x (List.mem_cons_of_mem c hx))
      unfold entAnnotScanF
      rw [hm]
      simp only [ite_self, ht]

theorem trimStartCh_no_ws (l : Chars) (h : ∀ c ∈ l, isWsChar c = false) :
    trimStartCh l = l := by
  cases l with
  | nil => rfl
  | cons c t =>
    unfold trimStartCh
    rw [List.dropWhile_cons_of_neg]
    simp [h c (List.mem_cons_self c t)]

theorem trimEndCh_no_ws (l : Chars) (h : ∀ c ∈ l, isWsChar c = false) :
    trimEndCh l = l := by
  unfold trimEndCh
  have : l.reverse.dropWhile isWsChar = l.reverse := by
    cases hr : l.reverse with
    | nil => rfl
    | cons c t =>
      rw [List.dropWhile_cons_of_neg]
      have hc : c ∈ l := by
        rw [← List.mem_reverse, hr]
        exact List.mem_cons_self c t
      simp [h c hc]
  rw [this, List.reverse_reverse]

theorem trimCh_no_ws (l : Chars) (h : ∀ c ∈ l, isWsChar c = false) :
    trimCh l = l := by
  unfold trimCh
  rw [trimEndCh_no_ws l h, trimStartCh_no_ws l h]


theorem pageNumberTest_chars (l : Chars) (h : pageNumberTest l = true) :
    (∀ c ∈ l, isDigitCh c = true ∨ c = '.') ∧
    ∃ d t, l = d :: t ∧ isDigitCh d = true := by
  unfold pageNumberTest at h
  by_cases hl : l.getLast? = some '.'
  · simp only [hl, if_pos, Bool.and_eq_true, decide_eq_true_eq, List.all_eq_true] at h
    obtain ⟨hne, hall⟩ := h
    have hlne : l ≠ [] := by
      intro he
      subst he
      simp at hl
    have hsplit : l.dropLast ++ [l.getLast hlne] = l := List.dropLast_append_getLast hlne
    have hlast : l.getLast hlne = '.' := by
      rw [List.getLast?_eq_getLast l hlne] at hl
      exact Option.some.inj hl
    constructor
    · intro c hc
      rw [← hsplit] at hc
      rcases List.mem_append.mp hc with hm | hm
      · exact Or.inl (hall c hm)
      · simp at hm
        subst hm
        exact Or.inr hlast
    · cases hll : l with
      | nil => exact absurd hll hlne
      | cons d t =>
        refine ⟨d, t, rfl, ?_⟩
        cases ht : t with
        | nil =>
          subst hll
          subst ht
          simp at hne
        | cons t1 t2 =>
          apply hall
          subst hll
          subst ht
          simp [List.dropLast]
  · simp only [hl, if_neg, Bool.and_eq_true, decide_eq_true_eq, List.all_eq_true] at h
    obtain ⟨hne, hall⟩ := h
    refine ⟨fun c hc => Or.inl (hall c hc), ?_⟩
    cases hll : l with
    | nil => exact absurd hll hne
    | cons d t =>
      subst hll
      exact ⟨d, t, rfl, hall d (List.mem_cons_self d t)⟩

theorem pnumc_ne (c x : Char) (h : isDigitCh c = true ∨ c = '.')
    (hx1 : isDigitCh x = false) (hx2 : x ≠ '.') : c ≠ x := by
  rcases h with h | h
  · exact digit_ne c x h hx1
  · subst h
    exact fun he => hx2 he.symm

theorem pnumc_not_ws (c : Char) (h : isDigitCh c = true ∨ c = '.') :
    isWsChar c = false := by
  rcases h with h | h
  · exact digit_not_ws c h
  · subst h
    decide

theorem digit_not_upper (c : Char) (h : isDigitCh c = true) :
    isUpperCh c = false := by
  simp only [isDigitCh, Bool.and_eq_true, decide_eq_true_eq] at h
  by_contra hu
  simp only [Bool.not_eq_false, isUpperCh, Bool.and_eq_true, decide_eq_true_eq] at hu
  have : 'A' ≤ '9' := le_trans hu.1 h.2
  exact absurd this (by decide)

theorem digit_lower_self (c : Char) (h : isDigitCh c = true) : lowerCh c = c := by
  unfold lowerCh
  rw [digit_not_upper c h]
  simp

theorem pfx_false_head (a c : Char) (p t : Chars) (h : c ≠ a) :
    pfx (a :: p) (c :: t) = false := by
  simp only [pfx, List.isPrefixOf, Bool.and_eq_false_iff]
  left
  simp
  exact fun he => h he.symm

theorem hasInfix_space_false (p : Chars) (t : Chars) (h : ∀ c ∈ t, c ≠ ' ') :
    hasInfix (' ' :: p) t = false := by
  induction t with
  | nil => rfl
  | cons c r ih =>
    unfold hasInfix
    rw [pfx_false_head _ _ _ _ (h c (List.mem_cons_self c r))]
    simp only [Bool.false_or]
    exact ih (fun x hx => h x (List.mem_cons_of_mem c hx))

theorem transitionTest_pnum (d : Char) (t : Chars) (hd : isDigitCh d = true)
    (hAll : ∀ c ∈ d :: t, isDigitCh c = true ∨ c = '.') :
    transitionTest (d :: t) = false := by
  unfold transitionTest
  rw [pfx_false_head _ _ _ _ (digit_ne d 'F' hd (by decide))]
  rw [pfx_false_head _ _ _ _ (digit_ne d 'F' hd (by decide))]
  rw [pfx_false_head _ _ _ _ (digit_ne d 'C' hd (by decide))]
  have hinf : hasInfix (' ' :: "TO:".data) t = false := by
    apply hasInfix_space_false
    intro c hc
    exact pnumc_ne c ' ' (hAll c (List.mem_cons_of_mem d hc)) (by decide) (by decide)
  have hsp : (" TO:".data) = ' ' :: "TO:".data := rfl
  rw [hsp] at *
  simp only [hinf]
  have hne : ((d :: t).head? = some '<') = False := by
    simp
    exact digit_ne d '<' hd (by decide)
  simp [hne]
  intro he
  exact absurd he (digit_ne d '<' hd (by decide))

theorem flashbackTest_pnum (d : Char) (t : Chars) (hd : isDigitCh d = true) :
    flashbackTest (d :: t) = false := by
  unfold flashbackTest
  rw [pfx_false_head _ _ _ _ (digit_ne d 'F' hd (by decide))]
  rw [pfx_false_head _ _ _ _ (digit_ne d 'C' hd (by decide))]
  rw [pfx_false_head _ _ _ _ (digit_ne d 'H' hd (by decide))]
  simp

theorem pageBreakTest_pnum (d : Char) (t : Chars) (hd : isDigitCh d = true) :
    pageBreakTest (d :: t) = false := by
  unfold pageBreakTest
  have : (d :: t).takeWhile (· = '=') = [] := by
    rw [List.takeWhile_cons_of_neg]
    simp
    exact digit_ne d '=' hd (by decide)
  rw [this]
  simp

theorem snCandidates_mem (l : Chars) (p : Chars × Chars) (hp : p ∈ snCandidates l)
    (c : Char) (hc : c ∈ p.2) : c ∈ l := by
  simp only [snCandidates] at hp
  rcases List.mem_append.mp hp with hm | hm
  · by_cases hds : List.takeWhile isDigitCh l = []
    · rw [if_pos hds] at hm
      simp at hm
    · rw [if_neg hds] at hm
      rcases List.mem_append.mp hm with hm2 | hm2
      · obtain ⟨k, -, he⟩ := List.mem_map.mp hm2
        rw [← he] at hc
        simp only at hc
        exact List.mem_of_mem_drop (List.mem_of_mem_drop hc)
      · obtain ⟨hq, -⟩ := List.mem_filter.mp hm2
        obtain ⟨k, -, he⟩ := List.mem_map.mp hq
        rw [← he] at hc
        simp only at hc
        exact List.mem_of_mem_drop hc
  · by_cases hls : List.takeWhile isAlphaCh l = []
    · rw [if_pos hls] at hm
      simp at hm
    · rw [if_neg hls] at hm
      by_cases hds2 : List.takeWhile isDigitCh (List.drop (List.takeWhile isAlphaCh l).length l) = []
      · rw [if_pos hds2] at hm
        simp at hm
      · rw [if_neg hds2] at hm
        obtain ⟨k, -, he⟩ := List.mem_map.mp hm
        rw [← he] at hc
        simp only at hc
        exact List.mem_of_mem_drop (List.mem_of_mem_drop hc)

theorem shLeadTry_pnum (l : Chars) (hAll : ∀ c ∈ l, isDigitCh c = true ∨ c = '.') :
    shLeadTry l = [] := by
  unfold shLeadTry
  rw [List.eq_nil_iff_forall_not_mem]
  intro x hx
  rw [List.mem_flatMap] at hx
  obtain ⟨p, hp, hxp⟩ := hx
  obtain ⟨sn, r⟩ := p
  have hr : ∀ c ∈ r, isDigitCh c = true ∨ c = '.' := fun c hc =>
    hAll c (snCandidates_mem l (sn, r) hp c hc)
  simp only at hxp
  cases r with
  | nil => simp [List.filterMap] at hxp
  | cons c r2 =>
    have hws : isWsChar c = false := pnumc_not_ws c (hr c (List.mem_cons_self c r2))
    have hne : c ≠ '#' := pnumc_ne c '#' (hr c (List.mem_cons_self c r2))
      (by decide) (by decide)
    split at hxp
    · rename_i heq
      injection heq with h1 h2
      exact absurd h1 hne
    · rw [List.filterMap_cons] at hxp
      simp only at hxp
      rw [List.takeWhile_cons_of_neg (by simp [hws])] at hxp
      simp at hxp

theorem shLeadCandidates_pnum (d : Char) (t : Chars) (hd : isDigitCh d = true)
    (hAll : ∀ c ∈ d :: t, isDigitCh c = true ∨ c = '.') :
    shLeadCandidates (d :: t) = [(none, d :: t)] := by
  unfold shLeadCandidates
  split
  · rename_i heq
    injection heq with h1 h2
    exact absurd h1 (digit_ne d '#' hd (by decide))
  · rw [shLeadTry_pnum (d :: t) hAll]
    rfl

theorem pfxCI_digit_head_false (a : Char) (p : Chars) (d : Char) (t : Chars)
    (hd : isDigitCh d = true) (ha : isDigitCh a = false) (hla : lowerCh a = a) :
    pfxCI (a :: p) (d :: t) = false := by
  unfold pfxCI
  simp only [List.length_cons, List.take_succ_cons, toLowerCh, List.map_cons]
  rw [hla, digit_lower_self d hd]
  have hne : (a == d) = false := by
    simp only [beq_eq_false_iff_ne, ne_eq]
    exact fun he => absurd he.symm (digit_ne d a hd ha)
  simp [List.isPrefixOf, hne]

theorem shIntExtOpen_pnum (d : Char) (t : Chars) (hd : isDigitCh d = true) :
    shIntExtOpen (d :: t) = none := by
  have hstar : (d :: t).takeWhile (fun c => c = '*') = [] := by
    rw [List.takeWhile_cons_of_neg]
    simp only [decide_eq_true_eq]
    exact digit_ne d '*' hd (by decide)
  simp only [shIntExtOpen, hstar]
  simp only [List.length_nil, List.drop_zero, gt_iff_lt, Nat.not_lt_zero, if_false]
  norm_num
  have hund : (match d :: t with
      | '_' :: t2 => ((['_'] : Chars), t2)
      | x => (([] : Chars), d :: t)) = (([] : Chars), d :: t) := by
    split
    · rename_i heq
      injection heq with h1 h2
      exact absurd h1 (digit_ne d '_' hd (by decide))
    · rfl
  rw [hund]
  dsimp only
  rw [List.find?_cons_of_neg, List.find?_cons_of_neg,
      List.find?_cons_of_neg, List.find?_cons_of_neg]
  · rfl
  · simp only [Bool.not_eq_true]
    exact pfxCI_digit_head_false 'i' ['/', 'e'] d t hd (by decide) (by decide)
  · simp only [Bool.not_eq_true]
    exact pfxCI_digit_head_false 'e' ['s', 't'] d t hd (by decide) (by decide)
  · simp only [Bool.not_eq_true]
    exact pfxCI_digit_head_false 'e' ['x', 't'] d t hd (by decide) (by decide)
  · simp only [Bool.not_eq_true]
    exact pfxCI_digit_head_false 'i' ['n', 't'] d t hd (by decide) (by decide)

theorem findSome_singleton (f : Option Chars × Chars → Option
      (Option Chars × Option Chars × Option Chars × Option Chars))
    (a : Option Chars × Chars) :
    List.findSome? f [a] = f a := by
  cases h : f a <;> simp [List.findSome?, h]

theorem sceneHeadingMatch_pnum (d : Char) (t : Chars) (hd : isDigitCh d = true)
    (hAll : ∀ c ∈ d :: t, isDigitCh c = true ∨ c = '.') :
    sceneHeadingMatch (d :: t) = none := by
  simp only [sceneHeadingMatch]
  rw [shLeadCandidates_pnum d t hd hAll, findSome_singleton]
  simp only
  rw [shIntExtOpen_pnum d t hd]
  split
  · rename_i heq
    exact Option.noConfusion heq
  · split
    · rename_i heq
      injection heq with h1 h2
      exact absurd h1 (digit_ne d '.' hd (by decide))
    · rfl

theorem classify_pnum (st : PSt) (info : LineInfo) (j : Bool)
    (h : pageNumberTest info.lineClean = true) : classify st info j = st := by
  obtain ⟨hAll, d, t, hline, hd⟩ := pageNumberTest_chars info.lineClean h
  have hpn : pageNumberTest (d :: t) = true := hline ▸ h
  unfold classify
  rw [hline] at hAll ⊢
  rw [sceneHeadingMatch_pnum d t hd hAll, transitionTest_pnum d t hd hAll,
      flashbackTest_pnum d t hd, pageBreakTest_pnum d t hd]
  simp [hpn]

theorem scanLine_pnum (es : Entities) (d : Char) (t : Chars)
    (hAll : ∀ c ∈ d :: t, isDigitCh c = true ∨ c = '.') :
    scanLine es (d :: t) =
      ({ vfx := none, line := d :: t, lineClean := d :: t, isBlankL := false,
         indent := 0 }, es) := by
  have hnb : ∀ c ∈ d :: t, c ≠ '[' := fun c hc =>
    pnumc_ne c '[' (hAll c hc) (by decide) (by decide)
  have hns : ∀ c ∈ d :: t, c ≠ '*' := fun c hc =>
    pnumc_ne c '*' (hAll c hc) (by decide) (by decide)
  have hnw : ∀ c ∈ d :: t, isWsChar c = false := fun c hc =>
    pnumc_not_ws c (hAll c hc)
  have hann : annotScan (d :: t) = ([], d :: t) :=
    annotScanF_no_star ((d :: t).length + 1) (d :: t) hns
  have hent : entAnnotScan (d :: t) = ([], d :: t) :=
    entAnnotScanF_no_bracket ((d :: t).length + 1) none none (d :: t) hnb
  have htr : trimCh (d :: t) = d :: t := trimCh_no_ws (d :: t) hnw
  have htw : (d :: t).takeWhile isWsChar = [] := by
    rw [List.takeWhile_cons_of_neg]
    simp [hnw d (List.mem_cons_self d t)]
  unfold scanLine
  rw [vfxAnnotStrip_no_bracket (d :: t) hnb]
  dsimp only
  rw [hann]
  dsimp only [List.foldl]
  rw [htr, hent]
  dsimp only [List.foldl]
  rw [htw]
  simp [blankTest]

theorem processLine_pnum (st : PSt) (l : Chars) (hb : st.currentBlock = none)
    (h : pageNumberTest l = true) :
    processLine st l = { st with currentIndent := 0 } := by
  obtain ⟨hAll, d, t, hline, hd⟩ := pageNumberTest_chars l h
  subst hline
  unfold processLine
  rw [scanLine_pnum st.entities d t hAll]
  dsimp only
  unfold blockPhase
  dsimp only
  rw [hb]
  exact classify_pnum _ _ _ h

theorem pagePropAt_cons_tail (base : Nat) (t : Token) (ts : List Token)
    (h : PagePropAt base (t :: ts)) : PagePropAt (base + pbCount [t]) ts := by
  intro i hi
  have hi2 : i + 1 < (t :: ts).length := by simpa using Nat.succ_lt_succ hi
  have := h (i + 1) hi2
  have hget : (t :: ts).get ⟨i + 1, hi2⟩ = ts.get ⟨i, hi⟩ := rfl
  have htake : (t :: ts).take (i + 1) = t :: ts.take i := rfl
  rw [hget, htake] at this
  have hpb : pbCount (t :: ts.take i) = pbCount [t] + pbCount (ts.take i) := by
    have : t :: ts.take i = [t] ++ ts.take i := rfl
    rw [this, pbCount_append]
  rw [hpb] at this
  constructor
  · intro hty
    have h1 := this.1 hty
    rw [h1]
    congr 2
    omega
  · intro hty
    have h2 := this.2 hty
    rw [h2]
    congr 2
    omega

theorem pagePropAt_filter_pb (ts : List Token) (base : Nat) (h : PagePropAt base ts)
    (k : Nat) (hk : k < (ts.filter (fun t => t.type = .pageBreak)).length) :
    ((ts.filter (fun t => t.type = .pageBreak)).get ⟨k, hk⟩).pageNum =
      some (.num (base + 1 + k)) := by
  induction ts generalizing base k with
  | nil => simp at hk
  | cons t ts ih =>
    have htail := pagePropAt_cons_tail base t ts h
    by_cases hpb : t.type = .pageBreak
    · have hfil : (t :: ts).filter (fun t => t.type = .pageBreak) =
          t :: ts.filter (fun t => t.type = .pageBreak) := by
        simp [List.filter_cons, hpb]
      have hone : pbCount [t] = 1 := by
        simp [pbCount, List.filter_cons, hpb]
      cases k with
      | zero =>
        have h0 := h 0 (by simp)
        have hpn := h0.1 hpb
        simp only [List.take_zero, pbCount, List.filter_nil, List.length_nil,
          Nat.add_zero] at hpn
        have hget : ((t :: ts).filter (fun t => t.type = .pageBreak)).get
            ⟨0, hk⟩ = t := by
          simp [hfil]
        rw [hget]
        simpa using hpn
      | succ k =>
        have hk2 : k < (ts.filter (fun t => t.type = .pageBreak)).length := by
          rw [hfil] at hk
          simpa using hk
        have := ih (base + 1) (hone ▸ htail) k hk2
        have hget : ((t :: ts).filter (fun t => t.type = .pageBreak)).get
            ⟨k + 1, hk⟩ = (ts.filter (fun t => t.type = .pageBreak)).get
            ⟨k, hk2⟩ := by
          simp [hfil]
        rw [hget, this]
        congr 2
        omega
    · have hfil : (t :: ts).filter (fun t => t.type = .pageBreak) =
          ts.filter (fun t => t.type = .pageBreak) := by
        simp [List.filter_cons, hpb]
      have hzero : pbCount [t] = 0 := by
        simp [pbCount, List.filter_cons, hpb]
      have hk2 : k < (ts.filter (fun t => t.type = .pageBreak)).length := by
        rw [hfil] at hk
        exact hk
      have := ih base (by simpa [hzero] using htail) k hk2
      have hget : ((t :: ts).filter (fun t => t.type = .pageBreak)).get
          ⟨k, hk⟩ = (ts.filter (fun t => t.type = .pageBreak)).get
          ⟨k, hk2⟩ := by
        simp [hfil]
      rw [hget, this]

end BD

/-- C10: for every input string, the k-th page-break token emitted (here
    0-indexed, so the claim's k-th counting from 1 carries k+1) carries page
    number k+2; every scene-heading and flashback token carries page number
    1 plus the number of page-break tokens preceding it; and with no block
    open, a line accepted by the page-number pattern leaves the emitted
    tokens, entities and page counter unchanged (only the remembered
    indentation is updated), so a standalone page-number line emits no
    token. -/
theorem c10_page_numbering (s : String) :
    (∀ k (hk : k < ((parseScriptSyncStr s).1.filter
        (fun t => t.type = .pageBreak)).length),
      (((parseScriptSyncStr s).1.filter
        (fun t => t.type = .pageBreak)).get ⟨k, hk⟩).pageNum =
          some (.num (k + 2))) ∧
    (∀ i (hi : i < (parseScriptSyncStr s).1.length),
      (((parseScriptSyncStr s).1.get ⟨i, hi⟩).type = .sceneHeading ∨
        ((parseScriptSyncStr s).1.get ⟨i, hi⟩).type = .flashback) →
      ((parseScriptSyncStr s).1.get ⟨i, hi⟩).pageNum =
        some (.num (1 + pbCount ((parseScriptSyncStr s).1.take i)))) ∧
    (∀ (st : PSt) (l : Chars), st.currentBlock = none →
      pageNumberTest l = true →
      processLine st l = { st with currentIndent := 0 }) := by
  have hinv : ParserInv (parseLines {} ((splitCh '\n' s.data).map trimEndCh)) :=
    parseLines_inv _ _ parserInv_init
  refine ⟨?_, ?_, ?_⟩
  · intro k hk
    have h1 := pagePropAt_filter_pb (parseScriptSyncStr s).1 1 hinv.2 k hk
    rw [h1]
    congr 2
    omega
  · intro i hi hty
    exact (hinv.2 i hi).2 hty
  · intro st l hb h
    exact processLine_pnum st l hb h

/-- Concrete instance of C10 on a four-line script with two page breaks and
    two scene headings, plus a page-number line processed from the initial
    state. -/
theorem c10_page_numbering_witness :
    (((parseScriptSyncStr "===\nINT. A\n===\nEXT. B").1.filter
        (fun t => t.type = .pageBreak)).get ⟨1, by decide⟩).pageNum =
      some (.num 3) ∧
    ((parseScriptSyncStr "===\nINT. A\n===\nEXT. B").1.get
        ⟨1, by decide⟩).pageNum = some (.num 2) ∧
    processLine {} ['4', '2'] = { ({} : PSt) with currentIndent := 0 } := by
  refine ⟨?_, ?_, ?_⟩
  · have h1 := (c10_page_numbering "===\nINT. A\n===\nEXT. B").1 1 (by decide)
    rw [h1]
    decide
  · have h2 := (c10_page_numbering "===\nINT. A\n===\nEXT. B").2.1 1 (by decide)
      (Or.inl (by decide))
    rw [h2]
    decide
  · exact (c10_page_numbering "42").2.2 {} ['4', '2'] rfl (by decide)

namespace BD

theorem noteMatchAt_no_bracket (c : Char) (t : Chars) (hc : c ≠ '[') :
    noteMatchAt (c :: t) = none := by
  unfold noteMatchAt
  split
  · rename_i heq
    injection heq with h1 h2
    exact absurd h1 hc
  · rfl

theorem noteSplitF_plain (fuel : Nat) (l : Chars) (h : ∀ c ∈ l, c ≠ '[') :
    noteSplitF fuel l = if l = [] then [] else [.txt l] := by
  induction fuel generalizing l with
  | zero => rfl
  | succ fuel ih =>
    cases l with
    | nil => rfl
    | cons c t =>
      unfold noteSplitF
      rw [noteMatchAt_no_bracket c t (h c (List.mem_cons_self c t))]
      rw [ih t (fun x hx => h x (List.mem_cons_of_mem c hx))]
      cases t with
      | nil => rfl
      | cons d t2 => simp [consTxt]

theorem annotMarkF_plain (fuel : Nat) (l : Chars) (h : ∀ c ∈ l, c ≠ '*') :
    annotMarkF fuel l = if l = [] then [] else [.txt l] := by
  induction fuel generalizing l with
  | zero => rfl
  | succ fuel ih =>
    cases l with
    | nil => rfl
    | cons c t =>
      unfold annotMarkF
      rw [annotMatchAt_no_star c t (h c (List.mem_cons_self c t))]
      rw [ih t (fun x hx => h x (List.mem_cons_of_mem c hx))]
      cases t with
      | nil => rfl
      | cons d t2 => simp [consTxt]

theorem wrapMark_plain (s : Chars) (hne : s ≠ [])
    (hb : ∀ c ∈ s, c ≠ '[') :
    wrapMarkInl [] (noteSplitInl s) = [.txt s] := by
  have h1 : noteSplitInl s = [.txt s] := by
    unfold noteSplitInl
    rw [noteSplitF_plain _ _ hb, if_neg hne]
  rw [h1]
  rfl

theorem canonLine_facts (l : Chars) (h : canonLine l = true) :
    l ≠ [] ∧ trimCh l = l ∧
      ∀ c ∈ l, c ≠ '[' ∧ c ≠ '*' ∧ c ≠ '\n' ∧ c ≠ '<' ∧ c ≠ '>' ∧ c ≠ '&' := by
  simp only [canonLine, Bool.and_eq_true, decide_eq_true_eq, List.all_eq_true] at h
  obtain ⟨⟨h1, h2⟩, h3⟩ := h
  refine ⟨h1, h2, fun c hc => ?_⟩
  have := h3 c hc
  simp only [plainCh, Bool.and_eq_true, decide_eq_true_eq, and_assoc] at this
  exact this

theorem hFlush_none (st : HSt) (h : st.blockType = none) : hFlush st = st := by
  unfold hFlush
  rw [h]

theorem dropWhile_length_eq (f : Char → Bool) (l : Chars)
    (h : (l.dropWhile f).length = l.length) : l.dropWhile f = l := by
  cases l with
  | nil => rfl
  | cons c t =>
    by_cases hf : f c
    · exfalso
      rw [List.dropWhile_cons_of_pos hf] at h
      have hle := (List.dropWhile_sublist (l := t) f).length_le
      simp at h
      omega
    · rw [List.dropWhile_cons_of_neg hf]

theorem trim_parts (p : Chars) (h : trimCh p = p) :
    trimStartCh p = p ∧ trimEndCh p = p := by
  have hE : (trimEndCh p).length ≤ p.length := by
    unfold trimEndCh
    calc (p.reverse.dropWhile isWsChar).reverse.length
        = (p.reverse.dropWhile isWsChar).length := by simp
      _ ≤ p.reverse.length := (List.dropWhile_sublist _).length_le
      _ = p.length := by simp
  have hS : (trimStartCh (trimEndCh p)).length ≤ (trimEndCh p).length :=
    (List.dropWhile_sublist _).length_le
  have hlen : (trimEndCh p).length = p.length := by
    have hc := congrArg List.length h
    unfold trimCh at hc
    omega
  have hEeq : trimEndCh p = p := by
    unfold trimEndCh at hlen ⊢
    have h2 : (p.reverse.dropWhile isWsChar).length = p.reverse.length := by
      simp at hlen ⊢
      omega
    rw [dropWhile_length_eq _ _ h2, List.reverse_reverse]
  refine ⟨?_, hEeq⟩
  calc trimStartCh p = trimStartCh (trimEndCh p) := by rw [hEeq]
    _ = p := h

theorem trimInl_plain (p : Chars) (hne : p ≠ []) (ht : trimCh p = p) :
    trimInl [Inline.txt p] = [Inline.txt p] := by
  obtain ⟨hS, hE⟩ := trim_parts p ht
  simp [trimInl, trimInlEnd, trimInlStart, hE, hS, hne]

theorem lineNonBlank_txt (p : Chars) (h : trimCh p ≠ []) :
    lineNonBlank [Inline.txt p] = true := by
  simp [lineNonBlank, h]

theorem splitChAux_ne_nil (sep : Char) (l acc : Chars) : splitChAux sep l acc ≠ [] := by
  induction l generalizing acc with
  | nil => simp [splitChAux]
  | cons c t ih =>
    unfold splitChAux
    split
    · simp
    · exact ih _

theorem splitCh_ne_nil (sep : Char) (l : Chars) : splitCh sep l ≠ [] :=
  splitChAux_ne_nil sep l []

theorem interCh_splitChAux (sep : Char) (l acc : Chars) :
    interCh [sep] (splitChAux sep l acc) = acc.reverse ++ l := by
  induction l generalizing acc with
  | nil => simp [splitChAux, interCh]
  | cons c t ih =>
    unfold splitChAux
    by_cases hc : c = sep
    · rw [if_pos hc]
      have hne := splitChAux_ne_nil sep t ([] : Chars)
      cases hsp : splitChAux sep t ([] : Chars) with
      | nil => exact absurd hsp hne
      | cons x xs =>
        show acc.reverse ++ [sep] ++ interCh [sep] (x :: xs) = acc.reverse ++ c :: t
        have h2 := ih ([] : Chars)
        rw [hsp] at h2
        simp only [List.reverse_nil, List.nil_append] at h2
        rw [h2, hc]
        simp
    · rw [if_neg hc]
      rw [ih (c :: acc)]
      simp

theorem interCh_splitCh (sep : Char) (l : Chars) :
    interCh [sep] (splitCh sep l) = l := by
  have := interCh_splitChAux sep l []
  simpa [splitCh] using this

theorem consTxts_nil (q : Chars) :
    consTxts q [] = if q = [] then [] else [Inline.txt q] := by
  cases q <;> simp [consTxts]

theorem hPara_blank (st : HSt) : hPara st blankPara = hFlush st := by
  obtain ⟨tk, es, bt, btx, bv⟩ := st
  cases bt with
  | none =>
    unfold hPara
    simp [blankPara, hFlush, entAnnotScan, entAnnotScanF, hParaVfx]
  | some b =>
    unfold hPara
    simp [blankPara, entAnnotScan, entAnnotScanF, hParaVfx]

theorem splitInlLines_txt (s : Chars) :
    splitInlLines [Inline.txt s] =
      (splitCh '\n' s).map
        (fun p => if p = [] then ([] : List Inline) else [Inline.txt p]) := by
  have h0 : splitInlLines ([] : List Inline) = [[]] := rfl
  unfold splitInlLines
  rw [h0]
  dsimp only
  have hne : splitCh '\n' s ≠ [] := splitCh_ne_nil '\n' s
  have hlast : (splitCh '\n' s).getLast?.getD [] = (splitCh '\n' s).getLast hne := by
    rw [List.getLast?_eq_getLast _ hne]
    rfl
  rw [hlast, consTxts_nil]
  conv_rhs => rw [← List.dropLast_append_getLast hne]
  rw [List.map_append]
  simp

theorem takeWhile_digit_exact (ds : Chars) (hds : ∀ c ∈ ds, isDigitCh c = true)
    (c : Char) (hc : isDigitCh c = false) (r : Chars) :
    (ds ++ c :: r).takeWhile isDigitCh = ds := by
  induction ds with
  | nil => simp [List.takeWhile_cons, hc]
  | cons d ds ih =>
    rw [List.cons_append, List.takeWhile_cons_of_pos (hds d (List.mem_cons_self d ds))]
    rw [ih (fun x hx => hds x (List.mem_cons_of_mem d hx))]

theorem vfxReAt_shape (ds : Chars) (hds : ∀ c ∈ ds, isDigitCh c = true) (lv : String)
    (hlv1 : lv.data.dropWhile isWsChar = lv.data)
    (hlv2 : lv.data.takeWhile isDigitCh = [])
    (hfind : vfxLevels.find? (fun k => pfx k.data lv.data) = some lv) :
    vfxReAt (ds ++ ' ' :: lv.data) =
      some ((if ds = [] then none else some ds), lv.data) := by
  unfold vfxReAt
  dsimp only
  cases ds with
  | nil =>
    simp only [List.nil_append]
    rw [List.dropWhile_cons_of_pos (by decide : isWsChar ' ' = true)]
    rw [hlv1, hlv2]
    simp only [List.length_nil, List.drop_zero]
    rw [hlv1, hfind]
  | cons d ds2 =>
    have hd := hds d (List.mem_cons_self d ds2)
    simp only [List.cons_append]
    rw [List.dropWhile_cons_of_neg (by simp [digit_not_ws d hd])]
    have h2 : List.takeWhile isDigitCh (d :: (ds2 ++ ' ' :: lv.data)) = d :: ds2 := by
      have := takeWhile_digit_exact (d :: ds2) hds ' ' (by decide) lv.data
      simpa [List.cons_append] using this
    rw [h2]
    have h3 : List.drop (d :: ds2).length (d :: (ds2 ++ ' ' :: lv.data)) =
        ' ' :: lv.data := by
      have h4 := List.drop_left (d :: ds2) (' ' :: lv.data)
      rw [List.cons_append] at h4
      exact h4
    rw [h3]
    rw [List.dropWhile_cons_of_pos (by decide : isWsChar ' ' = true), hlv1, hfind]

theorem vfxReMatch_shape (ds : Chars) (hds : ∀ c ∈ ds, isDigitCh c = true) (lv : String)
    (hlv1 : lv.data.dropWhile isWsChar = lv.data)
    (hlv2 : lv.data.takeWhile isDigitCh = [])
    (hfind : vfxLevels.find? (fun k => pfx k.data lv.data) = some lv) :
    vfxReMatch (ds ++ ' ' :: lv.data) =
      some ((if ds = [] then none else some ds), lv.data) := by
  have hat := vfxReAt_shape ds hds lv hlv1 hlv2 hfind
  cases ds with
  | nil =>
    simp only [List.nil_append] at hat ⊢
    unfold vfxReMatch
    rw [hat]
  | cons d ds2 =>
    rw [List.cons_append] at hat ⊢
    unfold vfxReMatch
    rw [hat]

theorem vfxFilter (c1 lv : String) (hlv : lv ∈ vfxLevels)
    (hc1 : ∀ k ∈ vfxLevels, c1 ≠ k) :
    vfxLevels.filter (fun k => (c1 :: ["vfx", lv]).contains k) = [lv] := by
  have e1 : decide ("easy" = c1) = false :=
    decide_eq_false (fun he => hc1 "easy" (by decide) he.symm)
  have e2 : decide ("mid" = c1) = false :=
    decide_eq_false (fun he => hc1 "mid" (by decide) he.symm)
  have e3 : decide ("hard" = c1) = false :=
    decide_eq_false (fun he => hc1 "hard" (by decide) he.symm)
  have e4 : decide ("epic" = c1) = false :=
    decide_eq_false (fun he => hc1 "epic" (by decide) he.symm)
  fin_cases hlv <;>
    simp [vfxLevels, List.contains, List.filter, e1, e2, e3, e4]

theorem hParaVfx_eval (c1 lv : String) (sh : Option String) (hlv : lv ∈ vfxLevels)
    (hc1 : ∀ k ∈ vfxLevels, c1 ≠ k) :
    hParaVfx (c1 :: ["vfx", lv]) sh =
      some (String.mk ((sh.getD "").data ++ ' ' :: lv.data)) := by
  unfold hParaVfx
  have hcont : (c1 :: ["vfx", lv]).contains "vfx" = true := by
    simp [List.contains]
  rw [if_pos hcont, vfxFilter c1 lv hlv hc1]
  simp [interCh, List.append_assoc]

theorem hParaVfx_round (c1 : String) (hc1v : c1 ≠ "vfx")
    (hc1 : ∀ k ∈ vfxLevels, c1 ≠ k)
    (ov : Option String) (h : canonVfx ov = true) :
    hParaVfx (c1 :: (vfxParts ov).1) (vfxParts ov).2 = ov := by
  cases ov with
  | none =>
    show hParaVfx [c1] none = none
    unfold hParaVfx
    rw [if_neg]
    intro hcon
    have h2 : "vfx" = c1 := by simpa using hcon
    exact hc1v h2.symm
  | some v =>
    simp only [canonVfx, List.any_eq_true] at h
    obtain ⟨lv, hlv, hshape⟩ := h
    simp only [Bool.or_eq_true, Bool.and_eq_true, decide_eq_true_eq] at hshape
    have hsh : ∃ ds, (∀ c ∈ ds, isDigitCh c = true) ∧
        v.data = ds ++ ' ' :: lv.data := by
      rcases hshape with h1 | ⟨h1, h2⟩
      · exact ⟨[], by simp, by simpa using h1⟩
      · exact ⟨v.data.takeWhile isDigitCh,
          fun c hc => List.mem_takeWhile_imp hc, h2⟩
    obtain ⟨ds, hds, heq⟩ := hsh
    have hlv1 : lv.data.dropWhile isWsChar = lv.data := by fin_cases hlv <;> rfl
    have hlv2 : lv.data.takeWhile isDigitCh = [] := by fin_cases hlv <;> rfl
    have hfind : vfxLevels.find? (fun k => pfx k.data lv.data) = some lv := by
      fin_cases hlv <;> rfl
    have hm : vfxReMatch v.data = some ((if ds = [] then none else some ds), lv.data) := by
      rw [heq]
      exact vfxReMatch_shape ds hds lv hlv1 hlv2 hfind
    show hParaVfx (c1 :: (vfxParts (some v)).1) (vfxParts (some v)).2 = some v
    unfold vfxParts
    dsimp only
    rw [hm]
    dsimp only
    have hmk : String.mk lv.data = lv := rfl
    rw [hmk]
    by_cases hde : ds = []
    · rw [if_pos hde]
      rw [hParaVfx_eval c1 lv (Option.map String.mk none) hlv hc1]
      rw [hde] at heq
      rw [List.nil_append] at heq
      show some (String.mk (("" : String).data ++ ' ' :: lv.data)) = some v
      rw [show (("" : String).data ++ ' ' :: lv.data) = ' ' :: lv.data from rfl, ← heq]
    · rw [if_neg hde]
      rw [hParaVfx_eval c1 lv (Option.map String.mk (some ds)) hlv hc1]
      show some (String.mk (ds ++ ' ' :: lv.data)) = some v
      rw [← heq]

theorem hParaVfx_round_ns (c1 : String) (hc1v : c1 ≠ "vfx")
    (hc1 : ∀ k ∈ vfxLevels, c1 ≠ k)
    (ov : Option String) (h : canonVfxNS ov = true) :
    hParaVfx (c1 :: (vfxParts ov).1) none = ov := by
  cases ov with
  | none =>
    show hParaVfx [c1] none = none
    unfold hParaVfx
    rw [if_neg]
    intro hcon
    have h2 : "vfx" = c1 := by simpa using hcon
    exact hc1v h2.symm
  | some v =>
    simp only [canonVfxNS, List.any_eq_true, decide_eq_true_eq] at h
    obtain ⟨lv, hlv, heq⟩ := h
    have hlv1 : lv.data.dropWhile isWsChar = lv.data := by fin_cases hlv <;> rfl
    have hlv2 : lv.data.takeWhile isDigitCh = [] := by fin_cases hlv <;> rfl
    have hfind : vfxLevels.find? (fun k => pfx k.data lv.data) = some lv := by
      fin_cases hlv <;> rfl
    have hm : vfxReMatch v.data = some (none, lv.data) := by
      rw [heq]
      have := vfxReMatch_shape [] (by simp) lv hlv1 hlv2 hfind
      simpa using this
    show hParaVfx (c1 :: (vfxParts (some v)).1) none = some v
    unfold vfxParts
    dsimp only
    rw [hm]
    dsimp only
    have hmk : String.mk lv.data = lv := rfl
    rw [hmk]
    rw [hParaVfx_eval c1 lv none hlv hc1]
    simp only [Option.getD_none]
    show some (String.mk ([] ++ ' ' :: lv.data)) = some v
    rw [List.nil_append, ← heq]

theorem hPara_txt (st : HSt) (cls : List String) (sn pn sh : Option String)
    (s : Chars) (hne : s ≠ []) (htr : trimCh s = s) (hnb : ∀ c ∈ s, c ≠ '[') :
    hPara st { classes := cls, sceneNumber := sn, pageNumber := pn,
               shotNumber := sh, inlines := [Inline.txt s] } =
      hParaStep st cls sn pn (hParaVfx cls sh) s := by
  have hscan : entAnnotScan s = ([], s) :=
    entAnnotScanF_no_bracket (s.length + 1) none none s hnb
  unfold hPara
  simp only [List.flatMap_cons, List.flatMap_nil, List.filterMap_cons,
    List.filterMap_nil, List.foldl_cons, List.foldl_nil, List.append_nil]
  simp only [ne_eq, not_true_eq_false, if_false, List.append_nil]
  rw [htr, htr, hscan]
  dsimp only [List.foldl]
  rw [if_neg hne]
  rfl

theorem consContains_self (a : String) (l : List String) :
    (a :: l).contains a = true := by
  simp [List.contains]

theorem consContains_other (a x : String) (l : List String) (hx : x ≠ a) :
    (a :: l).contains x = l.contains x := by
  have d : (x == a) = false := beq_eq_false_iff_ne.mpr hx
  rw [List.contains_cons, d, Bool.false_or]

theorem vclContains (vcl : List String)
    (hvcl : vcl = [] ∨ ∃ lv, lv ∈ vfxLevels ∧ vcl = ["vfx", lv])
    (x : String) (hx1 : x ≠ "vfx") (hx2 : ∀ k ∈ vfxLevels, x ≠ k) :
    vcl.contains x = false := by
  rcases hvcl with h | ⟨lv, hlv, h⟩
  · subst h
    rfl
  · subst h
    have d1 : (x == "vfx") = false := beq_eq_false_iff_ne.mpr hx1
    have d2 : (x == lv) = false := beq_eq_false_iff_ne.mpr (hx2 lv hlv)
    rw [List.contains_cons, List.contains_cons, d1, d2]
    rfl

theorem clsContains_false (tn : String) (vcl : List String)
    (hvcl : vcl = [] ∨ ∃ lv, lv ∈ vfxLevels ∧ vcl = ["vfx", lv])
    (x : String) (hx : x ≠ tn) (hx1 : x ≠ "vfx") (hx2 : ∀ k ∈ vfxLevels, x ≠ k) :
    (tn :: vcl).contains x = false := by
  rw [consContains_other _ _ _ hx, vclContains vcl hvcl x hx1 hx2]

theorem hParaStep_character (st : HSt) (hbt : st.blockType = none)
    (vcl : List String)
    (hvcl : vcl = [] ∨ ∃ lv, lv ∈ vfxLevels ∧ vcl = ["vfx", lv])
    (sn pn V : Option String) (s : Chars) :
    hParaStep st ("character" :: vcl) sn pn V s =
      { st with tokens := st.tokens ++
          [{ type := .character, text := some (String.mk s),
             character := some (String.mk s), vfx := V }] } := by
  unfold hParaStep
  conv_lhs => rw [hbt]
  rw [clsContains_false _ vcl hvcl "action" (by decide) (by decide) (by decide)]
  rw [clsContains_false _ vcl hvcl "dialogue" (by decide) (by decide) (by decide)]
  rw [consContains_self]
  simp

theorem hParaStep_parenthetical (st : HSt) (hbt : st.blockType = none)
    (vcl : List String)
    (hvcl : vcl = [] ∨ ∃ lv, lv ∈ vfxLevels ∧ vcl = ["vfx", lv])
    (sn pn V : Option String) (s : Chars) :
    hParaStep st ("parenthetical" :: vcl) sn pn V s =
      { st with tokens := st.tokens ++
          [{ type := .parenthetical, text := some (String.mk s), vfx := V }] } := by
  unfold hParaStep
  conv_lhs => rw [hbt]
  rw [clsContains_false _ vcl hvcl "action" (by decide) (by decide) (by decide)]
  rw [clsContains_false _ vcl hvcl "dialogue" (by decide) (by decide) (by decide)]
  rw [clsContains_false _ vcl hvcl "character" (by decide) (by decide) (by decide)]
  rw [consContains_self]
  simp

theorem hParaStep_sceneHeading (st : HSt) (hbt : st.blockType = none)
    (vcl : List String)
    (hvcl : vcl = [] ∨ ∃ lv, lv ∈ vfxLevels ∧ vcl = ["vfx", lv])
    (sn pn V : Option String) (s : Chars) :
    hParaStep st ("scene-heading" :: vcl) sn pn V s =
      { st with tokens := st.tokens ++
          [{ type := .sceneHeading, text := some (String.mk s),
             sceneNum := some (.str (sn.getD "")), vfx := V }] } := by
  unfold hParaStep
  conv_lhs => rw [hbt]
  rw [clsContains_false _ vcl hvcl "action" (by decide) (by decide) (by decide)]
  rw [clsContains_false _ vcl hvcl "dialogue" (by decide) (by decide) (by decide)]
  rw [clsContains_false _ vcl hvcl "character" (by decide) (by decide) (by decide)]
  rw [clsContains_false _ vcl hvcl "parenthetical" (by decide) (by decide) (by decide)]
  rw [consContains_self]
  simp

theorem hParaStep_pageBreak (st : HSt) (hbt : st.blockType = none)
    (vcl : List String)
    (hvcl : vcl = [] ∨ ∃ lv, lv ∈ vfxLevels ∧ vcl = ["vfx", lv])
    (sn pn V : Option String) (s : Chars) :
    hParaStep st ("page-break" :: vcl) sn pn V s =
      { st with tokens := st.tokens ++
          [{ type := .pageBreak, pageNum := some (.str (pn.getD "")) }] } := by
  unfold hParaStep
  conv_lhs => rw [hbt]
  rw [clsContains_false _ vcl hvcl "action" (by decide) (by decide) (by decide)]
  rw [clsContains_false _ vcl hvcl "dialogue" (by decide) (by decide) (by decide)]
  rw [clsContains_false _ vcl hvcl "character" (by decide) (by decide) (by decide)]
  rw [clsContains_false _ vcl hvcl "parenthetical" (by decide) (by decide) (by decide)]
  rw [clsContains_false _ vcl hvcl "scene-heading" (by decide) (by decide) (by decide)]
  rw [consContains_self]
  simp

theorem hParaStep_transition (st : HSt) (hbt : st.blockType = none)
    (vcl : List String)
    (hvcl : vcl = [] ∨ ∃ lv, lv ∈ vfxLevels ∧ vcl = ["vfx", lv])
    (sn pn V : Option String) (s : Chars) :
    hParaStep st ("transition" :: vcl) sn pn V s =
      { st with tokens := st.tokens ++
          [{ type := .transition, text := some (String.mk s), vfx := V }] } := by
  unfold hParaStep
  conv_lhs => rw [hbt]
  rw [clsContains_false _ vcl hvcl "action" (by decide) (by decide) (by decide)]
  rw [clsContains_false _ vcl hvcl "dialogue" (by decide) (by decide) (by decide)]
  rw [clsContains_false _ vcl hvcl "character" (by decide) (by decide) (by decide)]
  rw [clsContains_false _ vcl hvcl "parenthetical" (by decide) (by decide) (by decide)]
  rw [clsContains_false _ vcl hvcl "scene-heading" (by decide) (by decide) (by decide)]
  rw [clsContains_false _ vcl hvcl "page-break" (by decide) (by decide) (by decide)]
  rw [consContains_self]
  simp

theorem hParaStep_flashback (st : HSt) (hbt : st.blockType = none)
    (vcl : List String)
    (hvcl : vcl = [] ∨ ∃ lv, lv ∈ vfxLevels ∧ vcl = ["vfx", lv])
    (sn pn V : Option String) (s : Chars) :
    hParaStep st ("flashback" :: vcl) sn pn V s =
      { st with tokens := st.tokens ++
          [{ type := .flashback, text := some (String.mk s), vfx := V }] } := by
  unfold hParaStep
  conv_lhs => rw [hbt]
  rw [clsContains_false _ vcl hvcl "action" (by decide) (by decide) (by decide)]
  rw [clsContains_false _ vcl hvcl "dialogue" (by decide) (by decide) (by decide)]
  rw [clsContains_false _ vcl hvcl "character" (by decide) (by decide) (by decide)]
  rw [clsContains_false _ vcl hvcl "parenthetical" (by decide) (by decide) (by decide)]
  rw [clsContains_false _ vcl hvcl "scene-heading" (by decide) (by decide) (by decide)]
  rw [clsContains_false _ vcl hvcl "page-break" (by decide) (by decide) (by decide)]
  rw [clsContains_false _ vcl hvcl "transition" (by decide) (by decide) (by decide)]
  rw [consContains_self]
  simp

theorem hParaStep_centered (st : HSt) (hbt : st.blockType = none)
    (vcl : List String)
    (hvcl : vcl = [] ∨ ∃ lv, lv ∈ vfxLevels ∧ vcl = ["vfx", lv])
    (sn pn V : Option String) (s : Chars) :
    hParaStep st ("centered" :: vcl) sn pn V s =
      { st with tokens := st.tokens ++
          [{ type := .centered, text := some (String.mk s), vfx := V }] } := by
  unfold hParaStep
  conv_lhs => rw [hbt]
  rw [clsContains_false _ vcl hvcl "action" (by decide) (by decide) (by decide)]
  rw [clsContains_false _ vcl hvcl "dialogue" (by decide) (by decide) (by decide)]
  rw [clsContains_false _ vcl hvcl "character" (by decide) (by decide) (by decide)]
  rw [clsContains_false _ vcl hvcl "parenthetical" (by decide) (by decide) (by decide)]
  rw [clsContains_false _ vcl hvcl "scene-heading" (by decide) (by decide) (by decide)]
  rw [clsContains_false _ vcl hvcl "page-break" (by decide) (by decide) (by decide)]
  rw [clsContains_false _ vcl hvcl "transition" (by decide) (by decide) (by decide)]
  rw [clsContains_false _ vcl hvcl "flashback" (by decide) (by decide) (by decide)]
  rw [consContains_self]
  simp

theorem hParaStep_action_open (st : HSt) (hbt : st.blockType = none)
    (vcl : List String) (sn pn V : Option String) (s : Chars) :
    hParaStep st ("action" :: vcl) sn pn V s =
      { st with
        blockType := some "action",
        blockVfx := st.blockVfx <|> V,
        blockText := st.blockText ++ [s] } := by
  unfold hParaStep
  conv_lhs => rw [hbt]
  rw [consContains_self]
  simp

theorem hParaStep_dialogue_open (st : HSt) (hbt : st.blockType = none)
    (vcl : List String)
    (hvcl : vcl = [] ∨ ∃ lv, lv ∈ vfxLevels ∧ vcl = ["vfx", lv])
    (sn pn V : Option String) (s : Chars) :
    hParaStep st ("dialogue" :: vcl) sn pn V s =
      { st with
        blockType := some "dialogue",
        blockVfx := st.blockVfx <|> V,
        blockText := st.blockText ++ [s] } := by
  unfold hParaStep
  conv_lhs => rw [hbt]
  rw [clsContains_false _ vcl hvcl "action" (by decide) (by decide) (by decide)]
  rw [consContains_self]
  simp

theorem hParaStep_action_cont (st : HSt) (hbt : st.blockType = some "action")
    (vcl : List String) (sn pn V : Option String) (s : Chars) :
    hParaStep st ("action" :: vcl) sn pn V s =
      { st with
        blockType := some "action",
        blockVfx := st.blockVfx <|> V,
        blockText := st.blockText ++ [s] } := by
  unfold hParaStep
  conv_lhs => rw [hbt]
  rw [consContains_self]
  simp

theorem hParaStep_dialogue_cont (st : HSt) (hbt : st.blockType = some "dialogue")
    (vcl : List String)
    (hvcl : vcl = [] ∨ ∃ lv, lv ∈ vfxLevels ∧ vcl = ["vfx", lv])
    (sn pn V : Option String) (s : Chars) :
    hParaStep st ("dialogue" :: vcl) sn pn V s =
      { st with
        blockType := some "dialogue",
        blockVfx := st.blockVfx <|> V,
        blockText := st.blockText ++ [s] } := by
  unfold hParaStep
  conv_lhs => rw [hbt]
  rw [clsContains_false _ vcl hvcl "action" (by decide) (by decide) (by decide)]
  rw [consContains_self]
  simp

theorem canonVfxNS_imp (ov : Option String) (h : canonVfxNS ov = true) :
    canonVfx ov = true := by
  cases ov with
  | none => rfl
  | some v =>
    simp only [canonVfxNS, List.any_eq_true, decide_eq_true_eq] at h
    obtain ⟨lv, hlv, heq⟩ := h
    simp only [canonVfx, List.any_eq_true]
    exact ⟨lv, hlv, by simp [heq]⟩

theorem vfxParts_shape (ov : Option String) (h : canonVfx ov = true) :
    (vfxParts ov).1 = [] ∨ ∃ lv, lv ∈ vfxLevels ∧ (vfxParts ov).1 = ["vfx", lv] := by
  cases ov with
  | none => exact Or.inl rfl
  | some v =>
    simp only [canonVfx, List.any_eq_true] at h
    obtain ⟨lv, hlv, hshape⟩ := h
    simp only [Bool.or_eq_true, Bool.and_eq_true, decide_eq_true_eq] at hshape
    have hsh : ∃ ds, (∀ c ∈ ds, isDigitCh c = true) ∧
        v.data = ds ++ ' ' :: lv.data := by
      rcases hshape with h1 | ⟨h1, h2⟩
      · exact ⟨[], by simp, by simpa using h1⟩
      · exact ⟨v.data.takeWhile isDigitCh,
          fun c hc => List.mem_takeWhile_imp hc, h2⟩
    obtain ⟨ds, hds, heq⟩ := hsh
    have hlv1 : lv.data.dropWhile isWsChar = lv.data := by fin_cases hlv <;> rfl
    have hlv2 : lv.data.takeWhile isDigitCh = [] := by fin_cases hlv <;> rfl
    have hfind : vfxLevels.find? (fun k => pfx k.data lv.data) = some lv := by
      fin_cases hlv <;> rfl
    have hm : vfxReMatch v.data =
        some ((if ds = [] then none else some ds), lv.data) := by
      rw [heq]
      exact vfxReMatch_shape ds hds lv hlv1 hlv2 hfind
    right
    refine ⟨lv, hlv, ?_⟩
    unfold vfxParts
    dsimp only
    rw [hm]

theorem canonText1_facts (t : Token) (h : canonText1 t = true) :
    ∃ s : String, t.text = some s ∧ s.data ≠ [] ∧ trimCh s.data = s.data ∧
      ∀ c ∈ s.data, c ≠ '[' ∧ c ≠ '*' ∧ c ≠ '\n' ∧ c ≠ '<' ∧ c ≠ '>' ∧ c ≠ '&' := by
  unfold canonText1 at h
  cases ht : t.text with
  | none => rw [ht] at h; exact absurd h (by simp)
  | some s =>
    rw [ht] at h
    obtain ⟨h1, h2, h3⟩ := canonLine_facts s.data h
    exact ⟨s, rfl, h1, h2, h3⟩

theorem mem_interCh (sep : Char) (L : List Chars) (c : Char)
    (hc : c ∈ interCh [sep] L) : c = sep ∨ ∃ p ∈ L, c ∈ p := by
  induction L with
  | nil => simp [interCh] at hc
  | cons x xs ih =>
    cases xs with
    | nil =>
      simp only [interCh] at hc
      exact Or.inr ⟨x, by simp, hc⟩
    | cons y ys =>
      rw [show interCh [sep] (x :: y :: ys) =
        x ++ [sep] ++ interCh [sep] (y :: ys) from rfl] at hc
      rcases List.mem_append.mp hc with hm | hm
      · rcases List.mem_append.mp hm with hm2 | hm2
        · exact Or.inr ⟨x, by simp, hm2⟩
        · simp at hm2
          exact Or.inl hm2
      · rcases ih hm with h | ⟨p, hp, hcp⟩
        · exact Or.inl h
        · exact Or.inr ⟨p, by simp [hp], hcp⟩

theorem optOrElse_self (o : Option String) : (o <|> o) = o := by
  cases o <;> rfl

theorem foldl_blockCont (bt : String) (vcl : List String)
    (hvcl : vcl = [] ∨ ∃ lv, lv ∈ vfxLevels ∧ vcl = ["vfx", lv])
    (hbtAD : bt = "action" ∨ bt = "dialogue")
    (sh : Option String) (ps : List Chars)
    (hps : ∀ p ∈ ps, p ≠ [] ∧ trimCh p = p ∧ ∀ c ∈ p, c ≠ '[')
    (st : HSt) (hbt : st.blockType = some bt)
    (hbv : st.blockVfx = hParaVfx (bt :: vcl) sh) :
    ps.foldl (fun st p => hPara st
      { classes := bt :: vcl, shotNumber := sh, inlines := [Inline.txt p] }) st =
      { st with blockText := st.blockText ++ ps } := by
  induction ps generalizing st with
  | nil =>
    simp only [List.foldl_nil, List.append_nil]
  | cons p ps ih =>
    obtain ⟨hp1, hp2, hp3⟩ := hps p (List.mem_cons_self p ps)
    rw [List.foldl_cons]
    rw [hPara_txt st (bt :: vcl) none none sh p hp1 hp2 hp3]
    rcases hbtAD with hb | hb
    · subst hb
      rw [hParaStep_action_cont st hbt vcl none none (hParaVfx ("action" :: vcl) sh) p]
      rw [hbv, optOrElse_self]
      rw [ih (fun q hq => hps q (List.mem_cons_of_mem p hq)) _ rfl rfl]
      simp [List.append_assoc]
      exact hbt.symm
    · subst hb
      rw [hParaStep_dialogue_cont st hbt vcl hvcl none none
        (hParaVfx ("dialogue" :: vcl) sh) p]
      rw [hbv, optOrElse_self]
      rw [ih (fun q hq => hps q (List.mem_cons_of_mem p hq)) _ rfl rfl]
      simp [List.append_assoc]
      exact hbt.symm

theorem canonBlockText_facts (t : Token) (h : canonBlockText t = true) :
    ∃ s : String, t.text = some s ∧
      ∀ p ∈ splitCh '\n' s.data, canonLine p = true := by
  unfold canonBlockText at h
  cases ht : t.text with
  | none =>
    rw [ht] at h
    exact absurd h (by simp)
  | some s =>
    rw [ht] at h
    rw [List.all_eq_true] at h
    exact ⟨s, rfl, h⟩

theorem blockText_facts (s : String)
    (hall : ∀ p ∈ splitCh '\n' s.data, canonLine p = true) :
    s.data ≠ [] ∧ ∀ c ∈ s.data, c ≠ '[' ∧ c ≠ '*' := by
  constructor
  · intro he
    rw [he] at hall
    have h0 := hall [] (by rw [show splitCh '\n' [] = [[]] from rfl]; simp)
    simp [canonLine] at h0
  · intro c hc
    have hmem : c ∈ interCh ['\n'] (splitCh '\n' s.data) := by
      rw [interCh_splitCh]
      exact hc
    rcases mem_interCh _ _ _ hmem with hcn | ⟨p, hp, hcp⟩
    · subst hcn
      exact ⟨by decide, by decide⟩
    · obtain ⟨-, -, h3⟩ := canonLine_facts p (hall p hp)
      have h4 := h3 c hcp
      exact ⟨h4.1, h4.2.1⟩

theorem hPara_pageBreakPara (st : HSt) (hbt : st.blockType = none) (q : String) :
    hPara st { classes := ["page-break"], pageNumber := some q,
               inlines := [Inline.txt (List.replicate 55 '=' ++ [' ', ' '])] } =
      { st with tokens := st.tokens ++
          [{ type := .pageBreak, pageNum := some (.str q) }] } := by
  have ht : trimCh (List.replicate 55 '=' ++ [' ', ' ']) = List.replicate 55 '=' := by
    decide
  have ht2 : trimCh (List.replicate 55 '=') = List.replicate 55 '=' := by decide
  have hscan : entAnnotScan (List.replicate 55 '=') =
      ([], List.replicate 55 '=') := by decide
  unfold hPara
  simp only [List.flatMap_cons, List.flatMap_nil, List.filterMap_cons,
    List.filterMap_nil, List.foldl_cons, List.foldl_nil, List.append_nil]
  simp only [ne_eq, not_true_eq_false, if_false, List.append_nil]
  rw [ht, ht2, hscan]
  dsimp only [List.foldl]
  conv_lhs => rw [hbt]
  simp [hParaVfx]
  exact hbt.symm

theorem hPara_token (st : HSt) (t : Token) (hbt : st.blockType = none)
    (hbx : st.blockText = []) (hbv : st.blockVfx = none) (h : canonTok t = true) :
    (tokenParas [] t).foldl hPara st = { st with tokens := st.tokens ++ [t] } := by
  obtain ⟨stk, ses, sbt, sbx, sbv⟩ := st
  simp only at hbt hbx hbv
  subst hbt
  subst hbx
  subst hbv
  obtain ⟨ty, tx, vf, sn, pn, ch, du⟩ := t
  cases ty with
  | dialogueBegin => exact Bool.noConfusion h
  | dialogueEnd => exact Bool.noConfusion h
  | transition =>
    simp only [canonTok, Bool.and_eq_true, decide_eq_true_eq, and_assoc] at h
    obtain ⟨h1, h2, h3, h4, h5, h6⟩ := h
    subst h3
    subst h4
    subst h5
    subst h6
    obtain ⟨s, hs, hne, htr, hchars⟩ := canonText1_facts _ h1
    have hs2 : tx = some s := hs
    subst hs2
    have hinls : wrapMarkInl [] (noteSplitInl s.data) = [Inline.txt s.data] :=
      wrapMark_plain s.data hne (fun c hc => (hchars c hc).1)
    unfold tokenParas
    dsimp only [Option.getD]
    rw [hinls]
    simp only [List.foldl_cons, List.foldl_nil]
    rw [hPara_txt _ ("transition" :: (vfxParts vf).1) none none ((vfxParts vf).2)
      s.data hne htr (fun c hc => (hchars c hc).1)]
    rw [hParaStep_transition _ rfl ((vfxParts vf).1) (vfxParts_shape vf h2) none none
      (hParaVfx ("transition" :: (vfxParts vf).1) ((vfxParts vf).2)) s.data]
    rw [hPara_blank, hFlush_none _ rfl]
    rw [hParaVfx_round "transition" (by decide) (by decide) vf h2]
  | flashback =>
    simp only [canonTok, Bool.and_eq_true, decide_eq_true_eq, and_assoc] at h
    obtain ⟨h1, h2, h3, h4, h5, h6⟩ := h
    subst h3
    subst h4
    subst h5
    subst h6
    obtain ⟨s, hs, hne, htr, hchars⟩ := canonText1_facts _ h1
    have hs2 : tx = some s := hs
    subst hs2
    have hinls : wrapMarkInl [] (noteSplitInl s.data) = [Inline.txt s.data] :=
      wrapMark_plain s.data hne (fun c hc => (hchars c hc).1)
    unfold tokenParas
    dsimp only [Option.getD]
    rw [hinls]
    simp only [List.foldl_cons, List.foldl_nil]
    rw [hPara_txt _ ("flashback" :: (vfxParts vf).1) none none ((vfxParts vf).2)
      s.data hne htr (fun c hc => (hchars c hc).1)]
    rw [hParaStep_flashback _ rfl ((vfxParts vf).1) (vfxParts_shape vf h2) none none
      (hParaVfx ("flashback" :: (vfxParts vf).1) ((vfxParts vf).2)) s.data]
    rw [hParaVfx_round "flashback" (by decide) (by decide) vf h2]
  | centered =>
    simp only [canonTok, Bool.and_eq_true, decide_eq_true_eq, and_assoc] at h
    obtain ⟨h1, h2, h3, h4, h5, h6⟩ := h
    subst h3
    subst h4
    subst h5
    subst h6
    obtain ⟨s, hs, hne, htr, hchars⟩ := canonText1_facts _ h1
    have hs2 : tx = some s := hs
    subst hs2
    have hinls : wrapMarkInl [] (noteSplitInl s.data) = [Inline.txt s.data] :=
      wrapMark_plain s.data hne (fun c hc => (hchars c hc).1)
    unfold tokenParas
    dsimp only [Option.getD]
    rw [hinls]
    simp only [List.foldl_cons, List.foldl_nil]
    rw [hPara_txt _ ("centered" :: (vfxParts vf).1) none none ((vfxParts vf).2)
      s.data hne htr (fun c hc => (hchars c hc).1)]
    rw [hParaStep_centered _ rfl ((vfxParts vf).1) (vfxParts_shape vf h2) none none
      (hParaVfx ("centered" :: (vfxParts vf).1) ((vfxParts vf).2)) s.data]
    rw [hParaVfx_round "centered" (by decide) (by decide) vf h2]
  | character =>
    simp only [canonTok, Bool.and_eq_true, decide_eq_true_eq, and_assoc] at h
    obtain ⟨h1, h2, h3, h4, h5, h6⟩ := h
    subst h3
    subst h4
    subst h5
    subst h6
    obtain ⟨s, hs, hne, htr, hchars⟩ := canonText1_facts _ h1
    have hs2 : ch = some s := hs
    subst hs2
    have hinls : wrapMarkInl [] (noteSplitInl s.data) = [Inline.txt s.data] :=
      wrapMark_plain s.data hne (fun c hc => (hchars c hc).1)
    unfold tokenParas
    dsimp only [Option.getD]
    rw [hinls]
    simp only [List.foldl_cons, List.foldl_nil]
    rw [hPara_txt _ ("character" :: (vfxParts vf).1) none none ((vfxParts vf).2)
      s.data hne htr (fun c hc => (hchars c hc).1)]
    rw [hParaStep_character _ rfl ((vfxParts vf).1) (vfxParts_shape vf h2) none none
      (hParaVfx ("character" :: (vfxParts vf).1) ((vfxParts vf).2)) s.data]
    rw [hParaVfx_round "character" (by decide) (by decide) vf h2]
  | parenthetical =>
    simp only [canonTok, Bool.and_eq_true, decide_eq_true_eq, and_assoc] at h
    obtain ⟨h1, h2, h3, h4, h5, h6⟩ := h
    subst h2
    subst h3
    subst h4
    subst h5
    subst h6
    obtain ⟨s, hs, hne, htr, hchars⟩ := canonText1_facts _ h1
    have hs2 : tx = some s := hs
    subst hs2
    have hinls : wrapMarkInl [] (noteSplitInl s.data) = [Inline.txt s.data] :=
      wrapMark_plain s.data hne (fun c hc => (hchars c hc).1)
    unfold tokenParas
    dsimp only [Option.getD]
    rw [hinls]
    simp only [List.foldl_cons, List.foldl_nil]
    rw [hPara_txt _ ["parenthetical"] none none ((vfxParts none).2) s.data hne htr
      (fun c hc => (hchars c hc).1)]
    rw [hParaStep_parenthetical _ rfl [] (Or.inl rfl) none none
      (hParaVfx ["parenthetical"] ((vfxParts none).2)) s.data]
    rw [show hParaVfx ["parenthetical"] ((vfxParts none).2) = none from rfl]
  | sceneHeading =>
    simp only [canonTok, Bool.and_eq_true, decide_eq_true_eq, and_assoc] at h
    obtain ⟨h1, h2, hsn, h4, h5, h6⟩ := h
    subst h4
    subst h5
    subst h6
    obtain ⟨s, hs, hne, htr, hchars⟩ := canonText1_facts _ h1
    have hs2 : tx = some s := hs
    subst hs2
    cases sn with
    | none => exact absurd hsn (by simp)
    | some v =>
      cases v with
      | num n => exact absurd hsn (by simp)
      | str a =>
        have ha : a ≠ "" := by
          have h' := hsn
          simp only [Bool.and_eq_true, decide_eq_true_eq] at h'
          exact h'.1
        have hinls : wrapMarkInl [] (noteSplitInl s.data) = [Inline.txt s.data] :=
          wrapMark_plain s.data hne (fun c hc => (hchars c hc).1)
        have htruthy :
            (if jsValTruthy (JsVal.str a) = true
             then some (String.mk (jsValChars (JsVal.str a))) else none) =
              some (String.mk a.data) := by
          simp [jsValTruthy, jsValChars, ha]
        unfold tokenParas
        dsimp only [Option.getD]
        rw [hinls, htruthy]
        simp only [List.foldl_cons, List.foldl_nil]
        rw [hPara_txt _ ("scene-heading" :: (vfxParts vf).1)
          (some (String.mk a.data)) none none s.data hne htr
          (fun c hc => (hchars c hc).1)]
        rw [hParaStep_sceneHeading _ rfl ((vfxParts vf).1)
          (vfxParts_shape vf (canonVfxNS_imp vf h2)) (some (String.mk a.data)) none
          (hParaVfx ("scene-heading" :: (vfxParts vf).1) none) s.data]
        rw [hPara_blank, hFlush_none _ rfl]
        rw [hParaVfx_round_ns "scene-heading" (by decide) (by decide) vf h2]
        rfl
  | pageBreak =>
    simp only [canonTok, Bool.and_eq_true, decide_eq_true_eq, and_assoc] at h
    obtain ⟨h1, h2, hpn, h4, h5, h6⟩ := h
    have h1x : tx = none := h1
    have h2x : vf = none := h2
    subst h1x
    subst h2x
    subst h4
    subst h5
    subst h6
    cases pn with
    | none => exact absurd hpn (by simp)
    | some v =>
      cases v with
      | num n => exact absurd hpn (by simp)
      | str q =>
        unfold tokenParas
        dsimp only [Option.getD]
        simp only [List.foldl_cons, List.foldl_nil]
        rw [show jsValChars (JsVal.str q) = q.data from rfl]
        rw [hPara_pageBreakPara (HSt.mk stk ses none [] none) rfl (String.mk q.data)]
        rw [hPara_blank, hFlush_none _ rfl]
  | dialogue =>
    simp only [canonTok, Bool.and_eq_true, decide_eq_true_eq, and_assoc] at h
    obtain ⟨h1, h2, h3, h4, h5, h6⟩ := h
    subst h3
    subst h4
    subst h5
    subst h6
    obtain ⟨s, hs, hall⟩ := canonBlockText_facts _ h1
    have hs2 : tx = some s := hs
    subst hs2
    obtain ⟨hsne, hplain⟩ := blockText_facts s hall
    have hinls : wrapMarkInl [] (noteSplitInl s.data) = [Inline.txt s.data] :=
      wrapMark_plain s.data hsne (fun c hc => (hplain c hc).1)
    unfold tokenParas
    dsimp only [Option.getD]
    rw [hinls, splitInlLines_txt]
    have hmap1 : (splitCh '\n' s.data).map
        (fun p => if p = [] then ([] : List Inline) else [Inline.txt p]) =
        (splitCh '\n' s.data).map (fun p => [Inline.txt p]) :=
      List.map_congr_left (fun p hp => if_neg ((canonLine_facts p (hall p hp)).1))
    rw [hmap1]
    have hfil : ((splitCh '\n' s.data).map (fun p => [Inline.txt p])).filter
        lineNonBlank = (splitCh '\n' s.data).map (fun p => [Inline.txt p]) := by
      rw [List.filter_eq_self]
      intro x hx
      obtain ⟨p, hp, he⟩ := List.mem_map.mp hx
      subst he
      obtain ⟨hp1, hp2, -⟩ := canonLine_facts p (hall p hp)
      exact lineNonBlank_txt p (by rw [hp2]; exact hp1)
    rw [hfil, List.map_map]
    have hmap2 : (splitCh '\n' s.data).map
        ((fun ln => Para.mk ("dialogue" :: (vfxParts vf).1) none none
            ((vfxParts vf).2) (trimInl ln)) ∘ (fun p => [Inline.txt p])) =
        (splitCh '\n' s.data).map
          (fun p => Para.mk ("dialogue" :: (vfxParts vf).1) none none
            ((vfxParts vf).2) [Inline.txt p]) := by
      apply List.map_congr_left
      intro p hp
      obtain ⟨hp1, hp2, -⟩ := canonLine_facts p (hall p hp)
      simp [Function.comp, trimInl_plain p hp1 hp2]
    rw [hmap2, List.foldl_append]
    cases hpieces : splitCh '\n' s.data with
    | nil => exact absurd hpieces (splitCh_ne_nil _ _)
    | cons p0 rest =>
      have hjoin : interCh ['\n'] (p0 :: rest) = s.data := by
        rw [← hpieces]
        exact interCh_splitCh '\n' s.data
      obtain ⟨hp1, hp2, hp3⟩ := canonLine_facts p0
        (hall p0 (by rw [hpieces]; exact List.mem_cons_self p0 rest))
      rw [List.map_cons]
      simp only [List.foldl_cons, List.foldl_nil]
      rw [hPara_txt _ ("dialogue" :: (vfxParts vf).1) none none ((vfxParts vf).2)
        p0 hp1 hp2 (fun c hc => (hp3 c hc).1)]
      rw [hParaStep_dialogue_open _ rfl ((vfxParts vf).1) (vfxParts_shape vf h2)
        none none (hParaVfx ("dialogue" :: (vfxParts vf).1) ((vfxParts vf).2)) p0]
      simp only [List.nil_append]
      rw [show ∀ x : Option String, ((none : Option String) <|> x) = x from
        fun x => rfl]
      rw [List.foldl_map]
      rw [foldl_blockCont "dialogue" ((vfxParts vf).1) (vfxParts_shape vf h2)
        (Or.inr rfl) ((vfxParts vf).2) rest
        (fun q hq => by
          obtain ⟨hq1, hq2, hq3⟩ := canonLine_facts q
            (hall q (by rw [hpieces]; exact List.mem_cons_of_mem p0 hq))
          exact ⟨hq1, hq2, fun c hc => (hq3 c hc).1⟩)
        _ rfl rfl]
      rw [hPara_blank]
      unfold hFlush
      dsimp only
      rw [if_neg (by decide : ¬("dialogue" = "action"))]
      rw [show ([p0] ++ rest) = p0 :: rest from rfl]
      rw [hjoin]
      rw [hParaVfx_round "dialogue" (by decide) (by decide) vf h2]
  | action =>
    simp only [canonTok, Bool.and_eq_true, decide_eq_true_eq, and_assoc] at h
    obtain ⟨h1, h2, h3, h4, h5, h6⟩ := h
    subst h3
    subst h4
    subst h5
    subst h6
    obtain ⟨s, hs, hall⟩ := canonBlockText_facts _ h1
    have hs2 : tx = some s := hs
    subst hs2
    obtain ⟨hsne, hplain⟩ := blockText_facts s hall
    have hinls : wrapMarkInl [] (noteSplitInl s.data) = [Inline.txt s.data] :=
      wrapMark_plain s.data hsne (fun c hc => (hplain c hc).1)
    unfold tokenParas
    dsimp only [Option.getD]
    rw [hinls, splitInlLines_txt]
    have hmap1 : (splitCh '\n' s.data).map
        (fun p => if p = [] then ([] : List Inline) else [Inline.txt p]) =
        (splitCh '\n' s.data).map (fun p => [Inline.txt p]) :=
      List.map_congr_left (fun p hp => if_neg ((canonLine_facts p (hall p hp)).1))
    rw [hmap1]
    have hfil : ((splitCh '\n' s.data).map (fun p => [Inline.txt p])).filter
        lineNonBlank = (splitCh '\n' s.data).map (fun p => [Inline.txt p]) := by
      rw [List.filter_eq_self]
      intro x hx
      obtain ⟨p, hp, he⟩ := List.mem_map.mp hx
      subst he
      obtain ⟨hp1, hp2, -⟩ := canonLine_facts p (hall p hp)
      exact lineNonBlank_txt p (by rw [hp2]; exact hp1)
    rw [hfil, List.map_map]
    have hmap2 : (splitCh '\n' s.data).map
        ((fun ln => Para.mk ("action" :: (vfxParts vf).1) none none
            ((vfxParts vf).2) (trimInl ln)) ∘ (fun p => [Inline.txt p])) =
        (splitCh '\n' s.data).map
          (fun p => Para.mk ("action" :: (vfxParts vf).1) none none
            ((vfxParts vf).2) [Inline.txt p]) := by
      apply List.map_congr_left
      intro p hp
      obtain ⟨hp1, hp2, -⟩ := canonLine_facts p (hall p hp)
      simp [Function.comp, trimInl_plain p hp1 hp2]
    rw [hmap2, List.foldl_append]
    cases hpieces : splitCh '\n' s.data with
    | nil => exact absurd hpieces (splitCh_ne_nil _ _)
    | cons p0 rest =>
      have hjoin : interCh ['\n'] (p0 :: rest) = s.data := by
        rw [← hpieces]
        exact interCh_splitCh '\n' s.data
      obtain ⟨hp1, hp2, hp3⟩ := canonLine_facts p0
        (hall p0 (by rw [hpieces]; exact List.mem_cons_self p0 rest))
      rw [List.map_cons]
      simp only [List.foldl_cons, List.foldl_nil]
      rw [hPara_txt _ ("action" :: (vfxParts vf).1) none none ((vfxParts vf).2)
        p0 hp1 hp2 (fun c hc => (hp3 c hc).1)]
      rw [hParaStep_action_open _ rfl ((vfxParts vf).1)
        none none (hParaVfx ("action" :: (vfxParts vf).1) ((vfxParts vf).2)) p0]
      simp only [List.nil_append]
      rw [show ∀ x : Option String, ((none : Option String) <|> x) = x from
        fun x => rfl]
      rw [List.foldl_map]
      rw [foldl_blockCont "action" ((vfxParts vf).1) (vfxParts_shape vf h2)
        (Or.inl rfl) ((vfxParts vf).2) rest
        (fun q hq => by
          obtain ⟨hq1, hq2, hq3⟩ := canonLine_facts q
            (hall q (by rw [hpieces]; exact List.mem_cons_of_mem p0 hq))
          exact ⟨hq1, hq2, fun c hc => (hq3 c hc).1⟩)
        _ rfl rfl]
      rw [hPara_blank]
      unfold hFlush
      dsimp only
      rw [if_pos (rfl : "action" = "action")]
      rw [show ([p0] ++ rest) = p0 :: rest from rfl]
      rw [hjoin]
      rw [hParaVfx_round "action" (by decide) (by decide) vf h2]

theorem docRoundTrip_canon (ts : List Token) (h : ∀ t ∈ ts, canonTok t = true)
    (st : HSt) (hbt : st.blockType = none) (hbx : st.blockText = [])
    (hbv : st.blockVfx = none) :
    (ts.flatMap (tokenParas [])).foldl hPara st =
      { st with tokens := st.tokens ++ ts } := by
  induction ts generalizing st with
  | nil =>
    simp only [List.flatMap_nil, List.foldl_nil, List.append_nil]
  | cons t ts ih =>
    rw [List.flatMap_cons, List.foldl_append]
    rw [hPara_token st t hbt hbx hbv (h t (List.mem_cons_self t ts))]
    rw [ih (fun x hx => h x (List.mem_cons_of_mem t hx))
      { st with tokens := st.tokens ++ [t] }
      (show ({ st with tokens := st.tokens ++ [t] } : HSt).blockType = none from hbt)
      (show ({ st with tokens := st.tokens ++ [t] } : HSt).blockText = [] from hbx)
      (show ({ st with tokens := st.tokens ++ [t] } : HSt).blockVfx = none from hbv)]
    simp [List.append_assoc]

end BD

namespace BD

theorem foldl_data_run (s : Chars) (hs : ∀ c ∈ s, c ≠ '<' ∧ c ≠ '&') :
    ∀ st : TkSt, st.mode = .data → st.ref = none →
      s.foldl tkStep st = { st with buf := st.buf ++ s } := by
  induction s with
  | nil => intro st _ _; simp
  | cons a s ih =>
    intro st hm hr
    obtain ⟨ha1, ha2⟩ := hs a (List.mem_cons_self a s)
    rw [List.foldl_cons]
    have h1 : tkStep st a = { st with buf := st.buf ++ [a] } := by
      simp [tkStep, tkStepNoRef, dataStep, hr, hm, ha1, ha2]
    rw [h1]
    rw [ih (fun c hc => hs c (List.mem_cons_of_mem a hc))
      { st with buf := st.buf ++ [a] } hm hr]
    simp [List.append_assoc]

theorem foldl_dq_run (s : Chars) (hs : ∀ c ∈ s, c ≠ '"' ∧ c ≠ '&') :
    ∀ st : TkSt, st.mode = .attrValDq → st.ref = none →
      s.foldl tkStep st = { st with aval := st.aval ++ s } := by
  induction s with
  | nil => intro st _ _; simp
  | cons a s ih =>
    intro st hm hr
    obtain ⟨ha1, ha2⟩ := hs a (List.mem_cons_self a s)
    rw [List.foldl_cons]
    have h1 : tkStep st a = { st with aval := st.aval ++ [a] } := by
      simp [tkStep, tkStepNoRef, hr, hm, ha1, ha2]
    rw [h1]
    rw [ih (fun c hc => hs c (List.mem_cons_of_mem a hc))
      { st with aval := st.aval ++ [a] } hm hr]
    simp [List.append_assoc]

theorem foldl_unq_run (s : Chars)
    (hs : ∀ c ∈ s, isWsChar c = false ∧ c ≠ '>' ∧ c ≠ '&') :
    ∀ st : TkSt, st.mode = .attrValUnq → st.ref = none →
      s.foldl tkStep st = { st with aval := st.aval ++ s } := by
  induction s with
  | nil => intro st _ _; simp
  | cons a s ih =>
    intro st hm hr
    obtain ⟨ha1, ha2, ha3⟩ := hs a (List.mem_cons_self a s)
    rw [List.foldl_cons]
    have h1 : tkStep st a = { st with aval := st.aval ++ [a] } := by
      simp [tkStep, tkStepNoRef, hr, hm, ha1, ha2, ha3]
    rw [h1]
    rw [ih (fun c hc => hs c (List.mem_cons_of_mem a hc))
      { st with aval := st.aval ++ [a] } hm hr]
    simp [List.append_assoc]

theorem tkValDqSt_run (D : List HNode) (atl : List (String × Chars)) (nm v w : Chars)
    (hw : ∀ c ∈ w, c ≠ '"' ∧ c ≠ '&') :
    w.foldl tkStep (tkValDqSt D atl nm v) = tkValDqSt D atl nm (v ++ w) :=
  foldl_dq_run w hw _ rfl rfl

theorem tkValUnqSt_run (D : List HNode) (atl : List (String × Chars)) (nm v w : Chars)
    (hw : ∀ c ∈ w, isWsChar c = false ∧ c ≠ '>' ∧ c ≠ '&') :
    w.foldl tkStep (tkValUnqSt D atl nm v) = tkValUnqSt D atl nm (v ++ w) :=
  foldl_unq_run w hw _ rfl rfl

theorem tkFrameSt_run (D : List HNode) (atl : List (String × Chars)) (s : Chars)
    (hs : ∀ c ∈ s, c ≠ '<' ∧ c ≠ '&') :
    s.foldl tkStep (tkFrameSt D atl) = tkTextSt D atl s :=
  foldl_data_run s hs _ rfl rfl

theorem wordCh_ne (c x : Char) (h : isWordCh c = true) (hx : isWordCh x = false) :
    c ≠ x := by
  intro he
  subst he
  rw [h] at hx
  exact Bool.noConfusion hx

theorem wordCh_not_ws (c : Char) (h : isWordCh c = true) : isWsChar c = false := by
  by_contra hw
  simp only [Bool.not_eq_false] at hw
  simp only [isWsChar, Bool.or_eq_true, decide_eq_true_eq] at hw
  rcases hw with ((((h1 | h1) | h1) | h1) | h1) | h1 <;> subst h1 <;>
    simp [isWordCh, isAlphaCh, isUpperCh, isLowerCh, isDigitCh] at h

theorem tk_pre_sceneHeading (D : List HNode) :
    ("<p class=\"scene-heading").data.foldl tkStep (tkNeutral D) =
      tkValDqSt D [] "class".data "scene-heading".data := by
  simp [List.foldl_cons, tkStep, tkStepNoRef, dataStep, flushText, commitAttr,
    finishTag, appendChild, refSink, voidTags, lowerCh, isAlphaCh, isUpperCh,
    isLowerCh, isWsChar, tkNeutral, tkValDqSt]

theorem tk_pre_transition (D : List HNode) :
    ("<p class=\"transition").data.foldl tkStep (tkNeutral D) =
      tkValDqSt D [] "class".data "transition".data := by
  simp [List.foldl_cons, tkStep, tkStepNoRef, dataStep, flushText, commitAttr,
    finishTag, appendChild, refSink, voidTags, lowerCh, isAlphaCh, isUpperCh,
    isLowerCh, isWsChar, tkNeutral, tkValDqSt]

theorem tk_pre_flashback (D : List HNode) :
    ("<p class=\"flashback").data.foldl tkStep (tkNeutral D) =
      tkValDqSt D [] "class".data "flashback".data := by
  simp [List.foldl_cons, tkStep, tkStepNoRef, dataStep, flushText, commitAttr,
    finishTag, appendChild, refSink, voidTags, lowerCh, isAlphaCh, isUpperCh,
    isLowerCh, isWsChar, tkNeutral, tkValDqSt]

theorem tk_pre_character (D : List HNode) :
    ("<p class=\"character").data.foldl tkStep (tkNeutral D) =
      tkValDqSt D [] "class".data "character".data := by
  simp [List.foldl_cons, tkStep, tkStepNoRef, dataStep, flushText, commitAttr,
    finishTag, appendChild, refSink, voidTags, lowerCh, isAlphaCh, isUpperCh,
    isLowerCh, isWsChar, tkNeutral, tkValDqSt]

theorem tk_pre_dialogue (D : List HNode) :
    ("<p class=\"dialogue").data.foldl tkStep (tkNeutral D) =
      tkValDqSt D [] "class".data "dialogue".data := by
  simp [List.foldl_cons, tkStep, tkStepNoRef, dataStep, flushText, commitAttr,
    finishTag, appendChild, refSink, voidTags, lowerCh, isAlphaCh, isUpperCh,
    isLowerCh, isWsChar, tkNeutral, tkValDqSt]

theorem tk_pre_action (D : List HNode) :
    ("<p class=\"action").data.foldl tkStep (tkNeutral D) =
      tkValDqSt D [] "class".data "action".data := by
  simp [List.foldl_cons, tkStep, tkStepNoRef, dataStep, flushText, commitAttr,
    finishTag, appendChild, refSink, voidTags, lowerCh, isAlphaCh, isUpperCh,
    isLowerCh, isWsChar, tkNeutral, tkValDqSt]

theorem tk_pre_centered (D : List HNode) :
    ("<p class=\"centered").data.foldl tkStep (tkNeutral D) =
      tkValDqSt D [] "class".data "centered".data := by
  simp [List.foldl_cons, tkStep, tkStepNoRef, dataStep, flushText, commitAttr,
    finishTag, appendChild, refSink, voidTags, lowerCh, isAlphaCh, isUpperCh,
    isLowerCh, isWsChar, tkNeutral, tkValDqSt]

theorem tk_pre_parenthetical (D : List HNode) :
    ("<p class=\"parenthetical\"").data.foldl tkStep (tkNeutral D) =
      tkAfterQSt D [("class", "parenthetical".data)] := by
  simp [List.foldl_cons, tkStep, tkStepNoRef, dataStep, flushText, commitAttr,
    finishTag, appendChild, refSink, voidTags, lowerCh, isAlphaCh, isUpperCh,
    isLowerCh, isWsChar, tkNeutral, tkAfterQSt]

theorem tk_pre_pageBreak (D : List HNode) :
    ("<p class=\"page-break\" data-page-number=\"").data.foldl tkStep
        (tkNeutral D) =
      tkValDqSt D [("class", "page-break".data)] "data-page-number".data [] := by
  simp [List.foldl_cons, tkStep, tkStepNoRef, dataStep, flushText, commitAttr,
    finishTag, appendChild, refSink, voidTags, lowerCh, isAlphaCh, isUpperCh,
    isLowerCh, isWsChar, tkNeutral, tkValDqSt]

theorem tk_dq_close (D : List HNode) (atl : List (String × Chars)) (nm v : Chars) :
    ("\"").data.foldl tkStep (tkValDqSt D atl nm v) =
      tkAfterQSt D (atl ++ [(String.mk nm, v)]) := by
  simp [List.foldl_cons, tkStep, tkStepNoRef, commitAttr, tkValDqSt, tkAfterQSt]

theorem tk_afterq_gt (D : List HNode) (atl : List (String × Chars)) :
    (">").data.foldl tkStep (tkAfterQSt D atl) = tkFrameSt D atl := by
  simp [List.foldl_cons, tkStep, tkStepNoRef, finishTag, appendChild, voidTags,
    isWsChar, tkAfterQSt, tkFrameSt]

theorem tk_shot_attr (D : List HNode) (atl : List (String × Chars)) :
    (" data-shot-number=\"").data.foldl tkStep (tkAfterQSt D atl) =
      tkValDqSt D atl "data-shot-number".data [] := by
  simp [List.foldl_cons, tkStep, tkStepNoRef, dataStep, flushText, commitAttr,
    finishTag, appendChild, refSink, voidTags, lowerCh, isAlphaCh, isUpperCh,
    isLowerCh, isWsChar, tkAfterQSt, tkValDqSt]

theorem tk_scene_attr (D : List HNode) (atl : List (String × Chars)) :
    (" data-scene-number=").data.foldl tkStep (tkAfterQSt D atl) =
      tkBeforeValSt D atl "data-scene-number".data := by
  simp [List.foldl_cons, tkStep, tkStepNoRef, dataStep, flushText, commitAttr,
    finishTag, appendChild, refSink, voidTags, lowerCh, isAlphaCh, isUpperCh,
    isLowerCh, isWsChar, tkAfterQSt, tkBeforeValSt]

theorem tk_beforeval_char (D : List HNode) (atl : List (String × Chars))
    (nm : Chars) (c : Char) (hc : isWordCh c = true) :
    tkStep (tkBeforeValSt D atl nm) c = tkValUnqSt D atl nm [c] := by
  have h1 := wordCh_not_ws c hc
  have h2 := wordCh_ne c '"' hc (by decide)
  have h3 := wordCh_ne c '\'' hc (by decide)
  have h4 := wordCh_ne c '>' hc (by decide)
  have h5 := wordCh_ne c '&' hc (by decide)
  simp [tkStep, tkStepNoRef, tkBeforeValSt, tkValUnqSt, h1, h2, h3, h4, h5]

theorem tk_unq_gt (D : List HNode) (atl : List (String × Chars)) (nm v : Chars) :
    (">").data.foldl tkStep (tkValUnqSt D atl nm v) =
      tkFrameSt D (atl ++ [(String.mk nm, v)]) := by
  simp [List.foldl_cons, tkStep, tkStepNoRef, finishTag, commitAttr, appendChild,
    voidTags, isWsChar, tkValUnqSt, tkFrameSt]

theorem tk_blank_p (D : List HNode) :
    ("<p><br></p>").data.foldl tkStep (tkNeutral D) =
      tkNeutral (D ++ [HNode.elem "p" [] [HNode.elem "br" [] []]]) := by
  simp [List.foldl_cons, tkStep, tkStepNoRef, dataStep, flushText, commitAttr,
    finishTag, appendChild, refSink, voidTags, lowerCh, isAlphaCh, isUpperCh,
    isLowerCh, isWsChar, tkNeutral]

theorem tk_nl_blank_p (D : List HNode) :
    ("\n<p><br></p>").data.foldl tkStep (tkNeutral D) =
      tkNeutral (D ++ [HNode.text ['\n'],
        HNode.elem "p" [] [HNode.elem "br" [] []]]) := by
  simp [List.foldl_cons, tkStep, tkStepNoRef, dataStep, flushText, commitAttr,
    finishTag, appendChild, refSink, voidTags, lowerCh, isAlphaCh, isUpperCh,
    isLowerCh, isWsChar, tkNeutral]

theorem tk_close_p (D : List HNode) (atl : List (String × Chars)) (s : Chars)
    (hs : s ≠ []) :
    ("</p>").data.foldl tkStep (tkTextSt D atl s) =
      tkNeutral (D ++ [HNode.elem "p" atl [HNode.text s]]) := by
  rw [show ("</p>").data = ['<', '/', 'p', '>'] from rfl]
  simp only [List.foldl_cons, List.foldl_nil]
  have h1 : tkStep (tkTextSt D atl s) '<' =
      ⟨D, [("p", atl, [])], .tagOpen, s, [], [], [], [], false, none⟩ := rfl
  have h2 : tkStep ⟨D, [("p", atl, [])], .tagOpen, s, [], [], [], [], false, none⟩
      '/' = ⟨D, [("p", atl, [])], .endTagOpen, s, [], [], [], [], false, none⟩ := rfl
  have h3 : tkStep ⟨D, [("p", atl, [])], .endTagOpen, s, [], [], [], [], false,
      none⟩ 'p' = ⟨D, [("p", atl, [HNode.text s])], .tagName, [], ['p'], [], [],
        [], true, none⟩ := by
    simp [tkStep, tkStepNoRef, flushText, appendChild, hs, lowerCh, isAlphaCh,
      isUpperCh, isLowerCh]
  have h4 : tkStep ⟨D, [("p", atl, [HNode.text s])], .tagName, [], ['p'], [],
      [], [], true, none⟩ '>' =
        tkNeutral (D ++ [HNode.elem "p" atl [HNode.text s]]) := by
    simp [tkStep, tkStepNoRef, finishTag, appendChild, commitAttr, voidTags,
      isWsChar, tkNeutral]
  rw [h1, h2, h3, h4]

theorem tk_close_blank (D : List HNode) (atl : List (String × Chars)) (s : Chars)
    (hs : s ≠ []) :
    ("</p><p><br></p>").data.foldl tkStep (tkTextSt D atl s) =
      tkNeutral (D ++ [HNode.elem "p" atl [HNode.text s],
        HNode.elem "p" [] [HNode.elem "br" [] []]]) := by
  rw [show ("</p><p><br></p>").data =
    ("</p>").data ++ ("<p><br></p>").data from rfl]
  rw [List.foldl_append, tk_close_p D atl s hs, tk_blank_p]
  simp [List.append_assoc]

theorem tk_close_nl_blank (D : List HNode) (atl : List (String × Chars)) (s : Chars)
    (hs : s ≠ []) :
    ("</p>\n<p><br></p>").data.foldl tkStep (tkTextSt D atl s) =
      tkNeutral (D ++ [HNode.elem "p" atl [HNode.text s], HNode.text ['\n'],
        HNode.elem "p" [] [HNode.elem "br" [] []]]) := by
  rw [show ("</p>\n<p><br></p>").data =
    ("</p>").data ++ ("\n<p><br></p>").data from rfl]
  rw [List.foldl_append, tk_close_p D atl s hs, tk_nl_blank_p]
  simp [List.append_assoc]

theorem tkFinish_neutral (D : List HNode) : tkFinish (tkNeutral D) = D := rfl

theorem collectPs_append (a b : List HNode) :
    collectPs (a ++ b) = collectPs a ++ collectPs b := by
  induction a with
  | nil => simp [collectPs, collectP]
  | cons n rest ih =>
    cases n with
    | text s => simp [collectPs, collectP, ih]
    | elem tg ats kids => simp [collectPs, collectP, ih, List.append_assoc]

theorem noteRepF_plain (fuel : Nat) (l : Chars) (h : ∀ c ∈ l, c ≠ '[') :
    noteRepF fuel l = l := by
  induction fuel generalizing l with
  | zero => rfl
  | succ fuel ih =>
    cases l with
    | nil => rfl
    | cons c t =>
      unfold noteRepF
      rw [noteMatchAt_no_bracket c t (h c (List.mem_cons_self c t))]
      rw [ih t (fun x hx => h x (List.mem_cons_of_mem c hx))]

theorem noteRep_plain (l : Chars) (h : ∀ c ∈ l, c ≠ '[') : noteRep l = l :=
  noteRepF_plain _ l h

theorem wrapMarkStr_nil (l : Chars) : wrapMarkStr [] l = l := rfl

theorem digits_dq (ds : Chars) (h : ∀ c ∈ ds, isDigitCh c = true) :
    ∀ c ∈ ds, c ≠ '"' ∧ c ≠ '&' :=
  fun c hc => ⟨digit_ne c '"' (h c hc) (by decide),
    digit_ne c '&' (h c hc) (by decide)⟩

theorem wordChs_unq (l : Chars) (h : ∀ c ∈ l, isWordCh c = true) :
    ∀ c ∈ l, isWsChar c = false ∧ c ≠ '>' ∧ c ≠ '&' :=
  fun c hc => ⟨wordCh_not_ws c (h c hc),
    wordCh_ne c '>' (h c hc) (by decide),
    wordCh_ne c '&' (h c hc) (by decide)⟩

theorem vfxLevel_dq (lv : String) (h : lv ∈ vfxLevels) :
    ∀ c ∈ lv.data, c ≠ '"' ∧ c ≠ '&' := by
  fin_cases h <;> decide

theorem strMk_ne_empty (l : Chars) (h : l ≠ []) : String.mk l ≠ "" := by
  intro he
  have h2 : (String.mk l).data = ("" : String).data := congrArg String.data he
  exact h h2

theorem canonVfx_form (ov : Option String) (h : canonVfx ov = true) :
    ov = none ∨
    ∃ lv ds, lv ∈ vfxLevels ∧ (∀ c ∈ ds, isDigitCh c = true) ∧
      ov = some (String.mk (ds ++ ' ' :: lv.data)) ∧
      vfxReMatch (ds ++ ' ' :: lv.data) =
        some ((if ds = [] then none else some ds), lv.data) := by
  cases ov with
  | none => exact Or.inl rfl
  | some v =>
    right
    simp only [canonVfx, List.any_eq_true] at h
    obtain ⟨lv, hlv, hshape⟩ := h
    simp only [Bool.or_eq_true, Bool.and_eq_true, decide_eq_true_eq] at hshape
    have hsh : ∃ ds, (∀ c ∈ ds, isDigitCh c = true) ∧
        v.data = ds ++ ' ' :: lv.data := by
      rcases hshape with h1 | ⟨h1, h2⟩
      · exact ⟨[], by simp, by simpa using h1⟩
      · exact ⟨v.data.takeWhile isDigitCh,
          fun c hc => List.mem_takeWhile_imp hc, h2⟩
    obtain ⟨ds, hds, heq⟩ := hsh
    have hlv1 : lv.data.dropWhile isWsChar = lv.data := by fin_cases hlv <;> rfl
    have hlv2 : lv.data.takeWhile isDigitCh = [] := by fin_cases hlv <;> rfl
    have hfind : vfxLevels.find? (fun k => pfx k.data lv.data) = some lv := by
      fin_cases hlv <;> rfl
    refine ⟨lv, ds, hlv, hds, ?_, vfxReMatch_shape ds hds lv hlv1 hlv2 hfind⟩
    cases v with
    | mk data =>
      simp only at heq
      rw [heq]

theorem collectPs_p (atl : List (String × Chars)) (kids rest : List HNode) :
    collectPs (HNode.elem "p" atl kids :: rest) =
      HNode.elem "p" atl kids :: (collectPs kids ++ collectPs rest) := by
  simp [collectPs, collectP]

theorem collectPs_text (s : Chars) (rest : List HNode) :
    collectPs (HNode.text s :: rest) = collectPs rest := by
  simp [collectPs, collectP]

theorem collectPs_textKid (s : Chars) : collectPs [HNode.text s] = [] := by
  simp [collectPs, collectP]

theorem paraOfP_blank :
    paraOfP (HNode.elem "p" [] [HNode.elem "br" [] []]) = blankPara := rfl

theorem paraOfP_cls (cv s : Chars) :
    paraOfP (HNode.elem "p" [("class", cv)] [HNode.text s]) =
      { classes := (splitWsCh cv).map String.mk, inlines := [Inline.txt s] } := rfl

theorem paraOfP_cls_shot (cv ds s : Chars) :
    paraOfP (HNode.elem "p" [("class", cv), ("data-shot-number", ds)]
        [HNode.text s]) =
      { classes := (splitWsCh cv).map String.mk,
        shotNumber := some (String.mk ds), inlines := [Inline.txt s] } := rfl

theorem paraOfP_cls_scene (cv sn s : Chars) :
    paraOfP (HNode.elem "p" [("class", cv), ("data-scene-number", sn)]
        [HNode.text s]) =
      { classes := (splitWsCh cv).map String.mk,
        sceneNumber := some (String.mk sn), inlines := [Inline.txt s] } := rfl

theorem paraOfP_cls_page (cv pn s : Chars) :
    paraOfP (HNode.elem "p" [("class", cv), ("data-page-number", pn)]
        [HNode.text s]) =
      { classes := (splitWsCh cv).map String.mk,
        pageNumber := some (String.mk pn), inlines := [Inline.txt s] } := rfl

theorem tk_tok_transition (s : String) (vf : Option String)
    (hvf : canonVfx vf = true)
    (hne : s.data ≠ []) (htr : trimCh s.data = s.data)
    (hchars : ∀ c ∈ s.data,
      c ≠ '[' ∧ c ≠ '*' ∧ c ≠ '\n' ∧ c ≠ '<' ∧ c ≠ '>' ∧ c ≠ '&')
    (D : List HNode) :
    ∃ ns, (htmlRenderTok [] { type := .transition, text := some s, vfx := vf }).foldl tkStep (tkNeutral D) = tkNeutral (D ++ ns) ∧
      (collectPs ns).map paraOfP =
        tokenParas [] { type := .transition, text := some s, vfx := vf } := by
  have hplain : ∀ c ∈ s.data, c ≠ '<' ∧ c ≠ '&' :=
    fun c hc => ⟨(hchars c hc).2.2.2.1, (hchars c hc).2.2.2.2.2⟩
  have hinls : wrapMarkInl [] (noteSplitInl s.data) = [Inline.txt s.data] :=
    wrapMark_plain s.data hne (fun c hc => (hchars c hc).1)
  have hw : wrapMarkStr [] (noteRep s.data) = s.data := by
    rw [noteRep_plain s.data (fun c hc => (hchars c hc).1)]
    exact wrapMarkStr_nil s.data
  rcases canonVfx_form vf hvf with hvf0 | ⟨lv, ds, hlv, hds, hveq, hvm⟩
  · subst hvf0
    refine ⟨[HNode.elem "p" [("class", "transition".data)] [HNode.text s.data],
      HNode.text ['\n'], HNode.elem "p" [] [HNode.elem "br" [] []]], ?_, ?_⟩
    · unfold htmlRenderTok
      dsimp only [Option.getD]
      rw [hw]
      simp only [List.append_assoc, List.foldl_append, List.append_nil]
      rw [tk_pre_transition D]
      rw [tk_dq_close, tk_afterq_gt, tkFrameSt_run _ _ s.data hplain]
      rw [tk_close_nl_blank _ _ s.data hne]
      simp [List.nil_append, List.append_assoc]
    · have hclv : (splitWsCh ("transition".data)).map String.mk =
          ["transition"] := by decide
      unfold tokenParas
      dsimp only [Option.getD]
      rw [hinls]
      unfold vfxParts
      dsimp only
      rw [collectPs_p, collectPs_textKid, collectPs_text, collectPs_p]
      simp only [collectPs, collectP, List.nil_append, List.append_nil, List.map_cons,
        List.map_nil]
      rw [paraOfP_cls, paraOfP_blank, hclv]
      rfl
  · subst hveq
    have hvne : String.mk (ds ++ ' ' :: lv.data) ≠ "" :=
      strMk_ne_empty _ (by simp)
    by_cases hde : ds = []
    · subst hde
      refine ⟨[HNode.elem "p"
          [("class", "transition".data ++ " vfx ".data ++ lv.data)]
          [HNode.text s.data],
        HNode.text ['\n'], HNode.elem "p" [] [HNode.elem "br" [] []]], ?_, ?_⟩
      · unfold htmlRenderTok
        dsimp only [Option.getD]
        rw [hw, if_neg hvne]
        rw [hvm, if_pos rfl]
        dsimp only
        simp only [List.append_assoc, List.foldl_append, List.append_nil,
          List.nil_append]
        rw [tk_pre_transition D]
        rw [tkValDqSt_run _ _ _ _ (" vfx ").data (by decide)]
        rw [tkValDqSt_run _ _ _ _ lv.data (vfxLevel_dq lv hlv)]
        rw [tk_dq_close, tk_afterq_gt, tkFrameSt_run _ _ s.data hplain]
        rw [tk_close_nl_blank _ _ s.data hne]
        simp [List.nil_append, List.append_assoc]
      · have hclv : (splitWsCh ("transition".data ++ " vfx ".data ++
            lv.data)).map String.mk = ["transition", "vfx", lv] := by
          fin_cases hlv <;> decide
        unfold tokenParas
        dsimp only [Option.getD]
        rw [hinls]
        unfold vfxParts
        dsimp only
        rw [hvm, if_pos rfl]
        dsimp only
        rw [collectPs_p, collectPs_textKid, collectPs_text, collectPs_p]
        simp only [collectPs, collectP, List.nil_append, List.append_nil, List.map_cons,
          List.map_nil]
        rw [paraOfP_cls, paraOfP_blank, hclv]
        rfl
    · refine ⟨[HNode.elem "p"
          [("class", "transition".data ++ " vfx ".data ++ lv.data),
           ("data-shot-number", ds)] [HNode.text s.data],
        HNode.text ['\n'], HNode.elem "p" [] [HNode.elem "br" [] []]], ?_, ?_⟩
      · unfold htmlRenderTok
        dsimp only [Option.getD]
        rw [hw, if_neg hvne]
        rw [hvm, if_neg hde]
        dsimp only
        simp only [List.append_assoc, List.foldl_append]
        rw [tk_pre_transition D]
        rw [tkValDqSt_run _ _ _ _ (" vfx ").data (by decide)]
        rw [tkValDqSt_run _ _ _ _ lv.data (vfxLevel_dq lv hlv)]
        rw [tk_dq_close, tk_shot_attr]
        rw [tkValDqSt_run _ _ _ _ ds (digits_dq ds hds)]
        rw [tk_dq_close, tk_afterq_gt, tkFrameSt_run _ _ s.data hplain]
        rw [tk_close_nl_blank _ _ s.data hne]
        simp [List.nil_append, List.append_assoc]
      · have hclv : (splitWsCh ("transition".data ++ " vfx ".data ++
            lv.data)).map String.mk = ["transition", "vfx", lv] := by
          fin_cases hlv <;> decide
        unfold tokenParas
        dsimp only [Option.getD]
        rw [hinls]
        unfold vfxParts
        dsimp only
        rw [hvm, if_neg hde]
        dsimp only
        rw [collectPs_p, collectPs_textKid, collectPs_text, collectPs_p]
        simp only [collectPs, collectP, List.nil_append, List.append_nil, List.map_cons,
          List.map_nil]
        rw [paraOfP_cls_shot, paraOfP_blank, hclv]
        rfl

theorem wordChs_dq (l : Chars) (h : ∀ c ∈ l, isWordCh c = true) :
    ∀ c ∈ l, c ≠ '"' ∧ c ≠ '&' :=
  fun c hc => ⟨wordCh_ne c '"' (h c hc) (by decide),
    wordCh_ne c '&' (h c hc) (by decide)⟩

theorem tkTextSt_run (D : List HNode) (atl : List (String × Chars)) (s s2 : Chars)
    (hs : ∀ c ∈ s2, c ≠ '<' ∧ c ≠ '&') :
    s2.foldl tkStep (tkTextSt D atl s) = tkTextSt D atl (s ++ s2) :=
  foldl_data_run s2 hs _ rfl rfl

theorem canonVfxNS_form (ov : Option String) (h : canonVfxNS ov = true) :
    ov = none ∨
    ∃ lv, lv ∈ vfxLevels ∧ ov = some (String.mk (' ' :: lv.data)) ∧
      vfxReMatch (' ' :: lv.data) = some (none, lv.data) := by
  cases ov with
  | none => exact Or.inl rfl
  | some v =>
    right
    simp only [canonVfxNS, List.any_eq_true, decide_eq_true_eq] at h
    obtain ⟨lv, hlv, heq⟩ := h
    have hlv1 : lv.data.dropWhile isWsChar = lv.data := by fin_cases hlv <;> rfl
    have hlv2 : lv.data.takeWhile isDigitCh = [] := by fin_cases hlv <;> rfl
    have hfind : vfxLevels.find? (fun k => pfx k.data lv.data) = some lv := by
      fin_cases hlv <;> rfl
    have hm := vfxReMatch_shape [] (by simp) lv hlv1 hlv2 hfind
    simp only [List.nil_append, if_pos rfl] at hm
    refine ⟨lv, hlv, ?_, hm⟩
    cases v with
    | mk data =>
      simp only at heq
      rw [heq]

theorem tk_tok_flashback (s : String) (vf : Option String)
    (hvf : canonVfx vf = true)
    (hne : s.data ≠ [])
    (hchars : ∀ c ∈ s.data,
      c ≠ '[' ∧ c ≠ '*' ∧ c ≠ '\n' ∧ c ≠ '<' ∧ c ≠ '>' ∧ c ≠ '&')
    (D : List HNode) :
    ∃ ns, (htmlRenderTok [] { type := .flashback, text := some s, vfx := vf }).foldl tkStep (tkNeutral D) = tkNeutral (D ++ ns) ∧
      (collectPs ns).map paraOfP =
        tokenParas [] { type := .flashback, text := some s, vfx := vf } := by
  have hplain : ∀ c ∈ s.data, c ≠ '<' ∧ c ≠ '&' :=
    fun c hc => ⟨(hchars c hc).2.2.2.1, (hchars c hc).2.2.2.2.2⟩
  have hinls : wrapMarkInl [] (noteSplitInl s.data) = [Inline.txt s.data] :=
    wrapMark_plain s.data hne (fun c hc => (hchars c hc).1)
  have hw : wrapMarkStr [] (noteRep s.data) = s.data := by
    rw [noteRep_plain s.data (fun c hc => (hchars c hc).1)]
    exact wrapMarkStr_nil s.data
  rcases canonVfx_form vf hvf with hvf0 | ⟨lv, ds, hlv, hds, hveq, hvm⟩
  · subst hvf0
    refine ⟨[HNode.elem "p" [("class", "flashback".data)]
      [HNode.text s.data]], ?_, ?_⟩
    · unfold htmlRenderTok
      dsimp only [Option.getD]
      rw [hw]
      simp only [List.append_assoc, List.foldl_append, List.append_nil]
      rw [tk_pre_flashback D]
      rw [tk_dq_close, tk_afterq_gt, tkFrameSt_run _ _ s.data hplain]
      rw [tk_close_p _ _ s.data hne]
      simp [List.nil_append, List.append_assoc]
    · have hclv : (splitWsCh ("flashback".data)).map String.mk =
          ["flashback"] := by decide
      unfold tokenParas
      dsimp only [Option.getD]
      rw [hinls]
      unfold vfxParts
      dsimp only
      rw [collectPs_p, collectPs_textKid]
      simp only [collectPs, collectP, List.nil_append, List.append_nil, List.map_cons,
        List.map_nil]
      rw [paraOfP_cls, hclv]
  · subst hveq
    have hvne : String.mk (ds ++ ' ' :: lv.data) ≠ "" :=
      strMk_ne_empty _ (by simp)
    by_cases hde : ds = []
    · subst hde
      refine ⟨[HNode.elem "p"
          [("class", "flashback".data ++ " vfx ".data ++ lv.data)]
          [HNode.text s.data]], ?_, ?_⟩
      · unfold htmlRenderTok
        dsimp only [Option.getD]
        rw [hw, if_neg hvne]
        rw [hvm, if_pos rfl]
        dsimp only
        simp only [List.append_assoc, List.foldl_append, List.append_nil,
          List.nil_append]
        rw [tk_pre_flashback D]
        rw [tkValDqSt_run _ _ _ _ (" vfx ").data (by decide)]
        rw [tkValDqSt_run _ _ _ _ lv.data (vfxLevel_dq lv hlv)]
        rw [tk_dq_close, tk_afterq_gt, tkFrameSt_run _ _ s.data hplain]
        rw [tk_close_p _ _ s.data hne]
        simp [List.nil_append, List.append_assoc]
      · have hclv : (splitWsCh ("flashback".data ++ " vfx ".data ++
            lv.data)).map String.mk = ["flashback", "vfx", lv] := by
          fin_cases hlv <;> decide
        unfold tokenParas
        dsimp only [Option.getD]
        rw [hinls]
        unfold vfxParts
        dsimp only
        rw [hvm, if_pos rfl]
        dsimp only
        rw [collectPs_p, collectPs_textKid]
        simp only [collectPs, collectP, List.nil_append, List.append_nil, List.map_cons,
          List.map_nil]
        rw [paraOfP_cls, hclv]
        rfl
    · refine ⟨[HNode.elem "p"
          [("class", "flashback".data ++ " vfx ".data ++ lv.data),
           ("data-shot-number", ds)] [HNode.text s.data]], ?_, ?_⟩
      · unfold htmlRenderTok
        dsimp only [Option.getD]
        rw [hw, if_neg hvne]
        rw [hvm, if_neg hde]
        dsimp only
        simp only [List.append_assoc, List.foldl_append]
        rw [tk_pre_flashback D]
        rw [tkValDqSt_run _ _ _ _ (" vfx ").data (by decide)]
        rw [tkValDqSt_run _ _ _ _ lv.data (vfxLevel_dq lv hlv)]
        rw [tk_dq_close, tk_shot_attr]
        rw [tkValDqSt_run _ _ _ _ ds (digits_dq ds hds)]
        rw [tk_dq_close, tk_afterq_gt, tkFrameSt_run _ _ s.data hplain]
        rw [tk_close_p _ _ s.data hne]
        simp [List.nil_append, List.append_assoc]
      · have hclv : (splitWsCh ("flashback".data ++ " vfx ".data ++
            lv.data)).map String.mk = ["flashback", "vfx", lv] := by
          fin_cases hlv <;> decide
        unfold tokenParas
        dsimp only [Option.getD]
        rw [hinls]
        unfold vfxParts
        dsimp only
        rw [hvm, if_neg hde]
        dsimp only
        rw [collectPs_p, collectPs_textKid]
        simp only [collectPs, collectP, List.nil_append, List.append_nil, List.map_cons,
          List.map_nil]
        rw [paraOfP_cls_shot, hclv]
        rfl

theorem tk_tok_character (s : String) (vf : Option String)
    (hvf : canonVfx vf = true)
    (hne : s.data ≠ [])
    (hchars : ∀ c ∈ s.data,
      c ≠ '[' ∧ c ≠ '*' ∧ c ≠ '\n' ∧ c ≠ '<' ∧ c ≠ '>' ∧ c ≠ '&')
    (D : List HNode) :
    ∃ ns, (htmlRenderTok [] { type := .character, text := some s, vfx := vf, character := some s }).foldl tkStep (tkNeutral D) = tkNeutral (D ++ ns) ∧
      (collectPs ns).map paraOfP =
        tokenParas [] { type := .character, text := some s, vfx := vf, character := some s } := by
  have hplain : ∀ c ∈ s.data, c ≠ '<' ∧ c ≠ '&' :=
    fun c hc => ⟨(hchars c hc).2.2.2.1, (hchars c hc).2.2.2.2.2⟩
  have hinls : wrapMarkInl [] (noteSplitInl s.data) = [Inline.txt s.data] :=
    wrapMark_plain s.data hne (fun c hc => (hchars c hc).1)
  have hw : wrapMarkStr [] (noteRep s.data) = s.data := by
    rw [noteRep_plain s.data (fun c hc => (hchars c hc).1)]
    exact wrapMarkStr_nil s.data
  rcases canonVfx_form vf hvf with hvf0 | ⟨lv, ds, hlv, hds, hveq, hvm⟩
  · subst hvf0
    refine ⟨[HNode.elem "p" [("class", "character".data)]
      [HNode.text s.data]], ?_, ?_⟩
    · unfold htmlRenderTok
      dsimp only [Option.getD]
      rw [hw]
      simp only [List.append_assoc, List.foldl_append, List.append_nil]
      rw [tk_pre_character D]
      rw [tk_dq_close, tk_afterq_gt, tkFrameSt_run _ _ s.data hplain]
      rw [tk_close_p _ _ s.data hne]
      simp [List.nil_append, List.append_assoc]
    · have hclv : (splitWsCh ("character".data)).map String.mk =
          ["character"] := by decide
      unfold tokenParas
      dsimp only [Option.getD]
      rw [hinls]
      unfold vfxParts
      dsimp only
      rw [collectPs_p, collectPs_textKid]
      simp only [collectPs, collectP, List.nil_append, List.append_nil, List.map_cons,
        List.map_nil]
      rw [paraOfP_cls, hclv]
  · subst hveq
    have hvne : String.mk (ds ++ ' ' :: lv.data) ≠ "" :=
      strMk_ne_empty _ (by simp)
    by_cases hde : ds = []
    · subst hde
      refine ⟨[HNode.elem "p"
          [("class", "character".data ++ " vfx ".data ++ lv.data)]
          [HNode.text s.data]], ?_, ?_⟩
      · unfold htmlRenderTok
        dsimp only [Option.getD]
        rw [hw, if_neg hvne]
        rw [hvm, if_pos rfl]
        dsimp only
        simp only [List.append_assoc, List.foldl_append, List.append_nil,
          List.nil_append]
        rw [tk_pre_character D]
        rw [tkValDqSt_run _ _ _ _ (" vfx ").data (by decide)]
        rw [tkValDqSt_run _ _ _ _ lv.data (vfxLevel_dq lv hlv)]
        rw [tk_dq_close, tk_afterq_gt, tkFrameSt_run _ _ s.data hplain]
        rw [tk_close_p _ _ s.data hne]
        simp [List.nil_append, List.append_assoc]
      · have hclv : (splitWsCh ("character".data ++ " vfx ".data ++
            lv.data)).map String.mk = ["character", "vfx", lv] := by
          fin_cases hlv <;> decide
        unfold tokenParas
        dsimp only [Option.getD]
        rw [hinls]
        unfold vfxParts
        dsimp only
        rw [hvm, if_pos rfl]
        dsimp only
        rw [collectPs_p, collectPs_textKid]
        simp only [collectPs, collectP, List.nil_append, List.append_nil, List.map_cons,
          List.map_nil]
        rw [paraOfP_cls, hclv]
        rfl
    · refine ⟨[HNode.elem "p"
          [("class", "character".data ++ " vfx ".data ++ lv.data),
           ("data-shot-number", ds)] [HNode.text s.data]], ?_, ?_⟩
      · unfold htmlRenderTok
        dsimp only [Option.getD]
        rw [hw, if_neg hvne]
        rw [hvm, if_neg hde]
        dsimp only
        simp only [List.append_assoc, List.foldl_append]
        rw [tk_pre_character D]
        rw [tkValDqSt_run _ _ _ _ (" vfx ").data (by decide)]
        rw [tkValDqSt_run _ _ _ _ lv.data (vfxLevel_dq lv hlv)]
        rw [tk_dq_close, tk_shot_attr]
        rw [tkValDqSt_run _ _ _ _ ds (digits_dq ds hds)]
        rw [tk_dq_close, tk_afterq_gt, tkFrameSt_run _ _ s.data hplain]
        rw [tk_close_p _ _ s.data hne]
        simp [List.nil_append, List.append_assoc]
      · have hclv : (splitWsCh ("character".data ++ " vfx ".data ++
            lv.data)).map String.mk = ["character", "vfx", lv] := by
          fin_cases hlv <;> decide
        unfold tokenParas
        dsimp only [Option.getD]
        rw [hinls]
        unfold vfxParts
        dsimp only
        rw [hvm, if_neg hde]
        dsimp only
        rw [collectPs_p, collectPs_textKid]
        simp only [collectPs, collectP, List.nil_append, List.append_nil, List.map_cons,
          List.map_nil]
        rw [paraOfP_cls_shot, hclv]
        rfl

theorem tk_tok_centered (s : String) (vf : Option String)
    (hvf : canonVfx vf = true)
    (hne : s.data ≠ [])
    (hchars : ∀ c ∈ s.data,
      c ≠ '[' ∧ c ≠ '*' ∧ c ≠ '\n' ∧ c ≠ '<' ∧ c ≠ '>' ∧ c ≠ '&')
    (D : List HNode) :
    ∃ ns, (htmlRenderTok [] { type := .centered, text := some s, vfx := vf }).foldl tkStep (tkNeutral D) = tkNeutral (D ++ ns) ∧
      (collectPs ns).map paraOfP =
        tokenParas [] { type := .centered, text := some s, vfx := vf } := by
  have hplain : ∀ c ∈ s.data, c ≠ '<' ∧ c ≠ '&' :=
    fun c hc => ⟨(hchars c hc).2.2.2.1, (hchars c hc).2.2.2.2.2⟩
  have hinls : wrapMarkInl [] (noteSplitInl s.data) = [Inline.txt s.data] :=
    wrapMark_plain s.data hne (fun c hc => (hchars c hc).1)
  have hw : wrapMarkStr [] (noteRep s.data) = s.data := by
    rw [noteRep_plain s.data (fun c hc => (hchars c hc).1)]
    exact wrapMarkStr_nil s.data
  rcases canonVfx_form vf hvf with hvf0 | ⟨lv, ds, hlv, hds, hveq, hvm⟩
  · subst hvf0
    refine ⟨[HNode.elem "p" [("class", "centered".data)]
      [HNode.text s.data]], ?_, ?_⟩
    · unfold htmlRenderTok
      dsimp only [Option.getD]
      rw [hw]
      simp only [List.append_assoc, List.foldl_append, List.append_nil]
      rw [tk_pre_centered D]
      rw [tk_dq_close, tk_afterq_gt, tkFrameSt_run _ _ s.data hplain]
      rw [tk_close_p _ _ s.data hne]
      simp [List.nil_append, List.append_assoc]
    · have hclv : (splitWsCh ("centered".data)).map String.mk =
          ["centered"] := by decide
      unfold tokenParas
      dsimp only [Option.getD]
      rw [hinls]
      unfold vfxParts
      dsimp only
      rw [collectPs_p, collectPs_textKid]
      simp only [collectPs, collectP, List.nil_append, List.append_nil, List.map_cons,
        List.map_nil]
      rw [paraOfP_cls, hclv]
  · subst hveq
    have hvne : String.mk (ds ++ ' ' :: lv.data) ≠ "" :=
      strMk_ne_empty _ (by simp)
    by_cases hde : ds = []
    · subst hde
      refine ⟨[HNode.elem "p"
          [("class", "centered".data ++ " vfx ".data ++ lv.data)]
          [HNode.text s.data]], ?_, ?_⟩
      · unfold htmlRenderTok
        dsimp only [Option.getD]
        rw [hw, if_neg hvne]
        rw [hvm, if_pos rfl]
        dsimp only
        simp only [List.append_assoc, List.foldl_append, List.append_nil,
          List.nil_append]
        rw [tk_pre_centered D]
        rw [tkValDqSt_run _ _ _ _ (" vfx ").data (by decide)]
        rw [tkValDqSt_run _ _ _ _ lv.data (vfxLevel_dq lv hlv)]
        rw [tk_dq_close, tk_afterq_gt, tkFrameSt_run _ _ s.data hplain]
        rw [tk_close_p _ _ s.data hne]
        simp [List.nil_append, List.append_assoc]
      · have hclv : (splitWsCh ("centered".data ++ " vfx ".data ++
            lv.data)).map String.mk = ["centered", "vfx", lv] := by
          fin_cases hlv <;> decide
        unfold tokenParas
        dsimp only [Option.getD]
        rw [hinls]
        unfold vfxParts
        dsimp only
        rw [hvm, if_pos rfl]
        dsimp only
        rw [collectPs_p, collectPs_textKid]
        simp only [collectPs, collectP, List.nil_append, List.append_nil, List.map_cons,
          List.map_nil]
        rw [paraOfP_cls, hclv]
        rfl
    · refine ⟨[HNode.elem "p"
          [("class", "centered".data ++ " vfx ".data ++ lv.data),
           ("data-shot-number", ds)] [HNode.text s.data]], ?_, ?_⟩
      · unfold htmlRenderTok
        dsimp only [Option.getD]
        rw [hw, if_neg hvne]
        rw [hvm, if_neg hde]
        dsimp only
        simp only [List.append_assoc, List.foldl_append]
        rw [tk_pre_centered D]
        rw [tkValDqSt_run _ _ _ _ (" vfx ").data (by decide)]
        rw [tkValDqSt_run _ _ _ _ lv.data (vfxLevel_dq lv hlv)]
        rw [tk_dq_close, tk_shot_attr]
        rw [tkValDqSt_run _ _ _ _ ds (digits_dq ds hds)]
        rw [tk_dq_close, tk_afterq_gt, tkFrameSt_run _ _ s.data hplain]
        rw [tk_close_p _ _ s.data hne]
        simp [List.nil_append, List.append_assoc]
      · have hclv : (splitWsCh ("centered".data ++ " vfx ".data ++
            lv.data)).map String.mk = ["centered", "vfx", lv] := by
          fin_cases hlv <;> decide
        unfold tokenParas
        dsimp only [Option.getD]
        rw [hinls]
        unfold vfxParts
        dsimp only
        rw [hvm, if_neg hde]
        dsimp only
        rw [collectPs_p, collectPs_textKid]
        simp only [collectPs, collectP, List.nil_append, List.append_nil, List.map_cons,
          List.map_nil]
        rw [paraOfP_cls_shot, hclv]
        rfl

theorem tk_tok_parenthetical (s : String)
    (hne : s.data ≠ [])
    (hchars : ∀ c ∈ s.data,
      c ≠ '[' ∧ c ≠ '*' ∧ c ≠ '\n' ∧ c ≠ '<' ∧ c ≠ '>' ∧ c ≠ '&')
    (D : List HNode) :
    ∃ ns, (htmlRenderTok [] { type := .parenthetical, text := some s }).foldl tkStep (tkNeutral D) = tkNeutral (D ++ ns) ∧
      (collectPs ns).map paraOfP =
        tokenParas [] { type := .parenthetical, text := some s } := by
  have hplain : ∀ c ∈ s.data, c ≠ '<' ∧ c ≠ '&' :=
    fun c hc => ⟨(hchars c hc).2.2.2.1, (hchars c hc).2.2.2.2.2⟩
  have hinls : wrapMarkInl [] (noteSplitInl s.data) = [Inline.txt s.data] :=
    wrapMark_plain s.data hne (fun c hc => (hchars c hc).1)
  have hw : wrapMarkStr [] (noteRep s.data) = s.data := by
    rw [noteRep_plain s.data (fun c hc => (hchars c hc).1)]
    exact wrapMarkStr_nil s.data
  refine ⟨[HNode.elem "p" [("class", "parenthetical".data)]
    [HNode.text s.data]], ?_, ?_⟩
  · unfold htmlRenderTok
    dsimp only [Option.getD]
    rw [hw]
    simp only [List.append_assoc, List.foldl_append, List.append_nil]
    rw [tk_pre_parenthetical D]
    rw [tk_afterq_gt, tkFrameSt_run _ _ s.data hplain]
    rw [tk_close_p _ _ s.data hne]
  · have hclv : (splitWsCh ("parenthetical".data)).map String.mk =
        ["parenthetical"] := by decide
    unfold tokenParas
    dsimp only [Option.getD]
    rw [hinls]
    unfold vfxParts
    dsimp only
    rw [collectPs_p, collectPs_textKid]
    simp only [collectPs, collectP, List.nil_append, List.append_nil, List.map_cons,
      List.map_nil]
    rw [paraOfP_cls, hclv]

theorem tk_dq_close_gt (D : List HNode) (atl : List (String × Chars))
    (nm v : Chars) :
    ("\">").data.foldl tkStep (tkValDqSt D atl nm v) =
      tkFrameSt D (atl ++ [(String.mk nm, v)]) := by
  rw [show ("\">").data = ("\"").data ++ (">").data from rfl]
  rw [List.foldl_append, tk_dq_close, tk_afterq_gt]

theorem tk_close_sp_blank (D : List HNode) (atl : List (String × Chars))
    (s : Chars) :
    ("  </p><p><br></p>").data.foldl tkStep (tkTextSt D atl s) =
      tkNeutral (D ++ [HNode.elem "p" atl [HNode.text (s ++ ("  ").data)],
        HNode.elem "p" [] [HNode.elem "br" [] []]]) := by
  rw [show ("  </p><p><br></p>").data =
    ("  ").data ++ ("</p><p><br></p>").data from rfl]
  rw [List.foldl_append, tkTextSt_run _ _ _ ("  ").data (by decide)]
  rw [tk_close_blank _ _ _ (by simp)]

theorem tk_tok_pageBreak (q : String)
    (hq : ∀ c ∈ q.data, isWordCh c = true) (D : List HNode) :
    ∃ ns, (htmlRenderTok [] { type := .pageBreak, pageNum := some (.str q) }).foldl tkStep (tkNeutral D) = tkNeutral (D ++ ns) ∧
      (collectPs ns).map paraOfP =
        tokenParas [] { type := .pageBreak, pageNum := some (.str q) } := by
  refine ⟨[HNode.elem "p" [("class", "page-break".data),
      ("data-page-number", q.data)]
      [HNode.text (List.replicate 55 '=' ++ "  ".data)],
    HNode.elem "p" [] [HNode.elem "br" [] []]], ?_, ?_⟩
  · unfold htmlRenderTok
    dsimp only [Option.getD, jsValChars]
    simp only [List.append_assoc, List.foldl_append]
    rw [tk_pre_pageBreak D]
    rw [tkValDqSt_run _ _ _ _ q.data (wordChs_dq q.data hq)]
    rw [tk_dq_close_gt]
    rw [tkFrameSt_run _ _ (List.replicate 55 '=') (by decide)]
    rw [tk_close_sp_blank]
    simp [List.nil_append, List.append_assoc]
  · have hclv : (splitWsCh ("page-break".data)).map String.mk =
        ["page-break"] := by decide
    unfold tokenParas
    dsimp only [Option.getD, jsValChars]
    rw [collectPs_p, collectPs_textKid]
    simp only [collectPs, collectP, List.nil_append, List.append_nil, List.map_cons,
      List.map_nil]
    rw [paraOfP_cls_page, hclv]
    rfl

theorem tkBeforeValSt_run (D : List HNode) (atl : List (String × Chars))
    (nm : Chars) (c0 : Char) (t0 : Chars) (hc0 : isWordCh c0 = true)
    (ht0 : ∀ c ∈ t0, isWordCh c = true) :
    (c0 :: t0).foldl tkStep (tkBeforeValSt D atl nm) =
      tkValUnqSt D atl nm ([c0] ++ t0) := by
  rw [List.foldl_cons, tk_beforeval_char _ _ _ c0 hc0,
    tkValUnqSt_run _ _ _ _ t0 (wordChs_unq t0 ht0)]

theorem tk_tok_sceneHeading (s : String) (vf : Option String) (a : String)
    (hvf : canonVfxNS vf = true)
    (hne : s.data ≠ [])
    (hchars : ∀ c ∈ s.data,
      c ≠ '[' ∧ c ≠ '*' ∧ c ≠ '\n' ∧ c ≠ '<' ∧ c ≠ '>' ∧ c ≠ '&')
    (ha : a ≠ "") (haw : ∀ c ∈ a.data, isWordCh c = true)
    (D : List HNode) :
    ∃ ns, (htmlRenderTok [] { type := .sceneHeading, text := some s, vfx := vf, sceneNum := some (.str a) }).foldl tkStep (tkNeutral D) = tkNeutral (D ++ ns) ∧
      (collectPs ns).map paraOfP =
        tokenParas [] { type := .sceneHeading, text := some s, vfx := vf, sceneNum := some (.str a) } := by
  have hplain : ∀ c ∈ s.data, c ≠ '<' ∧ c ≠ '&' :=
    fun c hc => ⟨(hchars c hc).2.2.2.1, (hchars c hc).2.2.2.2.2⟩
  have hinls : wrapMarkInl [] (noteSplitInl s.data) = [Inline.txt s.data] :=
    wrapMark_plain s.data hne (fun c hc => (hchars c hc).1)
  have hw : wrapMarkStr [] (noteRep s.data) = s.data := by
    rw [noteRep_plain s.data (fun c hc => (hchars c hc).1)]
    exact wrapMarkStr_nil s.data
  have htr2 : jsValTruthy (JsVal.str a) = true := by simp [jsValTruthy, ha]
  have hadne : a.data ≠ [] := by
    intro he
    apply ha
    cases a with
    | mk d =>
      simp only at he
      rw [he]
  obtain ⟨c0, t0, hsd⟩ : ∃ c0 t0, a.data = c0 :: t0 := by
    cases hx : a.data with
    | nil => exact absurd hx hadne
    | cons c0 t0 => exact ⟨c0, t0, rfl⟩
  have hc0 : isWordCh c0 = true := haw c0 (by rw [hsd]; exact List.mem_cons_self c0 t0)
  have ht0 : ∀ c ∈ t0, isWordCh c = true :=
    fun c hc => haw c (by rw [hsd]; exact List.mem_cons_of_mem c0 hc)
  rcases canonVfxNS_form vf hvf with hvf0 | ⟨lv, hlv, hveq, hvm⟩
  · subst hvf0
    refine ⟨[HNode.elem "p" [("class", "scene-heading".data),
      ("data-scene-number", a.data)] [HNode.text s.data],
      HNode.elem "p" [] [HNode.elem "br" [] []]], ?_, ?_⟩
    · unfold htmlRenderTok
      dsimp only [Option.getD, jsValChars]
      rw [hw, htr2, if_pos rfl]
      simp only [List.append_assoc, List.foldl_append, List.append_nil]
      rw [tk_pre_sceneHeading D]
      rw [tk_dq_close, tk_scene_attr]
      rw [hsd, tkBeforeValSt_run _ _ _ c0 t0 hc0 ht0]
      rw [tk_unq_gt, tkFrameSt_run _ _ s.data hplain]
      rw [tk_close_blank _ _ s.data hne]
      simp [List.nil_append, List.append_assoc]
    · have hclv : (splitWsCh ("scene-heading".data)).map String.mk =
          ["scene-heading"] := by decide
      unfold tokenParas
      dsimp only [Option.getD, jsValChars]
      rw [hinls, htr2, if_pos rfl]
      unfold vfxParts
      dsimp only
      rw [collectPs_p, collectPs_textKid]
      simp only [collectPs, collectP, List.nil_append, List.append_nil, List.map_cons,
        List.map_nil]
      rw [paraOfP_cls_scene, hclv]
      rfl
  · subst hveq
    have hvne : String.mk (' ' :: lv.data) ≠ "" :=
      strMk_ne_empty _ (by simp)
    refine ⟨[HNode.elem "p"
        [("class", "scene-heading".data ++ " vfx ".data ++ lv.data),
         ("data-scene-number", a.data)] [HNode.text s.data],
      HNode.elem "p" [] [HNode.elem "br" [] []]], ?_, ?_⟩
    · unfold htmlRenderTok
      dsimp only [Option.getD, jsValChars]
      rw [hw, if_neg hvne]
      rw [hvm, htr2, if_pos rfl]
      dsimp only
      simp only [List.append_assoc, List.foldl_append, List.append_nil,
        List.nil_append]
      rw [tk_pre_sceneHeading D]
      rw [tkValDqSt_run _ _ _ _ (" vfx ").data (by decide)]
      rw [tkValDqSt_run _ _ _ _ lv.data (vfxLevel_dq lv hlv)]
      rw [tk_dq_close, tk_scene_attr]
      rw [hsd, tkBeforeValSt_run _ _ _ c0 t0 hc0 ht0]
      rw [tk_unq_gt, tkFrameSt_run _ _ s.data hplain]
      rw [tk_close_blank _ _ s.data hne]
      simp [List.nil_append, List.append_assoc]
    · have hclv : (splitWsCh ("scene-heading".data ++ " vfx ".data ++
          lv.data)).map String.mk = ["scene-heading", "vfx", lv] := by
        fin_cases hlv <;> decide
      unfold tokenParas
      dsimp only [Option.getD]
      rw [hinls, htr2, if_pos rfl]
      unfold vfxParts
      dsimp only
      rw [hvm]
      dsimp only
      rw [collectPs_p, collectPs_textKid]
      simp only [collectPs, collectP, List.nil_append, List.append_nil, List.map_cons,
        List.map_nil]
      rw [paraOfP_cls_scene, hclv]
      rfl

theorem tk_line_list (openFrag : Chars) (atl : List (String × Chars))
    (hopen : ∀ E, openFrag.foldl tkStep (tkNeutral E) = tkFrameSt E atl) :
    ∀ ps : List Chars, (∀ p ∈ ps, p ≠ [] ∧ ∀ c ∈ p, c ≠ '<' ∧ c ≠ '&') →
    ∀ E, ((ps.map (fun p => openFrag ++ (p ++ ("</p>").data))).flatten).foldl
        tkStep (tkNeutral E) =
      tkNeutral (E ++ ps.map (fun p => HNode.elem "p" atl [HNode.text p])) := by
  intro ps
  induction ps with
  | nil => intro _ E; simp
  | cons p ps ih =>
    intro hps E
    obtain ⟨hp1, hp2⟩ := hps p (List.mem_cons_self p ps)
    rw [List.map_cons, List.flatten_cons]
    simp only [List.append_assoc, List.foldl_append]
    rw [hopen E, tkFrameSt_run _ _ p hp2, tk_close_p _ _ p hp1]
    rw [ih (fun q hq => hps q (List.mem_cons_of_mem p hq))
      (E ++ [HNode.elem "p" atl [HNode.text p]])]
    simp [List.append_assoc]

theorem collectPs_map_line (atl : List (String × Chars)) (ps : List Chars) :
    collectPs (ps.map (fun p => HNode.elem "p" atl [HNode.text p])) =
      ps.map (fun p => HNode.elem "p" atl [HNode.text p]) := by
  induction ps with
  | nil => simp [collectPs, collectP]
  | cons p ps ih =>
    rw [List.map_cons, collectPs_p, collectPs_textKid]
    simp [ih]

theorem collectPs_blank1 :
    collectPs [HNode.elem "p" [] [HNode.elem "br" [] []]] =
      [HNode.elem "p" [] [HNode.elem "br" [] []]] := by
  simp [collectPs, collectP]

theorem tk_tok_dialogue (s : String) (vf : Option String)
    (hvf : canonVfx vf = true)
    (hall : ∀ p ∈ splitCh '\n' s.data, canonLine p = true)
    (D : List HNode) :
    ∃ ns, (htmlRenderTok [] { type := .dialogue, text := some s, vfx := vf }).foldl tkStep (tkNeutral D) = tkNeutral (D ++ ns) ∧
      (collectPs ns).map paraOfP =
        tokenParas [] { type := .dialogue, text := some s, vfx := vf } := by
  obtain ⟨hsne, hplain2⟩ := blockText_facts s hall
  have hinls : wrapMarkInl [] (noteSplitInl s.data) = [Inline.txt s.data] :=
    wrapMark_plain s.data hsne (fun c hc => (hplain2 c hc).1)
  have hw : wrapMarkStr [] (noteRep s.data) = s.data := by
    rw [noteRep_plain s.data (fun c hc => (hplain2 c hc).1)]
    exact wrapMarkStr_nil s.data
  have hfil : (splitCh '\n' s.data).filter (fun ln => trimCh ln ≠ []) =
      splitCh '\n' s.data := by
    rw [List.filter_eq_self]
    intro p hp
    obtain ⟨hp1, hp2, -⟩ := canonLine_facts p (hall p hp)
    rw [hp2]
    exact decide_eq_true hp1
  have hps : ∀ p ∈ splitCh '\n' s.data,
      p ≠ [] ∧ ∀ c ∈ p, c ≠ '<' ∧ c ≠ '&' := by
    intro p hp
    obtain ⟨hp1, -, hp3⟩ := canonLine_facts p (hall p hp)
    exact ⟨hp1, fun c hc => ⟨(hp3 c hc).2.2.2.1, (hp3 c hc).2.2.2.2.2⟩⟩
  have hmap1 : (splitCh '\n' s.data).map
      (fun p => if p = [] then ([] : List Inline) else [Inline.txt p]) =
      (splitCh '\n' s.data).map (fun p => [Inline.txt p]) :=
    List.map_congr_left (fun p hp => if_neg ((canonLine_facts p (hall p hp)).1))
  have hfil2 : ((splitCh '\n' s.data).map (fun p => [Inline.txt p])).filter
      lineNonBlank = (splitCh '\n' s.data).map (fun p => [Inline.txt p]) := by
    rw [List.filter_eq_self]
    intro x hx
    obtain ⟨p, hp, he⟩ := List.mem_map.mp hx
    subst he
    obtain ⟨hp1, hp2, -⟩ := canonLine_facts p (hall p hp)
    exact lineNonBlank_txt p (by rw [hp2]; exact hp1)
  rcases canonVfx_form vf hvf with hvf0 | ⟨lv, ds, hlv, hds, hveq, hvm⟩
  · subst hvf0
    refine ⟨(splitCh '\n' s.data).map
        (fun p => HNode.elem "p" [("class", "dialogue".data)] [HNode.text p]) ++
      [HNode.elem "p" [] [HNode.elem "br" [] []]], ?_, ?_⟩
    · unfold htmlRenderTok
      dsimp only [Option.getD]
      rw [hw, hfil]
      have hmap : (splitCh '\n' s.data).map (fun ln =>
          ("<p class=\"dialogue").data ++ [] ++ ("\"").data ++ [] ++
            (">").data ++ trimCh ln ++ ("</p>").data) =
          (splitCh '\n' s.data).map (fun p =>
            (("<p class=\"dialogue").data ++ ("\"").data ++ (">").data) ++
              (p ++ ("</p>").data)) :=
        List.map_congr_left (fun p hp => by
          obtain ⟨-, hp2, -⟩ := canonLine_facts p (hall p hp)
          rw [hp2]
          simp [List.append_assoc])
      rw [hmap]
      have hopen : ∀ E, (("<p class=\"dialogue").data ++ ("\"").data ++
          (">").data).foldl tkStep (tkNeutral E) =
          tkFrameSt E [("class", "dialogue".data)] := by
        intro E
        simp only [List.append_assoc, List.foldl_append]
        rw [tk_pre_dialogue E, tk_dq_close, tk_afterq_gt]
        rfl
      simp only [List.foldl_append]
      rw [tk_line_list _ _ hopen (splitCh '\n' s.data) hps D, tk_blank_p]
      simp [List.append_assoc]
    · have hclv : (splitWsCh ("dialogue".data)).map String.mk =
          ["dialogue"] := by decide
      unfold tokenParas
      dsimp only [Option.getD]
      rw [hinls, splitInlLines_txt, hmap1, hfil2, List.map_map]
      have hmap2 : (splitCh '\n' s.data).map
          ((fun ln => Para.mk ("dialogue" :: (vfxParts none).1) none none
              ((vfxParts none).2) (trimInl ln)) ∘ (fun p => [Inline.txt p])) =
          (splitCh '\n' s.data).map
            (fun p => Para.mk ["dialogue"] none none none [Inline.txt p]) := by
        apply List.map_congr_left
        intro p hp
        obtain ⟨hp1, hp2, -⟩ := canonLine_facts p (hall p hp)
        simp [Function.comp, trimInl_plain p hp1 hp2, vfxParts]
      rw [hmap2]
      rw [collectPs_append, collectPs_map_line, collectPs_blank1]
      rw [List.map_append, List.map_map]
      simp only [Function.comp_def, paraOfP_cls, paraOfP_blank, hclv]
      rfl
  · subst hveq
    have hvne : String.mk (ds ++ ' ' :: lv.data) ≠ "" :=
      strMk_ne_empty _ (by simp)
    by_cases hde : ds = []
    · subst hde
      have hvp : vfxParts (some (String.mk ([] ++ ' ' :: lv.data))) =
          (["vfx", String.mk lv.data], none) := by
        unfold vfxParts
        dsimp only
        rw [hvm, if_pos rfl]
        rfl
      refine ⟨(splitCh '\n' s.data).map (fun p => HNode.elem "p"
          [("class", "dialogue".data ++ " vfx ".data ++ lv.data)]
          [HNode.text p]) ++
        [HNode.elem "p" [] [HNode.elem "br" [] []]], ?_, ?_⟩
      · unfold htmlRenderTok
        dsimp only [Option.getD]
        rw [hw, if_neg hvne]
        rw [hvm, if_pos rfl]
        dsimp only
        rw [hfil]
        have hmap : (splitCh '\n' s.data).map (fun ln =>
            ("<p class=\"dialogue").data ++ ((" vfx ").data ++ lv.data) ++
              ("\"").data ++ [] ++ (">").data ++ trimCh ln ++ ("</p>").data) =
            (splitCh '\n' s.data).map (fun p =>
              (("<p class=\"dialogue").data ++ (" vfx ").data ++ lv.data ++
                ("\"").data ++ (">").data) ++ (p ++ ("</p>").data)) :=
          List.map_congr_left (fun p hp => by
            obtain ⟨-, hp2, -⟩ := canonLine_facts p (hall p hp)
            rw [hp2]
            simp [List.append_assoc])
        rw [hmap]
        have hopen : ∀ E, (("<p class=\"dialogue").data ++ (" vfx ").data ++
            lv.data ++ ("\"").data ++ (">").data).foldl tkStep (tkNeutral E) =
            tkFrameSt E
              [("class", "dialogue".data ++ " vfx ".data ++ lv.data)] := by
          intro E
          simp only [List.append_assoc, List.foldl_append]
          rw [tk_pre_dialogue E]
          rw [tkValDqSt_run _ _ _ _ (" vfx ").data (by decide)]
          rw [tkValDqSt_run _ _ _ _ lv.data (vfxLevel_dq lv hlv)]
          rw [tk_dq_close, tk_afterq_gt]
          rfl
        simp only [List.foldl_append]
        rw [tk_line_list _ _ hopen (splitCh '\n' s.data) hps D, tk_blank_p]
        simp [List.append_assoc]
      · have hclv : (splitWsCh ("dialogue".data ++ " vfx ".data ++
            lv.data)).map String.mk = ["dialogue", "vfx", lv] := by
          fin_cases hlv <;> decide
        unfold tokenParas
        dsimp only [Option.getD]
        rw [hinls, splitInlLines_txt, hmap1, hfil2, List.map_map, hvp]
        have hmap2 : (splitCh '\n' s.data).map
            ((fun ln => Para.mk ("dialogue" :: ["vfx", String.mk lv.data])
                none none none (trimInl ln)) ∘ (fun p => [Inline.txt p])) =
            (splitCh '\n' s.data).map
              (fun p => Para.mk ("dialogue" :: ["vfx", String.mk lv.data])
                none none none [Inline.txt p]) := by
          apply List.map_congr_left
          intro p hp
          obtain ⟨hp1, hp2, -⟩ := canonLine_facts p (hall p hp)
          simp [Function.comp, trimInl_plain p hp1 hp2]
        rw [hmap2]
        rw [collectPs_append, collectPs_map_line, collectPs_blank1]
        rw [List.map_append, List.map_map]
        simp only [Function.comp_def, paraOfP_cls, paraOfP_blank, hclv]
        rfl
    · have hvp : vfxParts (some (String.mk (ds ++ ' ' :: lv.data))) =
          (["vfx", String.mk lv.data], some (String.mk ds)) := by
        unfold vfxParts
        dsimp only
        rw [hvm, if_neg hde]
        rfl
      refine ⟨(splitCh '\n' s.data).map (fun p => HNode.elem "p"
          [("class", "dialogue".data ++ " vfx ".data ++ lv.data),
           ("data-shot-number", ds)] [HNode.text p]) ++
        [HNode.elem "p" [] [HNode.elem "br" [] []]], ?_, ?_⟩
      · unfold htmlRenderTok
        dsimp only [Option.getD]
        rw [hw, if_neg hvne]
        rw [hvm, if_neg hde]
        dsimp only
        rw [hfil]
        have hmap : (splitCh '\n' s.data).map (fun ln =>
            ("<p class=\"dialogue").data ++ ((" vfx ").data ++ lv.data) ++
              ("\"").data ++
              ((" data-shot-number=\"").data ++ ds ++ ("\"").data) ++
              (">").data ++ trimCh ln ++ ("</p>").data) =
            (splitCh '\n' s.data).map (fun p =>
              (("<p class=\"dialogue").data ++ (" vfx ").data ++ lv.data ++
                ("\"").data ++ (" data-shot-number=\"").data ++ ds ++
                ("\"").data ++ (">").data) ++ (p ++ ("</p>").data)) :=
          List.map_congr_left (fun p hp => by
            obtain ⟨-, hp2, -⟩ := canonLine_facts p (hall p hp)
            rw [hp2]
            simp [List.append_assoc])
        rw [hmap]
        have hopen : ∀ E, (("<p class=\"dialogue").data ++ (" vfx ").data ++
            lv.data ++ ("\"").data ++ (" data-shot-number=\"").data ++ ds ++
            ("\"").data ++ (">").data).foldl tkStep (tkNeutral E) =
            tkFrameSt E
              [("class", "dialogue".data ++ " vfx ".data ++ lv.data),
               ("data-shot-number", ds)] := by
          intro E
          simp only [List.append_assoc, List.foldl_append]
          rw [tk_pre_dialogue E]
          rw [tkValDqSt_run _ _ _ _ (" vfx ").data (by decide)]
          rw [tkValDqSt_run _ _ _ _ lv.data (vfxLevel_dq lv hlv)]
          rw [tk_dq_close, tk_shot_attr]
          rw [tkValDqSt_run _ _ _ _ ds (digits_dq ds hds)]
          rw [tk_dq_close, tk_afterq_gt]
          rfl
        simp only [List.foldl_append]
        rw [tk_line_list _ _ hopen (splitCh '\n' s.data) hps D, tk_blank_p]
        simp [List.append_assoc]
      · have hclv : (splitWsCh ("dialogue".data ++ " vfx ".data ++
            lv.data)).map String.mk = ["dialogue", "vfx", lv] := by
          fin_cases hlv <;> decide
        unfold tokenParas
        dsimp only [Option.getD]
        rw [hinls, splitInlLines_txt, hmap1, hfil2, List.map_map, hvp]
        have hmap2 : (splitCh '\n' s.data).map
            ((fun ln => Para.mk ("dialogue" :: ["vfx", String.mk lv.data])
                none none (some (String.mk ds)) (trimInl ln)) ∘
              (fun p => [Inline.txt p])) =
            (splitCh '\n' s.data).map
              (fun p => Para.mk ("dialogue" :: ["vfx", String.mk lv.data])
                none none (some (String.mk ds)) [Inline.txt p]) := by
          apply List.map_congr_left
          intro p hp
          obtain ⟨hp1, hp2, -⟩ := canonLine_facts p (hall p hp)
          simp [Function.comp, trimInl_plain p hp1 hp2]
        rw [hmap2]
        rw [collectPs_append, collectPs_map_line, collectPs_blank1]
        rw [List.map_append, List.map_map]
        simp only [Function.comp_def, paraOfP_cls_shot, paraOfP_blank, hclv]
        rfl

theorem tk_tok_action (s : String) (vf : Option String)
    (hvf : canonVfx vf = true)
    (hall : ∀ p ∈ splitCh '\n' s.data, canonLine p = true)
    (D : List HNode) :
    ∃ ns, (htmlRenderTok [] { type := .action, text := some s, vfx := vf }).foldl tkStep (tkNeutral D) = tkNeutral (D ++ ns) ∧
      (collectPs ns).map paraOfP =
        tokenParas [] { type := .action, text := some s, vfx := vf } := by
  obtain ⟨hsne, hplain2⟩ := blockText_facts s hall
  have hinls : wrapMarkInl [] (noteSplitInl s.data) = [Inline.txt s.data] :=
    wrapMark_plain s.data hsne (fun c hc => (hplain2 c hc).1)
  have hw : wrapMarkStr [] (noteRep s.data) = s.data := by
    rw [noteRep_plain s.data (fun c hc => (hplain2 c hc).1)]
    exact wrapMarkStr_nil s.data
  have hfil : (splitCh '\n' s.data).filter (fun ln => trimCh ln ≠ []) =
      splitCh '\n' s.data := by
    rw [List.filter_eq_self]
    intro p hp
    obtain ⟨hp1, hp2, -⟩ := canonLine_facts p (hall p hp)
    rw [hp2]
    exact decide_eq_true hp1
  have hps : ∀ p ∈ splitCh '\n' s.data,
      p ≠ [] ∧ ∀ c ∈ p, c ≠ '<' ∧ c ≠ '&' := by
    intro p hp
    obtain ⟨hp1, -, hp3⟩ := canonLine_facts p (hall p hp)
    exact ⟨hp1, fun c hc => ⟨(hp3 c hc).2.2.2.1, (hp3 c hc).2.2.2.2.2⟩⟩
  have hmap1 : (splitCh '\n' s.data).map
      (fun p => if p = [] then ([] : List Inline) else [Inline.txt p]) =
      (splitCh '\n' s.data).map (fun p => [Inline.txt p]) :=
    List.map_congr_left (fun p hp => if_neg ((canonLine_facts p (hall p hp)).1))
  have hfil2 : ((splitCh '\n' s.data).map (fun p => [Inline.txt p])).filter
      lineNonBlank = (splitCh '\n' s.data).map (fun p => [Inline.txt p]) := by
    rw [List.filter_eq_self]
    intro x hx
    obtain ⟨p, hp, he⟩ := List.mem_map.mp hx
    subst he
    obtain ⟨hp1, hp2, -⟩ := canonLine_facts p (hall p hp)
    exact lineNonBlank_txt p (by rw [hp2]; exact hp1)
  rcases canonVfx_form vf hvf with hvf0 | ⟨lv, ds, hlv, hds, hveq, hvm⟩
  · subst hvf0
    refine ⟨(splitCh '\n' s.data).map
        (fun p => HNode.elem "p" [("class", "action".data)] [HNode.text p]) ++
      [HNode.elem "p" [] [HNode.elem "br" [] []]], ?_, ?_⟩
    · unfold htmlRenderTok
      dsimp only [Option.getD]
      rw [hw, hfil]
      have hmap : (splitCh '\n' s.data).map (fun ln =>
          ("<p class=\"action").data ++ [] ++ ("\"").data ++ [] ++
            (">").data ++ trimCh ln ++ ("</p>").data) =
          (splitCh '\n' s.data).map (fun p =>
            (("<p class=\"action").data ++ ("\"").data ++ (">").data) ++
              (p ++ ("</p>").data)) :=
        List.map_congr_left (fun p hp => by
          obtain ⟨-, hp2, -⟩ := canonLine_facts p (hall p hp)
          rw [hp2]
          simp [List.append_assoc])
      rw [hmap]
      have hopen : ∀ E, (("<p class=\"action").data ++ ("\"").data ++
          (">").data).foldl tkStep (tkNeutral E) =
          tkFrameSt E [("class", "action".data)] := by
        intro E
        simp only [List.append_assoc, List.foldl_append]
        rw [tk_pre_action E, tk_dq_close, tk_afterq_gt]
        rfl
      simp only [List.foldl_append]
      rw [tk_line_list _ _ hopen (splitCh '\n' s.data) hps D, tk_blank_p]
      simp [List.append_assoc]
    · have hclv : (splitWsCh ("action".data)).map String.mk =
          ["action"] := by decide
      unfold tokenParas
      dsimp only [Option.getD]
      rw [hinls, splitInlLines_txt, hmap1, hfil2, List.map_map]
      have hmap2 : (splitCh '\n' s.data).map
          ((fun ln => Para.mk ("action" :: (vfxParts none).1) none none
              ((vfxParts none).2) (trimInl ln)) ∘ (fun p => [Inline.txt p])) =
          (splitCh '\n' s.data).map
            (fun p => Para.mk ["action"] none none none [Inline.txt p]) := by
        apply List.map_congr_left
        intro p hp
        obtain ⟨hp1, hp2, -⟩ := canonLine_facts p (hall p hp)
        simp [Function.comp, trimInl_plain p hp1 hp2, vfxParts]
      rw [hmap2]
      rw [collectPs_append, collectPs_map_line, collectPs_blank1]
      rw [List.map_append, List.map_map]
      simp only [Function.comp_def, paraOfP_cls, paraOfP_blank, hclv]
      rfl
  · subst hveq
    have hvne : String.mk (ds ++ ' ' :: lv.data) ≠ "" :=
      strMk_ne_empty _ (by simp)
    by_cases hde : ds = []
    · subst hde
      have hvp : vfxParts (some (String.mk ([] ++ ' ' :: lv.data))) =
          (["vfx", String.mk lv.data], none) := by
        unfold vfxParts
        dsimp only
        rw [hvm, if_pos rfl]
        rfl
      refine ⟨(splitCh '\n' s.data).map (fun p => HNode.elem "p"
          [("class", "action".data ++ " vfx ".data ++ lv.data)]
          [HNode.text p]) ++
        [HNode.elem "p" [] [HNode.elem "br" [] []]], ?_, ?_⟩
      · unfold htmlRenderTok
        dsimp only [Option.getD]
        rw [hw, if_neg hvne]
        rw [hvm, if_pos rfl]
        dsimp only
        rw [hfil]
        have hmap : (splitCh '\n' s.data).map (fun ln =>
            ("<p class=\"action").data ++ ((" vfx ").data ++ lv.data) ++
              ("\"").data ++ [] ++ (">").data ++ trimCh ln ++ ("</p>").data) =
            (splitCh '\n' s.data).map (fun p =>
              (("<p class=\"action").data ++ (" vfx ").data ++ lv.data ++
                ("\"").data ++ (">").data) ++ (p ++ ("</p>").data)) :=
          List.map_congr_left (fun p hp => by
            obtain ⟨-, hp2, -⟩ := canonLine_facts p (hall p hp)
            rw [hp2]
            simp [List.append_assoc])
        rw [hmap]
        have hopen : ∀ E, (("<p class=\"action").data ++ (" vfx ").data ++
            lv.data ++ ("\"").data ++ (">").data).foldl tkStep (tkNeutral E) =
            tkFrameSt E
              [("class", "action".data ++ " vfx ".data ++ lv.data)] := by
          intro E
          simp only [List.append_assoc, List.foldl_append]
          rw [tk_pre_action E]
          rw [tkValDqSt_run _ _ _ _ (" vfx ").data (by decide)]
          rw [tkValDqSt_run _ _ _ _ lv.data (vfxLevel_dq lv hlv)]
          rw [tk_dq_close, tk_afterq_gt]
          rfl
        simp only [List.foldl_append]
        rw [tk_line_list _ _ hopen (splitCh '\n' s.data) hps D, tk_blank_p]
        simp [List.append_assoc]
      · have hclv : (splitWsCh ("action".data ++ " vfx ".data ++
            lv.data)).map String.mk = ["action", "vfx", lv] := by
          fin_cases hlv <;> decide
        unfold tokenParas
        dsimp only [Option.getD]
        rw [hinls, splitInlLines_txt, hmap1, hfil2, List.map_map, hvp]
        have hmap2 : (splitCh '\n' s.data).map
            ((fun ln => Para.mk ("action" :: ["vfx", String.mk lv.data])
                none none none (trimInl ln)) ∘ (fun p => [Inline.txt p])) =
            (splitCh '\n' s.data).map
              (fun p => Para.mk ("action" :: ["vfx", String.mk lv.data])
                none none none [Inline.txt p]) := by
          apply List.map_congr_left
          intro p hp
          obtain ⟨hp1, hp2, -⟩ := canonLine_facts p (hall p hp)
          simp [Function.comp, trimInl_plain p hp1 hp2]
        rw [hmap2]
        rw [collectPs_append, collectPs_map_line, collectPs_blank1]
        rw [List.map_append, List.map_map]
        simp only [Function.comp_def, paraOfP_cls, paraOfP_blank, hclv]
        rfl
    · have hvp : vfxParts (some (String.mk (ds ++ ' ' :: lv.data))) =
          (["vfx", String.mk lv.data], some (String.mk ds)) := by
        unfold vfxParts
        dsimp only
        rw [hvm, if_neg hde]
        rfl
      refine ⟨(splitCh '\n' s.data).map (fun p => HNode.elem "p"
          [("class", "action".data ++ " vfx ".data ++ lv.data),
           ("data-shot-number", ds)] [HNode.text p]) ++
        [HNode.elem "p" [] [HNode.elem "br" [] []]], ?_, ?_⟩
      · unfold htmlRenderTok
        dsimp only [Option.getD]
        rw [hw, if_neg hvne]
        rw [hvm, if_neg hde]
        dsimp only
        rw [hfil]
        have hmap : (splitCh '\n' s.data).map (fun ln =>
            ("<p class=\"action").data ++ ((" vfx ").data ++ lv.data) ++
              ("\"").data ++
              ((" data-shot-number=\"").data ++ ds ++ ("\"").data) ++
              (">").data ++ trimCh ln ++ ("</p>").data) =
            (splitCh '\n' s.data).map (fun p =>
              (("<p class=\"action").data ++ (" vfx ").data ++ lv.data ++
                ("\"").data ++ (" data-shot-number=\"").data ++ ds ++
                ("\"").data ++ (">").data) ++ (p ++ ("</p>").data)) :=
          List.map_congr_left (fun p hp => by
            obtain ⟨-, hp2, -⟩ := canonLine_facts p (hall p hp)
            rw [hp2]
            simp [List.append_assoc])
        rw [hmap]
        have hopen : ∀ E, (("<p class=\"action").data ++ (" vfx ").data ++
            lv.data ++ ("\"").data ++ (" data-shot-number=\"").data ++ ds ++
            ("\"").data ++ (">").data).foldl tkStep (tkNeutral E) =
            tkFrameSt E
              [("class", "action".data ++ " vfx ".data ++ lv.data),
               ("data-shot-number", ds)] := by
          intro E
          simp only [List.append_assoc, List.foldl_append]
          rw [tk_pre_action E]
          rw [tkValDqSt_run _ _ _ _ (" vfx ").data (by decide)]
          rw [tkValDqSt_run _ _ _ _ lv.data (vfxLevel_dq lv hlv)]
          rw [tk_dq_close, tk_shot_attr]
          rw [tkValDqSt_run _ _ _ _ ds (digits_dq ds hds)]
          rw [tk_dq_close, tk_afterq_gt]
          rfl
        simp only [List.foldl_append]
        rw [tk_line_list _ _ hopen (splitCh '\n' s.data) hps D, tk_blank_p]
        simp [List.append_assoc]
      · have hclv : (splitWsCh ("action".data ++ " vfx ".data ++
            lv.data)).map String.mk = ["action", "vfx", lv] := by
          fin_cases hlv <;> decide
        unfold tokenParas
        dsimp only [Option.getD]
        rw [hinls, splitInlLines_txt, hmap1, hfil2, List.map_map, hvp]
        have hmap2 : (splitCh '\n' s.data).map
            ((fun ln => Para.mk ("action" :: ["vfx", String.mk lv.data])
                none none (some (String.mk ds)) (trimInl ln)) ∘
              (fun p => [Inline.txt p])) =
            (splitCh '\n' s.data).map
              (fun p => Para.mk ("action" :: ["vfx", String.mk lv.data])
                none none (some (String.mk ds)) [Inline.txt p]) := by
          apply List.map_congr_left
          intro p hp
          obtain ⟨hp1, hp2, -⟩ := canonLine_facts p (hall p hp)
          simp [Function.comp, trimInl_plain p hp1 hp2]
        rw [hmap2]
        rw [collectPs_append, collectPs_map_line, collectPs_blank1]
        rw [List.map_append, List.map_map]
        simp only [Function.comp_def, paraOfP_cls_shot, paraOfP_blank, hclv]
        rfl


theorem tk_token (t : Token) (h : canonTok t = true) (D : List HNode) :
    ∃ ns, (htmlRenderTok [] t).foldl tkStep (tkNeutral D) = tkNeutral (D ++ ns) ∧
      (collectPs ns).map paraOfP = tokenParas [] t := by
  obtain ⟨ty, tx, vf, sn, pn, ch, du⟩ := t
  cases ty with
  | dialogueBegin => exact Bool.noConfusion h
  | dialogueEnd => exact Bool.noConfusion h
  | transition =>
    simp only [canonTok, Bool.and_eq_true, decide_eq_true_eq, and_assoc] at h
    obtain ⟨h1, h2, h3, h4, h5, h6⟩ := h
    subst h3
    subst h4
    subst h5
    subst h6
    obtain ⟨s, hs, hne, htr, hchars⟩ := canonText1_facts _ h1
    have hs2 : tx = some s := hs
    subst hs2
    exact tk_tok_transition s vf h2 hne htr hchars D
  | flashback =>
    simp only [canonTok, Bool.and_eq_true, decide_eq_true_eq, and_assoc] at h
    obtain ⟨h1, h2, h3, h4, h5, h6⟩ := h
    subst h3
    subst h4
    subst h5
    subst h6
    obtain ⟨s, hs, hne, htr, hchars⟩ := canonText1_facts _ h1
    have hs2 : tx = some s := hs
    subst hs2
    exact tk_tok_flashback s vf h2 hne hchars D
  | centered =>
    simp only [canonTok, Bool.and_eq_true, decide_eq_true_eq, and_assoc] at h
    obtain ⟨h1, h2, h3, h4, h5, h6⟩ := h
    subst h3
    subst h4
    subst h5
    subst h6
    obtain ⟨s, hs, hne, htr, hchars⟩ := canonText1_facts _ h1
    have hs2 : tx = some s := hs
    subst hs2
    exact tk_tok_centered s vf h2 hne hchars D
  | character =>
    simp only [canonTok, Bool.and_eq_true, decide_eq_true_eq, and_assoc] at h
    obtain ⟨h1, h2, h3, h4, h5, h6⟩ := h
    subst h3
    subst h4
    subst h5
    subst h6
    obtain ⟨s, hs, hne, htr, hchars⟩ := canonText1_facts _ h1
    have hs2 : ch = some s := hs
    subst hs2
    exact tk_tok_character s vf h2 hne hchars D
  | parenthetical =>
    simp only [canonTok, Bool.and_eq_true, decide_eq_true_eq, and_assoc] at h
    obtain ⟨h1, h2, h3, h4, h5, h6⟩ := h
    subst h2
    subst h3
    subst h4
    subst h5
    subst h6
    obtain ⟨s, hs, hne, htr, hchars⟩ := canonText1_facts _ h1
    have hs2 : tx = some s := hs
    subst hs2
    exact tk_tok_parenthetical s hne hchars D
  | sceneHeading =>
    simp only [canonTok, Bool.and_eq_true, decide_eq_true_eq, and_assoc] at h
    obtain ⟨h1, h2, hsn, h4, h5, h6⟩ := h
    subst h4
    subst h5
    subst h6
    obtain ⟨s, hs, hne, htr, hchars⟩ := canonText1_facts _ h1
    have hs2 : tx = some s := hs
    subst hs2
    cases sn with
    | none => exact absurd hsn (by simp)
    | some v =>
      cases v with
      | num n => exact absurd hsn (by simp)
      | str a =>
        have h' := hsn
        simp only [Bool.and_eq_true, decide_eq_true_eq, List.all_eq_true] at h'
        exact tk_tok_sceneHeading s vf a h2 hne hchars h'.1
          (fun c hc => h'.2 c hc) D
  | pageBreak =>
    simp only [canonTok, Bool.and_eq_true, decide_eq_true_eq, and_assoc] at h
    obtain ⟨h1, h2, hpn, h4, h5, h6⟩ := h
    have h1x : tx = none := h1
    have h2x : vf = none := h2
    subst h1x
    subst h2x
    subst h4
    subst h5
    subst h6
    cases pn with
    | none => exact absurd hpn (by simp)
    | some v =>
      cases v with
      | num n => exact absurd hpn (by simp)
      | str q =>
        have h' := hpn
        simp only [List.all_eq_true] at h'
        exact tk_tok_pageBreak q (fun c hc => h' c hc) D
  | dialogue =>
    simp only [canonTok, Bool.and_eq_true, decide_eq_true_eq, and_assoc] at h
    obtain ⟨h1, h2, h3, h4, h5, h6⟩ := h
    subst h3
    subst h4
    subst h5
    subst h6
    obtain ⟨s, hs, hall⟩ := canonBlockText_facts _ h1
    have hs2 : tx = some s := hs
    subst hs2
    exact tk_tok_dialogue s vf h2 hall D
  | action =>
    simp only [canonTok, Bool.and_eq_true, decide_eq_true_eq, and_assoc] at h
    obtain ⟨h1, h2, h3, h4, h5, h6⟩ := h
    subst h3
    subst h4
    subst h5
    subst h6
    obtain ⟨s, hs, hall⟩ := canonBlockText_facts _ h1
    have hs2 : tx = some s := hs
    subst hs2
    exact tk_tok_action s vf h2 hall D

theorem tk_tokens (ts : List Token) (h : ∀ t ∈ ts, canonTok t = true) :
    ∀ D, ∃ ns, (tokensToHtmlStr ts []).foldl tkStep (tkNeutral D) =
        tkNeutral (D ++ ns) ∧
      (collectPs ns).map paraOfP = tokensToParas ts [] := by
  induction ts with
  | nil =>
    intro D
    exact ⟨[], by simp [tokensToHtmlStr], by simp [collectPs, tokensToParas]⟩
  | cons t ts ih =>
    intro D
    obtain ⟨ns1, ha1, ha2⟩ := tk_token t (h t (List.mem_cons_self t ts)) D
    obtain ⟨ns2, hb1, hb2⟩ :=
      ih (fun x hx => h x (List.mem_cons_of_mem t hx)) (D ++ ns1)
    refine ⟨ns1 ++ ns2, ?_, ?_⟩
    · rw [show tokensToHtmlStr (t :: ts) [] =
        htmlRenderTok [] t ++ tokensToHtmlStr ts [] from by
          simp [tokensToHtmlStr]]
      rw [List.foldl_append, ha1, hb1]
      simp [List.append_assoc]
    · rw [collectPs_append, List.map_append, ha2, hb2]
      rw [show tokensToParas (t :: ts) [] =
        tokenParas [] t ++ tokensToParas ts [] from by simp [tokensToParas]]

theorem parasOfHtml_render (ts : List Token) (h : ∀ t ∈ ts, canonTok t = true) :
    parasOfHtml (tokensToHtmlStr ts []) = tokensToParas ts [] := by
  obtain ⟨ns, h1, h2⟩ := tk_tokens ts h []
  unfold parasOfHtml parseHtml
  have h1x : (tokensToHtmlStr ts []).foldl tkStep {} = tkNeutral ([] ++ ns) := h1
  rw [h1x]
  rw [show tkNeutral ([] ++ ns) = tkNeutral ns from by simp]
  rw [tkFinish_neutral]
  exact h2

end BD

/-- C1 counterexample: the document round trip is not the identity on all
    token sequences; a dialogue token whose text carries the trailing
    newline the script parser itself produces comes back without it. -/
theorem c1_round_trip_counterexample :
    docRoundTrip [{ type := .dialogue, text := some "Hi\n" }] [] ≠
      ([{ type := .dialogue, text := some "Hi\n" }], []) := by decide

/-- C1 amended: on canonical tokens (texts trimmed, non-empty and free of
    note, mark, newline and markup-active characters, scene and page numbers
    made of word characters, vfx fields in the shape the converter itself
    emits, fields the converter does not rebuild absent, and no
    dialogue-begin or dialogue-end markers) with an empty entity registry,
    the document round trip through the rendered markup string and its
    reparse returns exactly the input tokens and no entities. -/
theorem c1_round_trip (ts : List Token) (h : ∀ t ∈ ts, canonTok t = true) :
    docRoundTrip ts [] = (ts, []) := by
  unfold docRoundTrip
  rw [parasOfHtml_render ts h]
  unfold parasToTokens tokensToParas
  dsimp only
  rw [docRoundTrip_canon ts h {} rfl rfl rfl]
  rw [hFlush_none _ rfl]
  rfl

/-- Concrete instance of the amended C1 on a nine-token canonical list
    covering every token type the converter round-trips. -/
theorem c1_round_trip_witness :
    docRoundTrip c1CanonList [] = (c1CanonList, []) :=
  c1_round_trip c1CanonList (by decide)
